import Mathlib

/-!
# Greedy cubic voxel mesher

A shallow embedding of `FVoxelGreedyCubicMesher` (VoxelGreedyCubicMesher.cpp):
the face extraction pass, the 2D greedy quad mesher, the 3D greedy box mesher
and the interior-box cull predicate, together with the properties proved of
them.

`GridSize` / `RENDER_CHUNK_SIZE` is a parameter `N`.  All bit indices the code
forms are below `N^3` (or `(N+2)^3`), which is a `uint32` template argument of
the bit array, so the unsigned index arithmetic does not wrap and is modelled
in `Nat`; the signed coordinates of `GetValue` and of `FVoxelIntBox` are `Int`.
-/

set_option autoImplicit false
set_option maxRecDepth 100000

/-! ## Bit grid -/

/-- Modelled from the spec: the class `TVoxelStaticBitArray` (its header is not
part of the sources).  A bit grid is the function from a bit index to the bit
stored there; packing into words only shows through `GetInternal`. -/
abbrev TVoxelStaticBitArray := Nat → Bool

/-- Modelled from the spec: `NumBitsPerWord` of `TVoxelStaticBitArray`, the
number of bits of one unsigned machine word (32 in the reference
configuration, where the row index of an `N = 32` layer is the word index). -/
def NumBitsPerWord : Nat := 32

namespace TVoxelStaticBitArray

/-- Modelled from the spec: `test(i)`, the bit stored at index `i`. -/
def Test (g : TVoxelStaticBitArray) (i : Nat) : Bool := g i

/-- Modelled from the spec: `set(i, v)`. -/
def Set (g : TVoxelStaticBitArray) (i : Nat) (v : Bool) : TVoxelStaticBitArray :=
  fun j => if j = i then v else g j

/-- Modelled from the spec: `test_and_clear(i)` returns the prior value and
unconditionally clears the bit. -/
def TestAndClear (g : TVoxelStaticBitArray) (i : Nat) : Bool × TVoxelStaticBitArray :=
  (g i, Set g i false)

/-- Modelled from the spec: `test_range(i, len)` is true iff every bit in
`[i, i+len)` is 1. -/
def TestRange (g : TVoxelStaticBitArray) (i len : Nat) : Bool :=
  (List.range len).all (fun k => g (i + k))

/-- Modelled from the spec: `set_range(i, len, v)`. -/
def SetRange (g : TVoxelStaticBitArray) (i len : Nat) (v : Bool) : TVoxelStaticBitArray :=
  fun j => if i ≤ j ∧ j < i + len then v else g j

/-- Modelled from the spec: `test_and_clear_range(i, len)` returns
`test_range`; if true it clears the range, if false the grid is unchanged. -/
def TestAndClearRange (g : TVoxelStaticBitArray) (i len : Nat) : Bool × TVoxelStaticBitArray :=
  if TestRange g i len then (true, SetRange g i len false) else (false, g)

/-- The value of the `n` bits starting at bit `start`, least significant first. -/
def packBits (g : TVoxelStaticBitArray) (start : Nat) : Nat → Nat
  | 0 => 0
  | n + 1 => (if g start then 1 else 0) + 2 * packBits g (start + 1) n

/-- Modelled from the spec: `GetInternal(w)`, the `w`-th machine word of the
packed array, holding bits `[w * NumBitsPerWord, (w+1) * NumBitsPerWord)`. -/
def GetInternal (g : TVoxelStaticBitArray) (w : Nat) : Nat :=
  packBits g (w * NumBitsPerWord) NumBitsPerWord

end TVoxelStaticBitArray

open TVoxelStaticBitArray (Test TestAndClear TestRange SetRange TestAndClearRange GetInternal)

/-! ## 2D greedy meshing -/

/-- The quad record `FCubicQuad{ Layer, X, Y, Width, Height }`. -/
structure FCubicQuad where
  Layer : Nat
  StartX : Nat
  StartY : Nat
  SizeX : Nat
  SizeY : Nat
deriving DecidableEq, Repr

/-- First word of the layer view `Faces`:
`InFaces.GetData() + Layer * GridSize * GridSize / InFaces.NumBitsPerWord`. -/
def layerWord (N Layer : Nat) : Nat := Layer * N * N / NumBitsPerWord

/-- Bit index in `InFaces` of bit `i` of the layer view `Faces`. -/
def facesIndex (N Layer i : Nat) : Nat := layerWord N Layer * NumBitsPerWord + i

/-- The loop `while (X + Width < GridSize && TestAndClear(X + Width, Y)) Width++`
of `GreedyMeshing2D`; the first argument bounds the number of iterations. -/
def widthLoop2D (N Layer X Y : Nat) : Nat → Nat → TVoxelStaticBitArray → Nat × TVoxelStaticBitArray
  | 0, Width, F => (Width, F)
  | fuel + 1, Width, F =>
    if X + Width < N then
      let r := TestAndClear F (facesIndex N Layer ((X + Width) + Y * N))
      if r.1 then widthLoop2D N Layer X Y fuel (Width + 1) r.2 else (Width, r.2)
    else (Width, F)

/-- The loop
`while (Y + Height < GridSize && TestAndClearLine(X, Width, Y + Height)) Height++`
of `GreedyMeshing2D`. -/
def heightLoop2D (N Layer X Y Width : Nat) : Nat → Nat → TVoxelStaticBitArray → Nat × TVoxelStaticBitArray
  | 0, Height, F => (Height, F)
  | fuel + 1, Height, F =>
    if Y + Height < N then
      let r := TestAndClearRange F (facesIndex N Layer (X + (Y + Height) * N)) Width
      if r.1 then heightLoop2D N Layer X Y Width fuel (Height + 1) r.2 else (Height, r.2)
    else (Height, F)

/-- The seed test at `(X, Y)`: the word test `Faces.GetInternal(Y) & Mask` with
`Mask = 1 << X` (a `uint32`) when `GridSize == 32`, `Faces.Test(X + Y * GridSize)`
otherwise. -/
def seedTest2D (N Layer X Y : Nat) (F : TVoxelStaticBitArray) : Bool :=
  if N = 32 then
    (GetInternal F (layerWord N Layer + Y) &&& ((1 <<< X) % 2 ^ 32)) != 0
  else
    Test F (facesIndex N Layer (X + Y * N))

/-- The loop `for (uint32 Y = 0; Y < GridSize;)` of `GreedyMeshing2D` for one
column `X` of one layer, from row `Y` on; returns the mask and the quads added
to `OutQuads`, in order. -/
def yLoop2D (N Layer X : Nat) : Nat → Nat → TVoxelStaticBitArray → TVoxelStaticBitArray × List FCubicQuad
  | 0, _, F => (F, [])
  | fuel + 1, Y, F =>
    if Y < N then
      if !seedTest2D N Layer X Y F then
        yLoop2D N Layer X fuel (Y + 1) F
      else
        let w := widthLoop2D N Layer X Y N 1 F
        let h := heightLoop2D N Layer X Y w.1 N 1 w.2
        let rest := yLoop2D N Layer X fuel (Y + h.1) h.2
        (rest.1, FCubicQuad.mk Layer X Y w.1 h.1 :: rest.2)
    else (F, [])

/-- One step of a `for` loop over a mutable bit grid whose body appends to an
output array: the body runs on the current grid and its output is appended. -/
def addOutput {β : Type} (body : Nat → TVoxelStaticBitArray → TVoxelStaticBitArray × List β)
    (st : TVoxelStaticBitArray × List β) (i : Nat) : TVoxelStaticBitArray × List β :=
  ((body i st.1).1, st.2 ++ (body i st.1).2)

/-- The loop `for (uint32 X = 0; X < GridSize; X++)` over one layer. -/
def layer2D (N Layer : Nat) (F : TVoxelStaticBitArray) : TVoxelStaticBitArray × List FCubicQuad :=
  (List.range N).foldl (addOutput (fun X G => yLoop2D N Layer X N 0 G)) (F, [])

/-- The function `GreedyMeshing2D<GridSize>(InFaces, OutQuads)`: the mask it
leaves in `InFaces` and the quads it adds to `OutQuads`, in order. -/
def GreedyMeshing2D (N : Nat) (InFaces : TVoxelStaticBitArray) :
    TVoxelStaticBitArray × List FCubicQuad :=
  (List.range N).foldl (addOutput (fun Layer G => layer2D N Layer G)) (InFaces, [])

/-! ## 3D greedy meshing -/

/-- The integer vector `FIntVector`. -/
structure FIntVector where
  X : Int
  Y : Int
  Z : Int
deriving DecidableEq, Repr

/-- The integer box `FVoxelIntBox(Min, Max)`; `Max` is exclusive. -/
structure FVoxelIntBox where
  Min : FIntVector
  Max : FIntVector
deriving DecidableEq, Repr

/-- The lambda `TestAndClear(X, Y, Z)` of `GreedyMeshing3D`. -/
def TestAndClear3D (N : Nat) (Data : TVoxelStaticBitArray) (X Y Z : Nat) :
    Bool × TVoxelStaticBitArray :=
  TestAndClear Data (X + Y * N + Z * N * N)

/-- The lambda `TestAndClearLine(X, SizeX, Y, Z)` of `GreedyMeshing3D`. -/
def TestAndClearLine3D (N : Nat) (Data : TVoxelStaticBitArray) (X SizeX Y Z : Nat) :
    Bool × TVoxelStaticBitArray :=
  TestAndClearRange Data (X + Y * N + Z * N * N) SizeX

/-- The lambda `TestAndClearBlock(X, SizeX, Y, SizeY, Z)` of `GreedyMeshing3D`:
a first loop returns false at the first row that is not entirely set, a second
loop clears all rows. -/
def TestAndClearBlock (N : Nat) (Data : TVoxelStaticBitArray) (X SizeX Y SizeY Z : Nat) :
    Bool × TVoxelStaticBitArray :=
  if (List.range SizeY).all (fun Index => TestRange Data (X + (Y + Index) * N + Z * N * N) SizeX) then
    (true, (List.range SizeY).foldl
      (fun D Index => SetRange D (X + (Y + Index) * N + Z * N * N) SizeX false) Data)
  else (false, Data)

/-- The loop `while (X + SizeX < GridSize && TestAndClear(X + SizeX, Y, Z)) SizeX++`. -/
def sizeXLoop3D (N X Y Z : Nat) : Nat → Nat → TVoxelStaticBitArray → Nat × TVoxelStaticBitArray
  | 0, SizeX, D => (SizeX, D)
  | fuel + 1, SizeX, D =>
    if X + SizeX < N then
      let r := TestAndClear3D N D (X + SizeX) Y Z
      if r.1 then sizeXLoop3D N X Y Z fuel (SizeX + 1) r.2 else (SizeX, r.2)
    else (SizeX, D)

/-- The loop
`while (Y + SizeY < GridSize && TestAndClearLine(X, SizeX, Y + SizeY, Z)) SizeY++`. -/
def sizeYLoop3D (N X Y Z SizeX : Nat) : Nat → Nat → TVoxelStaticBitArray → Nat × TVoxelStaticBitArray
  | 0, SizeY, D => (SizeY, D)
  | fuel + 1, SizeY, D =>
    if Y + SizeY < N then
      let r := TestAndClearLine3D N D X SizeX (Y + SizeY) Z
      if r.1 then sizeYLoop3D N X Y Z SizeX fuel (SizeY + 1) r.2 else (SizeY, r.2)
    else (SizeY, D)

/-- The loop
`while (Z + SizeZ < GridSize && TestAndClearBlock(X, SizeX, Y, SizeY, Z + SizeZ)) SizeZ++`. -/
def sizeZLoop3D (N X Y Z SizeX SizeY : Nat) :
    Nat → Nat → TVoxelStaticBitArray → Nat × TVoxelStaticBitArray
  | 0, SizeZ, D => (SizeZ, D)
  | fuel + 1, SizeZ, D =>
    if Z + SizeZ < N then
      let r := TestAndClearBlock N D X SizeX Y SizeY (Z + SizeZ)
      if r.1 then sizeZLoop3D N X Y Z SizeX SizeY fuel (SizeZ + 1) r.2 else (SizeZ, r.2)
    else (SizeZ, D)

/-- The loop `for (uint32 Z = 0; Z < GridSize;)` of `GreedyMeshing3D` for one
`(X, Y)`, from `Z` on; returns the grid and the boxes added to `OutCubes`. -/
def zLoop3D (N X Y : Nat) : Nat → Nat → TVoxelStaticBitArray → TVoxelStaticBitArray × List FVoxelIntBox
  | 0, _, D => (D, [])
  | fuel + 1, Z, D =>
    if Z < N then
      if !Test D (X + Y * N + Z * N * N) then
        zLoop3D N X Y fuel (Z + 1) D
      else
        let sx := sizeXLoop3D N X Y Z N 1 D
        let sy := sizeYLoop3D N X Y Z sx.1 N 1 sx.2
        let sz := sizeZLoop3D N X Y Z sx.1 sy.1 N 1 sy.2
        let rest := zLoop3D N X Y fuel (Z + sz.1) sz.2
        (rest.1, FVoxelIntBox.mk ⟨X, Y, Z⟩ ⟨(X : Int) + sx.1, (Y : Int) + sy.1, (Z : Int) + sz.1⟩
          :: rest.2)
    else (D, [])

/-- The function `GreedyMeshing3D<GridSize>(Data, OutCubes)`: the grid it leaves
in `Data` and the boxes it adds to `OutCubes`, in order. -/
def GreedyMeshing3D (N : Nat) (Data : TVoxelStaticBitArray) :
    TVoxelStaticBitArray × List FVoxelIntBox :=
  (List.range N).foldl
    (addOutput (fun X D => (List.range N).foldl (addOutput (fun Y E => zLoop3D N X Y N 0 E)) (D, [])))
    (Data, [])

/-! ## Face extraction, direction loop and collision boxes -/

/-- The lambda `GetValue(X, Y, Z)` of `CreateGeometryTemplate`, reading the
padded occupancy window `ValuesBitArray`; `CUBIC_CHUNK_SIZE_WITH_NEIGHBORS` is
`RENDER_CHUNK_SIZE + 2`. -/
def GetValue (N : Nat) (ValuesBitArray : TVoxelStaticBitArray) (X Y Z : Int) : Bool :=
  Test ValuesBitArray
    (((X + 1) + (Y + 1) * ((N : Int) + 2) + (Z + 1) * ((N : Int) + 2) * ((N : Int) + 2)).toNat)

/-- The lambda `GetFaceIndex(X, Y, Z)`. -/
def GetFaceIndex (N X Y Z : Nat) : Nat := X + Y * N + Z * N * N

/-- The array `FacesBitArrays` of six face masks. -/
abbrev FaceArrays := Fin 6 → TVoxelStaticBitArray

/-- The statement `if (!GetValue(..)) FacesBitArrays[d].Set(Index, true)`. -/
def setFaceIf (cond : Bool) (A : FaceArrays) (d : Fin 6) (Index : Nat) : FaceArrays :=
  if cond then Function.update A d (TVoxelStaticBitArray.Set (A d) Index true) else A

/-- The body of the 'Find faces' loops at voxel `(X, Y, Z)`. -/
def findFacesAt (N : Nat) (W : TVoxelStaticBitArray) (A : FaceArrays) (X Y Z : Nat) : FaceArrays :=
  if !GetValue N W X Y Z then A
  else
    let A0 := setFaceIf (!GetValue N W ((X : Int) - 1) Y Z) A 0 (GetFaceIndex N Y Z X)
    let A1 := setFaceIf (!GetValue N W ((X : Int) + 1) Y Z) A0 1 (GetFaceIndex N Y Z X)
    let A2 := setFaceIf (!GetValue N W X ((Y : Int) - 1) Z) A1 2 (GetFaceIndex N Z X Y)
    let A3 := setFaceIf (!GetValue N W X ((Y : Int) + 1) Z) A2 3 (GetFaceIndex N Z X Y)
    let A4 := setFaceIf (!GetValue N W X Y ((Z : Int) - 1)) A3 4 (GetFaceIndex N X Y Z)
    setFaceIf (!GetValue N W X Y ((Z : Int) + 1)) A4 5 (GetFaceIndex N X Y Z)

/-- The 'Find faces' pass: `FacesBitArrays.Memzero()` followed by the loops over
`Z`, `Y`, `X`. -/
def FindFaces (N : Nat) (W : TVoxelStaticBitArray) : FaceArrays :=
  (List.range N).foldl (fun A Z =>
    (List.range N).foldl (fun A Y =>
      (List.range N).foldl (fun A X => findFacesAt N W A X Y Z) A) A)
    (fun _ _ => false)

/-- The quads `GreedyMeshing2D` produces for `FacesBitArrays[Direction]`, which
the direction loop of `CreateGeometryTemplate` passes to `AddFace`. -/
def directionQuads (N : Nat) (W : TVoxelStaticBitArray) (Direction : Fin 6) : List FCubicQuad :=
  (GreedyMeshing2D N (FindFaces N W Direction)).2

/-- The vector `FVector`, with exact rational components. -/
structure FVector where
  X : ℚ
  Y : ℚ
  Z : ℚ

/-- The component assignment `V[Axis] = Value` on an `FVector`. -/
def FVector.setAxis (V : FVector) (Axis : Nat) (Value : ℚ) : FVector :=
  if Axis = 0 then { V with X := Value }
  else if Axis = 1 then { V with Y := Value }
  else { V with Z := Value }

/-- The component `V[Axis]` of an `FVector`. -/
def FVector.getAxis (V : FVector) (Axis : Nat) : ℚ :=
  if Axis = 0 then V.X else if Axis = 1 then V.Y else V.Z

/-- The fields of `FVoxelMesherVertex` that `AddFace` computes from the quad.
The `Material` field is read from the external data accelerator and is not
modelled. -/
structure FVoxelMesherVertex where
  Position : FVector
  Normal : FVector
  TangentX : FVector
  TextureCoordinate : ℚ × ℚ

/-- The lambda `SetPosition(X, Y)` of `AddFace`, giving the vertex then added. -/
def SetPosition (Direction : Nat) (Quad : FCubicQuad) (Step : Int)
    (Vertex : FVoxelMesherVertex) (X Y : Nat) : FVoxelMesherVertex :=
  let ZAxis := Direction / 2
  let bInverted : Nat := Direction % 2
  let XAxis := (ZAxis + 1) % 3
  let YAxis := (ZAxis + 2) % 3
  let P0 := Vertex.Position.setAxis XAxis ((Quad.StartX + Quad.SizeX * X : Nat) : ℚ)
  let P1 := P0.setAxis YAxis ((Quad.StartY + Quad.SizeY * Y : Nat) : ℚ)
  let P2 := P1.setAxis ZAxis ((Quad.Layer + bInverted : Nat) : ℚ)
  { Vertex with
    TextureCoordinate := (((Quad.SizeX * X : Nat) : ℚ), ((Quad.SizeY * Y : Nat) : ℚ))
    Position := ⟨(Step : ℚ) * P2.X - 1 / 2, (Step : ℚ) * P2.Y - 1 / 2, (Step : ℚ) * P2.Z - 1 / 2⟩ }

/-- The function `AddFace(Times, Direction, Quad, Step, Indices, Vertices, TextureData)`:
the new `Indices` and `Vertices`. -/
def AddFace (Direction : Nat) (Quad : FCubicQuad) (Step : Int)
    (Indices : List Nat) (Vertices : List FVoxelMesherVertex) :
    List Nat × List FVoxelMesherVertex :=
  let ZAxis := Direction / 2
  let bInverted : Bool := Direction % 2 = 1
  let XAxis := (ZAxis + 1) % 3
  let Indices1 :=
    if bInverted then
      Indices ++ [Vertices.length + 2, Vertices.length + 1, Vertices.length + 0,
                  Vertices.length + 3, Vertices.length + 2, Vertices.length + 0]
    else
      Indices ++ [Vertices.length + 0, Vertices.length + 1, Vertices.length + 2,
                  Vertices.length + 0, Vertices.length + 2, Vertices.length + 3]
  let Vertex : FVoxelMesherVertex :=
    { Position := ⟨0, 0, 0⟩
      Normal := (FVector.mk 0 0 0).setAxis ZAxis (if bInverted then 1 else -1)
      TangentX := (FVector.mk 0 0 0).setAxis XAxis 1
      TextureCoordinate := (0, 0) }
  let V0 := SetPosition Direction Quad Step Vertex 0 0
  let V1 := SetPosition Direction Quad Step V0 1 0
  let V2 := SetPosition Direction Quad Step V1 1 1
  let V3 := SetPosition Direction Quad Step V2 0 1
  (Indices1, Vertices ++ [V0, V1, V2, V3])

/-- The direction loop of `CreateGeometryTemplate`: for each direction, mesh
its face mask and add a face for every quad. -/
def addFaces (N : Nat) (Step : Int) (W : TVoxelStaticBitArray) :
    List Nat × List FVoxelMesherVertex :=
  (List.range 6).foldl (fun out Direction =>
    ((GreedyMeshing2D N (FindFaces N W (Fin.ofNat Direction))).2).foldl
      (fun o Quad => AddFace Direction Quad Step o.1 o.2) out) ([], [])

/-- The 'Copy' pass: the solid-voxel grid `BitArray` with
`BitArray.Set(X + N * Y + N * N * Z, GetValue(X, Y, Z))` for every chunk voxel. -/
def copyValues (N : Nat) (W : TVoxelStaticBitArray) : TVoxelStaticBitArray :=
  (List.range N).foldl (fun B Z =>
    (List.range N).foldl (fun B Y =>
      (List.range N).foldl (fun B X =>
        TVoxelStaticBitArray.Set B (X + N * Y + N * N * Z) (GetValue N W X Y Z)) B) B)
    (fun _ => false)

/-- The integers `lo, lo+1, .., hi-1`, the values of a loop
`for (int32 I = lo; I < hi; I++)`. -/
def intRange (lo hi : Int) : List Int :=
  (List.range (hi - lo).toNat).map (fun (k : Nat) => lo + (k : Int))

/-- The predicate given to `RemoveAllSwap` in the 'Cull' pass: true when no
voxel of the six slabs around `Cube` is empty. -/
def cullPredicate (N : Nat) (W : TVoxelStaticBitArray) (Cube : FVoxelIntBox) : Bool :=
  ((intRange Cube.Min.X Cube.Max.X).all fun X =>
    (intRange Cube.Min.Y Cube.Max.Y).all fun Y =>
      !(!GetValue N W X Y (Cube.Min.Z - 1) || !GetValue N W X Y Cube.Max.Z)) &&
  ((intRange Cube.Min.X Cube.Max.X).all fun X =>
    (intRange Cube.Min.Z Cube.Max.Z).all fun Z =>
      !(!GetValue N W X (Cube.Min.Y - 1) Z || !GetValue N W X Cube.Max.Y Z)) &&
  ((intRange Cube.Min.Y Cube.Max.Y).all fun Y =>
    (intRange Cube.Min.Z Cube.Max.Z).all fun Z =>
      !(!GetValue N W (Cube.Min.X - 1) Y Z || !GetValue N W Cube.Max.X Y Z))

/-- Modelled from the spec: `TArray::RemoveAllSwap` (engine container, not part
of the sources) removes the elements for which the predicate returns true; the
order of the remaining elements is not specified and is kept here. -/
def RemoveAllSwap {α : Type} (pred : α → Bool) (A : List α) : List α :=
  A.filter (fun a => !pred a)

/-- The collision part of `CreateGeometryTemplate`: box meshing of the copied
solid-voxel grid followed by the cull, run only when collision cubes are
requested, `Settings.bSimpleCubicCollision` is set and `Indices` is not empty. -/
def collisionCubes (N : Nat) (W : TVoxelStaticBitArray) (wantCubes bSimpleCubicCollision : Bool)
    (Indices : List Nat) : List FVoxelIntBox :=
  if wantCubes && bSimpleCubicCollision && decide (Indices.length > 0) then
    RemoveAllSwap (cullPredicate N W) (GreedyMeshing3D N (copyValues N W)).2
  else []

/-- The result of `CreateGeometryTemplate`: `Indices`, `Vertices` and
`CollisionCubes`. -/
structure GeometryResult where
  Indices : List Nat
  Vertices : List FVoxelMesherVertex
  CollisionCubes : List FVoxelIntBox

/-- The function `CreateGeometryTemplate`, on the padded occupancy window `W`
obtained from the data query; `wantCubes` says whether `CollisionCubes` is
non-null. -/
def CreateGeometryTemplate (N : Nat) (Step : Int) (W : TVoxelStaticBitArray)
    (wantCubes bSimpleCubicCollision : Bool) : GeometryResult :=
  let out := addFaces N Step W
  { Indices := out.1
    Vertices := out.2
    CollisionCubes := collisionCubes N W wantCubes bSimpleCubicCollision out.1 }

/-! ## Scan invariant -/

/-- The invariant of a greedy scan over cells of type `α`.  `F` is the grid on
entry, `G` the current grid, `B` the set of cells the scan has passed, `rs` the
regions emitted so far (`mem r c`: cell `c` lies in region `r`; `seed r`: the
cell the region was grown from), `U` the cells of the grid, and `Φ pre q` a
property of each region `q` relative to the regions `pre` emitted before it. -/
structure ScanInv {α Q : Type} (mem : Q → α → Prop) (seed : Q → α) (U : α → Prop)
    (Φ : List Q → Q → Prop) (F G : α → Bool) (B : α → Prop) (rs : List Q) : Prop where
  done : ∀ c, U c → B c → (F c = true ↔ ∃ r ∈ rs, mem r c)
  pend : ∀ c, U c → ¬ B c → (G c = true ↔ (F c = true ∧ ¬ ∃ r ∈ rs, mem r c))
  resid : ∀ c, U c → B c → (G c = true ↔ ∃ r ∈ rs, seed r = c)
  sound : ∀ r ∈ rs, ∀ c, mem r c → U c ∧ F c = true
  seedIn : ∀ r ∈ rs, mem r (seed r) ∧ B (seed r)
  disj : rs.Pairwise (fun r s => ∀ c, ¬ (mem r c ∧ mem s c))
  all : ∀ pre q post, rs = pre ++ q :: post → Φ pre q

/-- The common shape of the extension loops
`while (P + Size < GridSize && TestAndClear..(.. P + Size ..)) Size++`,
with the test-and-clear call as a parameter; used to state their effect once. -/
def extendLoop (N P : Nat) (tc : Nat → TVoxelStaticBitArray → Bool × TVoxelStaticBitArray) :
    Nat → Nat → TVoxelStaticBitArray → Nat × TVoxelStaticBitArray
  | 0, Size, D => (Size, D)
  | fuel + 1, Size, D =>
    if P + Size < N then
      let r := tc Size D
      if r.1 then extendLoop N P tc fuel (Size + 1) r.2 else (Size, r.2)
    else (Size, D)

/-! ## Cells, quads and the invariant of `GreedyMeshing2D` -/

/-- A cell `(a, b, c)` of an `N³` grid, stored at bit `a + b * N + c * N * N`.
For a face mask the cell is `(u, v, layer)`, for the solid-voxel grid `(x, y, z)`. -/
abbrev Cell := Nat × Nat × Nat

/-- The bit of grid `G` at a cell. -/
def cellBit (N : Nat) (G : TVoxelStaticBitArray) (c : Cell) : Bool :=
  G (c.1 + c.2.1 * N + c.2.2 * N * N)

/-- The cells of the `N³` grid. -/
def inGrid (N : Nat) (c : Cell) : Prop := c.1 < N ∧ c.2.1 < N ∧ c.2.2 < N

/-- Cell `(u, v, layer)` lies in the quad: `layer = Layer`,
`StartX ≤ u < StartX + SizeX` and `StartY ≤ v < StartY + SizeY`. -/
def FCubicQuad.covers (q : FCubicQuad) (c : Cell) : Prop :=
  c.2.2 = q.Layer ∧ q.StartX ≤ c.1 ∧ c.1 < q.StartX + q.SizeX ∧
    q.StartY ≤ c.2.1 ∧ c.2.1 < q.StartY + q.SizeY

instance (q : FCubicQuad) (c : Cell) : Decidable (q.covers c) := by
  unfold FCubicQuad.covers; infer_instance

/-- The cell `(StartX, StartY, Layer)` a quad was grown from. -/
def FCubicQuad.seed (q : FCubicQuad) : Cell := (q.StartX, q.StartY, q.Layer)

/-- The cells `(u, v, layer)` that the loops of `GreedyMeshing2D` have passed
when they are at `(Layer, X, Y)`. -/
def passed2D (Layer X Y : Nat) (c : Cell) : Prop :=
  c.2.2 < Layer ∨ (c.2.2 = Layer ∧ (c.1 < X ∨ (c.1 = X ∧ c.2.1 < Y)))

/-- A cell that cannot extend a quad: unset in the entry mask `F` or inside one
of the quads `pre` emitted earlier. -/
def deadCell (N : Nat) (F : TVoxelStaticBitArray) (pre : List FCubicQuad) (c : Cell) : Prop :=
  cellBit N F c = false ∨ ∃ r ∈ pre, r.covers c

/-- What holds of a quad `q` emitted after the quads `pre`: it lies in the grid
with positive sizes, it cannot be extended by one column nor, after that, by
one row, and the earlier quads start before it in scan order. -/
def quadProp (N : Nat) (F : TVoxelStaticBitArray) (pre : List FCubicQuad) (q : FCubicQuad) : Prop :=
  q.Layer < N ∧ 1 ≤ q.SizeX ∧ q.StartX + q.SizeX ≤ N ∧ 1 ≤ q.SizeY ∧ q.StartY + q.SizeY ≤ N ∧
  (q.StartX + q.SizeX = N ∨ deadCell N F pre (q.StartX + q.SizeX, q.StartY, q.Layer)) ∧
  (q.StartY + q.SizeY = N ∨
    ∃ k, k < q.SizeX ∧ deadCell N F pre (q.StartX + k, q.StartY + q.SizeY, q.Layer)) ∧
  (∀ r ∈ pre, passed2D q.Layer q.StartX q.StartY r.seed)

/-- The invariant of `GreedyMeshing2D` at loop position `(Layer, X, Y)`, with
entry mask `F`, current mask `G` and emitted quads `rs`. -/
def Inv2D (N : Nat) (F G : TVoxelStaticBitArray) (Layer X Y : Nat) (rs : List FCubicQuad) : Prop :=
  ScanInv FCubicQuad.covers FCubicQuad.seed (inGrid N) (quadProp N F)
    (cellBit N F) (cellBit N G) (passed2D Layer X Y) rs

/-! ## Example inputs -/

/-- A face mask for `N = 8` with a 2×2 block of faces in layer 0 and a single
face in layer 1. -/
def exampleMask : TVoxelStaticBitArray :=
  fun i => decide (i = 0 ∨ i = 1 ∨ i = 8 ∨ i = 9 ∨ i = 70)

/-- A face mask for `N = 8` with the single face `(layer, u, v) = (0, 0, 0)`. -/
def singleFaceMask : TVoxelStaticBitArray := fun i => decide (i = 0)

/-! ## Boxes and the invariant of `GreedyMeshing3D` -/

/-- Voxel `(x, y, z)` lies in the half-open box `[Min, Max)`. -/
def FVoxelIntBox.covers (b : FVoxelIntBox) (c : Cell) : Prop :=
  b.Min.X ≤ (c.1 : Int) ∧ (c.1 : Int) < b.Max.X ∧
  b.Min.Y ≤ (c.2.1 : Int) ∧ (c.2.1 : Int) < b.Max.Y ∧
  b.Min.Z ≤ (c.2.2 : Int) ∧ (c.2.2 : Int) < b.Max.Z

instance (b : FVoxelIntBox) (c : Cell) : Decidable (b.covers c) := by
  unfold FVoxelIntBox.covers; infer_instance

/-- The voxel `Min` a box was grown from. -/
def FVoxelIntBox.seed (b : FVoxelIntBox) : Cell := (b.Min.X.toNat, b.Min.Y.toNat, b.Min.Z.toNat)

/-- The voxels `(x, y, z)` that the loops of `GreedyMeshing3D` have passed when
they are at `(X, Y, Z)`. -/
def passed3D (X Y Z : Nat) (c : Cell) : Prop :=
  c.1 < X ∨ (c.1 = X ∧ (c.2.1 < Y ∨ (c.2.1 = Y ∧ c.2.2 < Z)))

/-- A voxel that cannot extend a box: unset in the entry grid `D` or inside one
of the boxes `pre` emitted earlier. -/
def deadVoxel (N : Nat) (D : TVoxelStaticBitArray) (pre : List FVoxelIntBox) (c : Cell) : Prop :=
  cellBit N D c = false ∨ ∃ r ∈ pre, r.covers c

/-- What holds of a box `b` emitted after the boxes `pre`: it is
`[(X, Y, Z), (X+SX, Y+SY, Z+SZ))` inside the grid with positive sizes, it cannot
be extended along `x`, nor then along `y`, nor then along `z`, and the earlier
boxes start before it in scan order. -/
def boxProp (N : Nat) (D : TVoxelStaticBitArray) (pre : List FVoxelIntBox) (b : FVoxelIntBox) : Prop :=
  ∃ X Y Z SX SY SZ : Nat,
    b = FVoxelIntBox.mk ⟨X, Y, Z⟩ ⟨(X : Int) + SX, (Y : Int) + SY, (Z : Int) + SZ⟩ ∧
    1 ≤ SX ∧ X + SX ≤ N ∧ 1 ≤ SY ∧ Y + SY ≤ N ∧ 1 ≤ SZ ∧ Z + SZ ≤ N ∧
    (X + SX = N ∨ deadVoxel N D pre (X + SX, Y, Z)) ∧
    (Y + SY = N ∨ ∃ k, k < SX ∧ deadVoxel N D pre (X + k, Y + SY, Z)) ∧
    (Z + SZ = N ∨ ∃ j k, j < SY ∧ k < SX ∧ deadVoxel N D pre (X + k, Y + j, Z + SZ)) ∧
    (∀ r ∈ pre, passed3D X Y Z r.seed)

/-- The invariant of `GreedyMeshing3D` at loop position `(X, Y, Z)`, with entry
grid `D`, current grid `E` and emitted boxes `rs`. -/
def Inv3D (N : Nat) (D E : TVoxelStaticBitArray) (X Y Z : Nat) (rs : List FVoxelIntBox) : Prop :=
  ScanInv FVoxelIntBox.covers FVoxelIntBox.seed (inGrid N) (boxProp N D)
    (cellBit N D) (cellBit N E) (passed3D X Y Z) rs

/-! ## Face directions -/

/-- The unit offset of face direction `d`: `(-X, +X, -Y, +Y, -Z, +Z)`. -/
def faceOffset (d : Fin 6) : FIntVector :=
  match d with
  | 0 => ⟨-1, 0, 0⟩
  | 1 => ⟨1, 0, 0⟩
  | 2 => ⟨0, -1, 0⟩
  | 3 => ⟨0, 1, 0⟩
  | 4 => ⟨0, 0, -1⟩
  | 5 => ⟨0, 0, 1⟩

/-- The cell `(u, v, layer)` of the face mask of direction `d` that stands for
voxel `(x, y, z)`: `(y, z, x)` for `d ∈ {0, 1}`, `(z, x, y)` for `d ∈ {2, 3}`
and `(x, y, z)` for `d ∈ {4, 5}`. -/
def faceCell (d : Fin 6) (x y z : Nat) : Cell :=
  match d with
  | 0 => (y, z, x)
  | 1 => (y, z, x)
  | 2 => (z, x, y)
  | 3 => (z, x, y)
  | 4 => (x, y, z)
  | 5 => (x, y, z)

/-- The direction-specific bit index of voxel `(x, y, z)` in the face mask of
direction `d`. -/
def faceIndex (N : Nat) (d : Fin 6) (x y z : Nat) : Nat :=
  (faceCell d x y z).1 + (faceCell d x y z).2.1 * N + (faceCell d x y z).2.2 * N * N

/-- Voxel `(x, y, z)` has an exposed face in direction `d`: it is solid in the
padded window `W` and its neighbour in direction `d` is empty. -/
def exposed (N : Nat) (W : TVoxelStaticBitArray) (d : Fin 6) (x y z : Nat) : Prop :=
  GetValue N W x y z = true ∧
    GetValue N W ((x : Int) + (faceOffset d).X) ((y : Int) + (faceOffset d).Y)
      ((z : Int) + (faceOffset d).Z) = false

instance (N : Nat) (W : TVoxelStaticBitArray) (d : Fin 6) (x y z : Nat) :
    Decidable (exposed N W d x y z) := by
  unfold exposed; infer_instance

/-- Voxel `(x, y, z)` lies in one of the six outward slabs of the box: the
one-voxel layers at `Min - 1` and at `Max` along one axis, spanning the box's
extent on the other two axes. -/
def FVoxelIntBox.inSlabs (b : FVoxelIntBox) (x y z : Int) : Prop :=
  (b.Min.X ≤ x ∧ x < b.Max.X ∧ b.Min.Y ≤ y ∧ y < b.Max.Y ∧ (z = b.Min.Z - 1 ∨ z = b.Max.Z)) ∨
  (b.Min.X ≤ x ∧ x < b.Max.X ∧ b.Min.Z ≤ z ∧ z < b.Max.Z ∧ (y = b.Min.Y - 1 ∨ y = b.Max.Y)) ∨
  (b.Min.Y ≤ y ∧ y < b.Max.Y ∧ b.Min.Z ≤ z ∧ z < b.Max.Z ∧ (x = b.Min.X - 1 ∨ x = b.Max.X))

/-- The voxel position that `AddFace` forms for cell `(u, v)` of a quad of
layer `layer` in direction `Direction`: `Position[XAxis] = u`,
`Position[YAxis] = v`, `Position[ZAxis] = layer` with `ZAxis = Direction / 2`,
`XAxis = (ZAxis + 1) % 3`, `YAxis = (ZAxis + 2) % 3`. -/
def quadVoxel (Direction u v layer : Nat) : Nat × Nat × Nat :=
  let ZAxis := Direction / 2
  let XAxis := (ZAxis + 1) % 3
  let YAxis := (ZAxis + 2) % 3
  let setAxis := fun (p : Nat × Nat × Nat) (Axis Value : Nat) =>
    if Axis = 0 then (Value, p.2.1, p.2.2)
    else if Axis = 1 then (p.1, Value, p.2.2)
    else (p.1, p.2.1, Value)
  setAxis (setAxis (setAxis (0, 0, 0) XAxis u) YAxis v) ZAxis layer

/-- The padded window for `N = 8` whose only solid voxel is `(2, 2, 2)`. -/
def singleVoxelWindow : TVoxelStaticBitArray := fun i => decide (i = 3 + 3 * 10 + 3 * 100)

/-- The padded window in which every voxel, padding included, is solid. -/
def solidWindow : TVoxelStaticBitArray := fun _ => true

/-- The padded window in which every voxel is empty. -/
def emptyWindow : TVoxelStaticBitArray := fun _ => false

/-- A face mask for `N = 8` whose layer 0 holds the four faces
`(u, v) = (1, 0), (0, 1), (1, 1), (0, 2)`, an S-shaped region. -/
def zigzagMask : TVoxelStaticBitArray := fun i => decide (i = 1 ∨ i = 8 ∨ i = 9 ∨ i = 16)

/-! ## The solid cuboid scenario -/

/-- The quad covering the whole face of direction `d` of the cuboid
`[(a1, a2, a3), (b1, b2, b3))`, as `(Layer, StartX, StartY, SizeX, SizeY)` in
the `(u, v, layer)` axes of that direction. -/
def cuboidFace (d : Fin 6) (a1 a2 a3 b1 b2 b3 : Nat) : FCubicQuad :=
  match d with
  | 0 => ⟨a1, a2, a3, b2 - a2, b3 - a3⟩
  | 1 => ⟨b1 - 1, a2, a3, b2 - a2, b3 - a3⟩
  | 2 => ⟨a2, a3, a1, b3 - a3, b1 - a1⟩
  | 3 => ⟨b2 - 1, a3, a1, b3 - a3, b1 - a1⟩
  | 4 => ⟨a3, a1, a2, b1 - a1, b2 - a2⟩
  | 5 => ⟨b3 - 1, a1, a2, b1 - a1, b2 - a2⟩

/-- The padded window for `N = 8` (edge 10) that is solid exactly on the cuboid
`[(1, 2, 0), (3, 5, 2))`. -/
def cuboidWindow : TVoxelStaticBitArray :=
  fun i => decide (2 ≤ i % 10 ∧ i % 10 < 4 ∧ 3 ≤ i / 10 % 10 ∧ i / 10 % 10 < 6 ∧
    1 ≤ i / 100 ∧ i / 100 < 3)

/-- A face mask for `N = 8` whose layer 0 holds the three faces
`(u, v) = (1, 0), (0, 1), (1, 1)`. -/
def cornerMask : TVoxelStaticBitArray := fun i => decide (i = 1 ∨ i = 8 ∨ i = 9)

/-! ## Winding -/

/-- A solid-voxel grid for `N = 8` whose layer `z = 1` holds the 2×2 block
`x ∈ [0, 2)`, `y ∈ [0, 2)`. -/
def blockGrid : TVoxelStaticBitArray := fun i => decide (i = 64 ∨ i = 65 ∨ i = 72 ∨ i = 73)

/-! ## The generic branch of the seed test -/

/-- The `Y` loop of `GreedyMeshing2D` with the generic branch
`Faces.Test(X + Y * GridSize)` of the seed test taken whatever `GridSize` is. -/
def yLoop2DGeneric (N Layer X : Nat) :
    Nat → Nat → TVoxelStaticBitArray → TVoxelStaticBitArray × List FCubicQuad
  | 0, _, F => (F, [])
  | fuel + 1, Y, F =>
    if Y < N then
      if !Test F (facesIndex N Layer (X + Y * N)) then
        yLoop2DGeneric N Layer X fuel (Y + 1) F
      else
        let w := widthLoop2D N Layer X Y N 1 F
        let h := heightLoop2D N Layer X Y w.1 N 1 w.2
        let rest := yLoop2DGeneric N Layer X fuel (Y + h.1) h.2
        (rest.1, FCubicQuad.mk Layer X Y w.1 h.1 :: rest.2)
    else (F, [])

/-- The loop over `X` of one layer, with the generic branch of the seed test. -/
def layer2DGeneric (N Layer : Nat) (F : TVoxelStaticBitArray) :
    TVoxelStaticBitArray × List FCubicQuad :=
  (List.range N).foldl (addOutput (fun X G => yLoop2DGeneric N Layer X N 0 G)) (F, [])

/-- The function `GreedyMeshing2D` with the generic branch of the seed test. -/
def GreedyMeshing2DGeneric (N : Nat) (InFaces : TVoxelStaticBitArray) :
    TVoxelStaticBitArray × List FCubicQuad :=
  (List.range N).foldl (addOutput (fun Layer G => layer2DGeneric N Layer G)) (InFaces, [])

/-- A face mask for `N = 8` whose layer 0 holds the three faces
`(u, v) = (0, 0), (2, 0), (1, 1)`, no two of them edge-adjacent. -/
def checkerMask : TVoxelStaticBitArray := fun i => decide (i = 0 ∨ i = 2 ∨ i = 9)

/-! ## `GreedyMeshing2D` with its assertions

The same loops as above, with the `checkVoxelSlow` assertions of the two
lambdas and the range of the layer view `Faces` (a bit array of
`GridSize * GridSize` bits) made explicit: a call returns `none` when an
assertion fails or a bit index lies outside the view. -/

/-- The lambda `TestAndClear(X, Y)` of `GreedyMeshing2D`: `checkVoxelSlow(X < GridSize)`,
`checkVoxelSlow(Y < GridSize)`, then `Faces.TestAndClear(X + Y * GridSize)`, whose
bit index has to lie in the view. -/
def TestAndClear2DChecked (N Layer X Y : Nat) (F : TVoxelStaticBitArray) :
    Option (Bool × TVoxelStaticBitArray) :=
  if X < N ∧ Y < N ∧ X + Y * N < N * N then
    some (TestAndClear F (facesIndex N Layer (X + Y * N)))
  else none

/-- The lambda `TestAndClearLine(X, Width, Y)` of `GreedyMeshing2D`:
`checkVoxelSlow(X + Width <= GridSize)`, `checkVoxelSlow(Y < GridSize)`, then
`Faces.TestAndClearRange(X + Y * GridSize, Width)`, whose bit indices
`X + Y * GridSize .. X + Y * GridSize + Width - 1` have to lie in the view. -/
def TestAndClearLine2DChecked (N Layer X Width Y : Nat) (F : TVoxelStaticBitArray) :
    Option (Bool × TVoxelStaticBitArray) :=
  if X + Width ≤ N ∧ Y < N ∧ X + Y * N + Width ≤ N * N then
    some (TestAndClearRange F (facesIndex N Layer (X + Y * N)) Width)
  else none

/-- The seed test at `(X, Y)` with the range of its access: the word index `Y`
of `Faces.GetInternal(Y)` has to be one of the `GridSize * GridSize / NumBitsPerWord`
words of the view when `GridSize == 32`, the bit index of
`Faces.Test(X + Y * GridSize)` has to lie in the view otherwise. -/
def seedTest2DChecked (N Layer X Y : Nat) (F : TVoxelStaticBitArray) : Option Bool :=
  if N = 32 then
    if Y < N * N / NumBitsPerWord then
      some ((GetInternal F (layerWord N Layer + Y) &&& ((1 <<< X) % 2 ^ 32)) != 0)
    else none
  else
    if X + Y * N < N * N then some (Test F (facesIndex N Layer (X + Y * N))) else none

/-- The width loop of `GreedyMeshing2D` over `TestAndClear2DChecked`. -/
def widthLoop2DChecked (N Layer X Y : Nat) :
    Nat → Nat → TVoxelStaticBitArray → Option (Nat × TVoxelStaticBitArray)
  | 0, Width, F => some (Width, F)
  | fuel + 1, Width, F =>
    if X + Width < N then
      match TestAndClear2DChecked N Layer (X + Width) Y F with
      | none => none
      | some r => if r.1 then widthLoop2DChecked N Layer X Y fuel (Width + 1) r.2 else some (Width, r.2)
    else some (Width, F)

/-- The height loop of `GreedyMeshing2D` over `TestAndClearLine2DChecked`. -/
def heightLoop2DChecked (N Layer X Y Width : Nat) :
    Nat → Nat → TVoxelStaticBitArray → Option (Nat × TVoxelStaticBitArray)
  | 0, Height, F => some (Height, F)
  | fuel + 1, Height, F =>
    if Y + Height < N then
      match TestAndClearLine2DChecked N Layer X Width (Y + Height) F with
      | none => none
      | some r =>
        if r.1 then heightLoop2DChecked N Layer X Y Width fuel (Height + 1) r.2 else some (Height, r.2)
    else some (Height, F)

/-- The loop `for (uint32 Y = 0; Y < GridSize;)` of `GreedyMeshing2D` over the
checked seed test and the checked loops. -/
def yLoop2DChecked (N Layer X : Nat) :
    Nat → Nat → TVoxelStaticBitArray → Option (TVoxelStaticBitArray × List FCubicQuad)
  | 0, _, F => some (F, [])
  | fuel + 1, Y, F =>
    if Y < N then
      match seedTest2DChecked N Layer X Y F with
      | none => none
      | some b =>
        if !b then
          yLoop2DChecked N Layer X fuel (Y + 1) F
        else
          match widthLoop2DChecked N Layer X Y N 1 F with
          | none => none
          | some w =>
            match heightLoop2DChecked N Layer X Y w.1 N 1 w.2 with
            | none => none
            | some h =>
              match yLoop2DChecked N Layer X fuel (Y + h.1) h.2 with
              | none => none
              | some rest => some (rest.1, FCubicQuad.mk Layer X Y w.1 h.1 :: rest.2)
    else some (F, [])

/-- One step of a `for` loop whose body may fail an assertion: a failure ends
the run, otherwise the output of the body is appended. -/
def addOutputChecked {β : Type}
    (body : Nat → TVoxelStaticBitArray → Option (TVoxelStaticBitArray × List β))
    (st : Option (TVoxelStaticBitArray × List β)) (i : Nat) :
    Option (TVoxelStaticBitArray × List β) :=
  match st with
  | none => none
  | some s =>
    match body i s.1 with
    | none => none
    | some r => some (r.1, s.2 ++ r.2)

/-- The loop `for (uint32 X = 0; X < GridSize; X++)` over one layer, checked. -/
def layer2DChecked (N Layer : Nat) (F : TVoxelStaticBitArray) :
    Option (TVoxelStaticBitArray × List FCubicQuad) :=
  (List.range N).foldl (addOutputChecked (fun X G => yLoop2DChecked N Layer X N 0 G)) (some (F, []))

/-- The function `GreedyMeshing2D<GridSize>(InFaces, OutQuads)` with its
assertions: `none` when one of them fails. -/
def GreedyMeshing2DChecked (N : Nat) (InFaces : TVoxelStaticBitArray) :
    Option (TVoxelStaticBitArray × List FCubicQuad) :=
  (List.range N).foldl (addOutputChecked (fun Layer G => layer2DChecked N Layer G))
    (some (InFaces, []))

/-! ## The cull predicate with the assertions of `GetValue`

The same predicate as `cullPredicate`, with the `checkVoxelSlow` assertions of
`GetValue` and the range of `ValuesBitArray` (a bit array of
`CUBIC_CHUNK_SIZE_WITH_NEIGHBORS³` bits) made explicit, and with the
evaluation order of the source: `||` evaluates its right operand only when the
left one is false, and `return false` ends the predicate. A call returns `none`
when an assertion fails or the index lies outside the array. -/

/-- The lambda `GetValue(X, Y, Z)`: the three `checkVoxelSlow` range assertions,
then `ValuesBitArray.Test` at an index that has to lie in the array. -/
def GetValueChecked (N : Nat) (ValuesBitArray : TVoxelStaticBitArray) (X Y Z : Int) :
    Option Bool :=
  if (-1 ≤ X ∧ X < (N : Int) + 1) ∧ (-1 ≤ Y ∧ Y < (N : Int) + 1) ∧ (-1 ≤ Z ∧ Z < (N : Int) + 1) ∧
      0 ≤ (X + 1) + (Y + 1) * ((N : Int) + 2) + (Z + 1) * ((N : Int) + 2) * ((N : Int) + 2) ∧
      (X + 1) + (Y + 1) * ((N : Int) + 2) + (Z + 1) * ((N : Int) + 2) * ((N : Int) + 2) <
        ((N : Int) + 2) * ((N : Int) + 2) * ((N : Int) + 2) then
    some (GetValue N ValuesBitArray X Y Z)
  else none

/-- A loop `for (I in l) { if (body returns false) return false; }`: `none` when
an assertion fails in an iteration that runs, `some false` when an iteration
returns false, `some true` when the loop runs to its end. -/
def forAllChecked (l : List Int) (body : Int → Option Bool) : Option Bool :=
  match l with
  | [] => some true
  | x :: xs =>
    match body x with
    | none => none
    | some false => some false
    | some true => forAllChecked xs body

/-- The statement `if (!GetValue(a) || !GetValue(b)) return false;` of the cull
predicate: `some false` when it returns false, `some true` when it falls
through. -/
def slabTestChecked (N : Nat) (W : TVoxelStaticBitArray) (a b : Int × Int × Int) : Option Bool :=
  match GetValueChecked N W a.1 a.2.1 a.2.2 with
  | none => none
  | some va =>
    if !va then some false
    else
      match GetValueChecked N W b.1 b.2.1 b.2.2 with
      | none => none
      | some vb => if !vb then some false else some true

/-- The predicate given to `RemoveAllSwap` in the 'Cull' pass, with the
assertions of `GetValue`. -/
def cullPredicateChecked (N : Nat) (W : TVoxelStaticBitArray) (Cube : FVoxelIntBox) : Option Bool :=
  match (forAllChecked (intRange Cube.Min.X Cube.Max.X) fun X =>
      forAllChecked (intRange Cube.Min.Y Cube.Max.Y) fun Y =>
        slabTestChecked N W (X, Y, Cube.Min.Z - 1) (X, Y, Cube.Max.Z)) with
  | none => none
  | some false => some false
  | some true =>
    match (forAllChecked (intRange Cube.Min.X Cube.Max.X) fun X =>
        forAllChecked (intRange Cube.Min.Z Cube.Max.Z) fun Z =>
          slabTestChecked N W (X, Cube.Min.Y - 1, Z) (X, Cube.Max.Y, Z)) with
    | none => none
    | some false => some false
    | some true =>
      match (forAllChecked (intRange Cube.Min.Y Cube.Max.Y) fun Y =>
          forAllChecked (intRange Cube.Min.Z Cube.Max.Z) fun Z =>
            slabTestChecked N W (Cube.Min.X - 1, Y, Z) (Cube.Max.X, Y, Z)) with
      | none => none
      | some false => some false
      | some true => some true

/-- A solid-voxel grid for `N = 8` with the two voxels `(0, 0, 0)` and
`(7, 7, 7)`, the corners of the chunk. -/
def cornerGrid : TVoxelStaticBitArray := fun i => decide (i = 0 ∨ i = 511)

/-! ## Index arithmetic -/

theorem layerWord_mul (N Layer : Nat) (hN : N * N % NumBitsPerWord = 0) :
    layerWord N Layer * NumBitsPerWord = Layer * N * N := by
  unfold layerWord
  have h : NumBitsPerWord ∣ Layer * N * N := by
    rw [Nat.mul_assoc]
    exact Dvd.dvd.mul_left (Nat.dvd_of_mod_eq_zero hN) Layer
  exact Nat.div_mul_cancel h

theorem facesIndex_eq (N Layer i : Nat) (hN : N * N % NumBitsPerWord = 0) :
    facesIndex N Layer i = i + Layer * N * N := by
  unfold facesIndex
  rw [layerWord_mul N Layer hN, Nat.add_comm]

theorem cell_index_inj {N a b c a' b' c' : Nat} (ha : a < N) (ha' : a' < N)
    (hb : b < N) (hb' : b' < N)
    (h : a + b * N + c * N * N = a' + b' * N + c' * N * N) :
    a = a' ∧ b = b' ∧ c = c' := by
  have e1 : a + b * N + c * N * N = a + N * (b + N * c) := by ring
  have e2 : a' + b' * N + c' * N * N = a' + N * (b' + N * c') := by ring
  rw [e1, e2] at h
  have hm := congrArg (fun t => t % N) h
  simp only [Nat.add_mul_mod_self_left, Nat.mod_eq_of_lt ha, Nat.mod_eq_of_lt ha'] at hm
  subst hm
  have hN : 0 < N := by omega
  have h2 : b + N * c = b' + N * c' := Nat.eq_of_mul_eq_mul_left hN (Nat.add_left_cancel h)
  have hm2 := congrArg (fun t => t % N) h2
  simp only [Nat.add_mul_mod_self_left, Nat.mod_eq_of_lt hb, Nat.mod_eq_of_lt hb'] at hm2
  subst hm2
  exact ⟨rfl, rfl, Nat.eq_of_mul_eq_mul_left hN (Nat.add_left_cancel h2)⟩

/-! ## Bit grid primitives -/

theorem testRange_iff (g : TVoxelStaticBitArray) (i len : Nat) :
    TestRange g i len = true ↔ ∀ k, k < len → g (i + k) = true := by
  simp [TestRange, List.all_eq_true]

theorem testBit_packBits (g : TVoxelStaticBitArray) (n : Nat) :
    ∀ (s k : Nat), (TVoxelStaticBitArray.packBits g s n).testBit k = (decide (k < n) && g (s + k)) := by
  induction n with
  | zero => intro s k; simp [TVoxelStaticBitArray.packBits]
  | succ n ih =>
    intro s k
    cases k with
    | zero =>
      simp only [TVoxelStaticBitArray.packBits, Nat.testBit_zero]
      cases h : g s <;> simp [h, Nat.add_mul_mod_self_left]
    | succ k =>
      simp only [TVoxelStaticBitArray.packBits, Nat.testBit_succ]
      have : ((if g s = true then 1 else 0) + 2 * TVoxelStaticBitArray.packBits g (s + 1) n) / 2
          = TVoxelStaticBitArray.packBits g (s + 1) n := by
        cases h : g s <;> simp [h]; omega
      rw [this, ih]
      have e : s + 1 + k = s + (k + 1) := by omega
      rw [e]
      simp

theorem and_mask_ne_zero (w X : Nat) (hX : X < 32) :
    ((w &&& ((1 <<< X) % 2 ^ 32)) != 0) = w.testBit X := by
  have h1 : (1 <<< X) % 2 ^ 32 = 2 ^ X := by
    rw [Nat.one_shiftLeft]
    exact Nat.mod_eq_of_lt (Nat.pow_lt_pow_right (by decide) hX)
  rw [h1, Nat.and_comm, Nat.two_pow_and]
  cases w.testBit X <;> simp

theorem seedTest2D_eq (N Layer X Y : Nat) (F : TVoxelStaticBitArray)
    (hN : N * N % NumBitsPerWord = 0) (hX : X < N) :
    seedTest2D N Layer X Y F = F (X + Y * N + Layer * N * N) := by
  unfold seedTest2D
  split
  · next h =>
    subst h
    rw [and_mask_ne_zero _ _ hX]
    unfold GetInternal
    rw [testBit_packBits]
    have h2 := layerWord_mul 32 Layer hN
    have e : (layerWord 32 Layer + Y) * NumBitsPerWord + X = X + Y * 32 + Layer * 32 * 32 := by
      rw [Nat.add_mul, h2]; simp [NumBitsPerWord]; omega
    rw [e]
    simp [NumBitsPerWord, hX]
  · rw [facesIndex_eq N Layer _ hN]; rfl


/-! ## The scan invariant: initialisation and steps -/

section Scan
variable {α Q : Type} {mem : Q → α → Prop} {seed : Q → α} {U : α → Prop}
  {Φ : List Q → Q → Prop} {F G G' : α → Bool} {B B' : α → Prop} {rs : List Q}

theorem ScanInv.init (F : α → Bool) :
    ScanInv mem seed U Φ F F (fun _ => False) [] where
  done := fun _ _ h => h.elim
  pend := fun c _ _ => by simp
  resid := fun _ _ h => h.elim
  sound := fun r hr => by simp at hr
  seedIn := fun r hr => by simp at hr
  disj := List.Pairwise.nil
  all := fun pre q post h => by simp at h

theorem append_singleton_split {β : Type} {rs pre post : List β} {R q : β}
    (h : rs ++ [R] = pre ++ q :: post) :
    (∃ post', rs = pre ++ q :: post') ∨ (pre = rs ∧ q = R ∧ post = []) := by
  rcases List.eq_nil_or_concat post with hp | ⟨post', x, hp⟩
  · subst hp
    right
    have h2 : rs ++ [R] = pre ++ [q] := h
    have h3 := List.append_inj' h2 rfl
    refine ⟨h3.1.symm, ?_, rfl⟩
    simpa using h3.2.symm
  · left
    subst hp
    refine ⟨post', ?_⟩
    have h2 : rs ++ [R] = (pre ++ q :: post') ++ [x] := by
      rw [h]; simp
    exact (List.append_inj' h2 rfl).1

/-- The scan passes cells whose bit is clear (or none at all). -/
theorem ScanInv.advance (h : ScanInv mem seed U Φ F G B rs)
    (hB : ∀ c, B c → B' c)
    (hnew : ∀ c, U c → B' c → ¬ B c → G c = false) :
    ScanInv mem seed U Φ F G B' rs where
  done := by
    intro c hU hB'
    by_cases hb : B c
    · exact h.done c hU hb
    · have hg := hnew c hU hB' hb
      have hp := h.pend c hU hb
      constructor
      · intro hF
        by_contra hcov
        have := hp.2 ⟨hF, hcov⟩
        simp [hg] at this
      · rintro ⟨r, hr, hm⟩
        exact (h.sound r hr c hm).2
  pend := by
    intro c hU hB'
    exact h.pend c hU (fun hb => hB' (hB c hb))
  resid := by
    intro c hU hB'
    by_cases hb : B c
    · exact h.resid c hU hb
    · have hg := hnew c hU hB' hb
      constructor
      · intro hG; simp [hg] at hG
      · rintro ⟨r, hr, hs⟩
        exact absurd (hs ▸ (h.seedIn r hr).2) hb
  sound := h.sound
  seedIn := fun r hr => ⟨(h.seedIn r hr).1, hB _ (h.seedIn r hr).2⟩
  disj := h.disj
  all := h.all

/-- The scan emits region `R`, grown from the set cell `seed R`, and passes
cells of `R` only; the region's cells other than the seed are cleared. -/
theorem ScanInv.emit (h : ScanInv mem seed U Φ F G B rs) (R : Q)
    (hB : ∀ c, B c → B' c)
    (hs : B' (seed R)) (hsR : mem R (seed R))
    (hR : ∀ c, mem R c → U c ∧ ¬ B c ∧ G c = true)
    (hnew : ∀ c, U c → B' c → ¬ B c → mem R c)
    (hG' : ∀ c, U c → (G' c = true ↔ (G c = true ∧ (mem R c → c = seed R))))
    (hΦ : Φ rs R) :
    ScanInv mem seed U Φ F G' B' (rs ++ [R]) where
  done := by
    intro c hU hB'
    by_cases hb : B c
    · rw [h.done c hU hb]
      constructor
      · rintro ⟨r, hr, hm⟩
        exact ⟨r, List.mem_append_left _ hr, hm⟩
      · rintro ⟨r, hr, hm⟩
        rcases List.mem_append.1 hr with hr | hr
        · exact ⟨r, hr, hm⟩
        · simp only [List.mem_singleton] at hr
          subst hr
          exact absurd hb (hR c hm).2.1
    · have hm := hnew c hU hB' hb
      have hF : F c = true := ((h.pend c hU hb).1 (hR c hm).2.2).1
      simp only [hF, true_iff]
      exact ⟨R, by simp, hm⟩
  pend := by
    intro c hU hB'
    have hb : ¬ B c := fun hb => hB' (hB c hb)
    have hne : c ≠ seed R := fun e => hB' (e ▸ hs)
    rw [hG' c hU, h.pend c hU hb]
    constructor
    · rintro ⟨⟨hF, hcov⟩, himp⟩
      refine ⟨hF, ?_⟩
      rintro ⟨r, hr, hm⟩
      rcases List.mem_append.1 hr with hr | hr
      · exact hcov ⟨r, hr, hm⟩
      · simp only [List.mem_singleton] at hr
        subst hr
        exact hne (himp hm)
    · rintro ⟨hF, hcov⟩
      refine ⟨⟨hF, ?_⟩, ?_⟩
      · rintro ⟨r, hr, hm⟩
        exact hcov ⟨r, List.mem_append_left _ hr, hm⟩
      · intro hm
        exact absurd ⟨R, by simp, hm⟩ hcov
  resid := by
    intro c hU hB'
    rw [hG' c hU]
    by_cases hb : B c
    · have hnm : ¬ mem R c := fun hm => (hR c hm).2.1 hb
      rw [h.resid c hU hb]
      constructor
      · rintro ⟨⟨r, hr, hsr⟩, _⟩
        exact ⟨r, List.mem_append_left _ hr, hsr⟩
      · rintro ⟨r, hr, hsr⟩
        rcases List.mem_append.1 hr with hr | hr
        · exact ⟨⟨r, hr, hsr⟩, fun hm => absurd hm hnm⟩
        · simp only [List.mem_singleton] at hr
          subst hr
          exact absurd (hsr ▸ hsR) hnm
    · have hm := hnew c hU hB' hb
      constructor
      · rintro ⟨_, himp⟩
        exact ⟨R, by simp, (himp hm).symm⟩
      · rintro ⟨r, hr, hsr⟩
        rcases List.mem_append.1 hr with hr | hr
        · exact absurd (hsr ▸ (h.seedIn r hr).2) hb
        · simp only [List.mem_singleton] at hr
          subst hr
          exact ⟨(hR c hm).2.2, fun _ => hsr.symm⟩
  sound := by
    intro r hr c hm
    rcases List.mem_append.1 hr with hr | hr
    · exact h.sound r hr c hm
    · simp only [List.mem_singleton] at hr
      subst hr
      have := hR c hm
      exact ⟨this.1, ((h.pend c this.1 this.2.1).1 this.2.2).1⟩
  seedIn := by
    intro r hr
    rcases List.mem_append.1 hr with hr | hr
    · exact ⟨(h.seedIn r hr).1, hB _ (h.seedIn r hr).2⟩
    · simp only [List.mem_singleton] at hr
      subst hr
      exact ⟨hsR, hs⟩
  disj := by
    rw [List.pairwise_append]
    refine ⟨h.disj, List.pairwise_singleton _ _, ?_⟩
    intro r hr s hs' c hc
    simp only [List.mem_singleton] at hs'
    subst hs'
    have := hR c hc.2
    exact ((h.pend c this.1 this.2.1).1 this.2.2).2 ⟨r, hr, hc.1⟩
  all := by
    intro pre q post e
    rcases append_singleton_split e with ⟨post', e'⟩ | ⟨e1, e2, _⟩
    · exact h.all pre q post' e'
    · subst e1; subst e2; exact hΦ

/-- When the scan has passed every cell, the regions partition the set cells of
the entry grid. -/
theorem ScanInv.cover (h : ScanInv mem seed U Φ F G B rs) (hall : ∀ c, U c → B c) (c : α) :
    (∃ r ∈ rs, mem r c) ↔ (U c ∧ F c = true) := by
  constructor
  · rintro ⟨r, hr, hm⟩
    exact h.sound r hr c hm
  · rintro ⟨hU, hF⟩
    exact (h.done c hU (hall c hU)).1 hF

end Scan


/-! ## Effect of the extension loops -/

theorem testAndClearRange_fst (g : TVoxelStaticBitArray) (i len : Nat) :
    (TestAndClearRange g i len).1 = TestRange g i len := by
  unfold TestAndClearRange; split <;> simp_all

theorem testAndClearRange_snd (g : TVoxelStaticBitArray) (i len j : Nat) :
    (TestAndClearRange g i len).2 j = true ↔
      (g j = true ∧ ¬ (TestRange g i len = true ∧ i ≤ j ∧ j < i + len)) := by
  unfold TestAndClearRange
  split
  · next h => simp only [SetRange, h]; split <;> simp_all
  · next h => simp [h]

/-- The result of the `SizeX` loop of `GreedyMeshing3D`. -/
theorem sizeXLoop3D_spec (N X Y Z : Nat) :
    ∀ (fuel w0 : Nat) (D : TVoxelStaticBitArray), X + w0 ≤ N → N ≤ fuel + (X + w0) →
      w0 ≤ (sizeXLoop3D N X Y Z fuel w0 D).1 ∧
      X + (sizeXLoop3D N X Y Z fuel w0 D).1 ≤ N ∧
      (∀ k, w0 ≤ k → k < (sizeXLoop3D N X Y Z fuel w0 D).1 →
        D (X + k + Y * N + Z * N * N) = true) ∧
      (X + (sizeXLoop3D N X Y Z fuel w0 D).1 = N ∨
        D (X + (sizeXLoop3D N X Y Z fuel w0 D).1 + Y * N + Z * N * N) = false) ∧
      (∀ i, (sizeXLoop3D N X Y Z fuel w0 D).2 i = true ↔
        (D i = true ∧ ¬ ∃ k, w0 ≤ k ∧ k < (sizeXLoop3D N X Y Z fuel w0 D).1 ∧
          i = X + k + Y * N + Z * N * N)) := by
  intro fuel
  induction fuel with
  | zero =>
    intro w0 D h1 h2
    simp only [sizeXLoop3D]
    refine ⟨le_refl _, h1, ?_, Or.inl (by omega), ?_⟩
    · intro k hk hk'; omega
    · intro i
      constructor
      · intro h; exact ⟨h, fun ⟨k, hk, hk', _⟩ => by omega⟩
      · exact fun h => h.1
  | succ n ih =>
    intro w0 D h1 h2
    simp only [sizeXLoop3D]
    by_cases hlt : X + w0 < N
    · simp only [hlt, if_true]
      by_cases hb : (TestAndClear3D N D (X + w0) Y Z).1 = true
      · simp only [hb, if_true]
        obtain ⟨a1, a2, a3, a4, a5⟩ := ih (w0 + 1) (TestAndClear3D N D (X + w0) Y Z).2
          (by omega) (by omega)
        have hD : D (X + w0 + Y * N + Z * N * N) = true := hb
        have hset : ∀ i, (TestAndClear3D N D (X + w0) Y Z).2 i = true ↔
            (D i = true ∧ i ≠ X + w0 + Y * N + Z * N * N) := by
          intro i
          simp only [TestAndClear3D, TestAndClear, TVoxelStaticBitArray.Set]
          split <;> simp_all
        refine ⟨by omega, a2, ?_, ?_, ?_⟩
        · intro k hk hk'
          by_cases e : k = w0
          · subst e; exact hD
          · exact ((hset _).1 (a3 k (by omega) hk')).1
        · rcases a4 with a4 | a4
          · exact Or.inl a4
          · right
            by_contra hne
            have ht : D (X + (sizeXLoop3D N X Y Z n (w0 + 1) (TestAndClear3D N D (X + w0) Y Z).2).1
                + Y * N + Z * N * N) = true := by simpa using hne
            have := (hset _).2 ⟨ht, by omega⟩
            rw [a4] at this
            exact Bool.false_ne_true this
        · intro i
          rw [a5 i, hset i]
          constructor
          · rintro ⟨⟨hi, hne⟩, hex⟩
            refine ⟨hi, ?_⟩
            rintro ⟨k, hk, hk', e⟩
            by_cases ek : k = w0
            · subst ek; exact hne e
            · exact hex ⟨k, by omega, hk', e⟩
          · rintro ⟨hi, hex⟩
            refine ⟨⟨hi, ?_⟩, ?_⟩
            · intro e
              exact hex ⟨w0, le_refl _, by omega, e⟩
            · rintro ⟨k, hk, hk', e⟩
              exact hex ⟨k, by omega, hk', e⟩
      · have hb' : (TestAndClear3D N D (X + w0) Y Z).1 = false := by simpa using hb
        simp only [hb', Bool.false_eq_true, if_false]
        have hD : D (X + w0 + Y * N + Z * N * N) = false := hb'
        refine ⟨le_refl _, h1, ?_, Or.inr hD, ?_⟩
        · intro k hk hk'; omega
        · intro i
          simp only [TestAndClear3D, TestAndClear, TVoxelStaticBitArray.Set]
          constructor
          · intro h
            split at h
            · exact absurd h (by simp)
            · exact ⟨h, fun ⟨k, hk, hk', _⟩ => by omega⟩
          · rintro ⟨h, _⟩
            split
            · next e => rw [e, hD] at h; exact absurd h (by simp)
            · exact h
    · simp only [hlt, if_false]
      refine ⟨le_refl _, h1, ?_, Or.inl (by omega), ?_⟩
      · intro k hk hk'; omega
      · intro i
        constructor
        · intro h; exact ⟨h, fun ⟨k, hk, hk', _⟩ => by omega⟩
        · exact fun h => h.1


/-- The result of an extension loop whose step `s` tests the cells `S s` and
clears them when all are set. -/
theorem extendLoop_spec (N P : Nat)
    (tc : Nat → TVoxelStaticBitArray → Bool × TVoxelStaticBitArray) (S : Nat → Nat → Prop)
    (htest : ∀ s D, (tc s D).1 = true ↔ ∀ i, S s i → D i = true)
    (hclear : ∀ s D i, (tc s D).2 i = true ↔ (D i = true ∧ ¬ ((tc s D).1 = true ∧ S s i)))
    (hdisj : ∀ s s' i, P + s < N → P + s' < N → S s i → S s' i → s = s') :
    ∀ (fuel s0 : Nat) (D : TVoxelStaticBitArray), P + s0 ≤ N → N ≤ fuel + (P + s0) →
      s0 ≤ (extendLoop N P tc fuel s0 D).1 ∧
      P + (extendLoop N P tc fuel s0 D).1 ≤ N ∧
      (∀ s, s0 ≤ s → s < (extendLoop N P tc fuel s0 D).1 → ∀ i, S s i → D i = true) ∧
      (P + (extendLoop N P tc fuel s0 D).1 = N ∨
        ∃ i, S (extendLoop N P tc fuel s0 D).1 i ∧ D i = false) ∧
      (∀ i, (extendLoop N P tc fuel s0 D).2 i = true ↔
        (D i = true ∧ ¬ ∃ s, s0 ≤ s ∧ s < (extendLoop N P tc fuel s0 D).1 ∧ S s i)) := by
  intro fuel
  induction fuel with
  | zero =>
    intro s0 D h1 h2
    simp only [extendLoop]
    refine ⟨le_refl _, h1, ?_, Or.inl (by omega), ?_⟩
    · intro k hk hk'; omega
    · intro i
      constructor
      · intro h; exact ⟨h, fun ⟨k, hk, hk', _⟩ => by omega⟩
      · exact fun h => h.1
  | succ n ih =>
    intro s0 D h1 h2
    simp only [extendLoop]
    by_cases hlt : P + s0 < N
    · simp only [hlt, if_true]
      by_cases hb : (tc s0 D).1 = true
      · simp only [hb, if_true]
        obtain ⟨a1, a2, a3, a4, a5⟩ := ih (s0 + 1) (tc s0 D).2 (by omega) (by omega)
        have hD := (htest s0 D).1 hb
        have hset : ∀ i, (tc s0 D).2 i = true ↔ (D i = true ∧ ¬ S s0 i) := by
          intro i; rw [hclear s0 D i]; simp [hb]
        refine ⟨by omega, a2, ?_, ?_, ?_⟩
        · intro s hs hs' i hi
          by_cases e : s = s0
          · subst e; exact hD i hi
          · exact ((hset _).1 (a3 s (by omega) hs' i hi)).1
        · rcases a4 with a4 | ⟨i, hi, hf⟩
          · exact Or.inl a4
          · by_cases hlt2 : P + (extendLoop N P tc n (s0 + 1) (tc s0 D).2).1 < N
            · right
              refine ⟨i, hi, ?_⟩
              by_contra hne
              have ht : D i = true := by simpa using hne
              have hns : ¬ S s0 i := by
                intro hs0
                have := hdisj _ _ i hlt2 hlt hi hs0
                omega
              have := (hset i).2 ⟨ht, hns⟩
              rw [hf] at this
              exact Bool.false_ne_true this
            · left; omega
        · intro i
          rw [a5 i, hset i]
          constructor
          · rintro ⟨⟨hi, hne⟩, hex⟩
            refine ⟨hi, ?_⟩
            rintro ⟨k, hk, hk', e⟩
            by_cases ek : k = s0
            · subst ek; exact hne e
            · exact hex ⟨k, by omega, hk', e⟩
          · rintro ⟨hi, hex⟩
            refine ⟨⟨hi, ?_⟩, ?_⟩
            · intro e
              exact hex ⟨s0, le_refl _, by omega, e⟩
            · rintro ⟨k, hk, hk', e⟩
              exact hex ⟨k, by omega, hk', e⟩
      · have hb' : (tc s0 D).1 = false := by simpa using hb
        simp only [hb', Bool.false_eq_true, if_false]
        have hex : ∃ i, S s0 i ∧ D i = false := by
          by_contra hne
          apply hb
          rw [htest]
          intro i hi
          by_contra hd
          exact hne ⟨i, hi, by simpa using hd⟩
        refine ⟨le_refl _, h1, ?_, Or.inr hex, ?_⟩
        · intro k hk hk'; omega
        · intro i
          rw [hclear s0 D i]
          simp only [hb', Bool.false_eq_true, false_and, not_false_eq_true, and_true]
          constructor
          · intro h; exact ⟨h, fun ⟨k, hk, hk', _⟩ => by omega⟩
          · exact fun h => h.1
    · simp only [hlt, if_false]
      refine ⟨le_refl _, h1, ?_, Or.inl (by omega), ?_⟩
      · intro k hk hk'; omega
      · intro i
        constructor
        · intro h; exact ⟨h, fun ⟨k, hk, hk', _⟩ => by omega⟩
        · exact fun h => h.1

theorem sizeYLoop3D_eq (N X Y Z SizeX : Nat) :
    ∀ (fuel s : Nat) (D : TVoxelStaticBitArray),
      sizeYLoop3D N X Y Z SizeX fuel s D =
        extendLoop N Y (fun s D => TestAndClearLine3D N D X SizeX (Y + s) Z) fuel s D := by
  intro fuel
  induction fuel with
  | zero => intro s D; rfl
  | succ n ih => intro s D; simp only [sizeYLoop3D, extendLoop, ih]

theorem sizeZLoop3D_eq (N X Y Z SizeX SizeY : Nat) :
    ∀ (fuel s : Nat) (D : TVoxelStaticBitArray),
      sizeZLoop3D N X Y Z SizeX SizeY fuel s D =
        extendLoop N Z (fun s D => TestAndClearBlock N D X SizeX Y SizeY (Z + s)) fuel s D := by
  intro fuel
  induction fuel with
  | zero => intro s D; rfl
  | succ n ih => intro s D; simp only [sizeZLoop3D, extendLoop, ih]

theorem foldl_setRange_false (f : Nat → Nat) (len : Nat) (D : TVoxelStaticBitArray) :
    ∀ (n i : Nat), ((List.range n).foldl (fun E Index => SetRange E (f Index) len false) D) i = true ↔
      (D i = true ∧ ¬ ∃ j, j < n ∧ f j ≤ i ∧ i < f j + len) := by
  intro n
  induction n with
  | zero => intro i; simp
  | succ n ih =>
    intro i
    rw [List.range_succ, List.foldl_append]
    simp only [List.foldl_cons, List.foldl_nil, SetRange]
    split
    · next h =>
      simp only [Bool.false_eq_true, false_iff, not_and, not_not]
      intro _
      exact ⟨n, by omega, h.1, h.2⟩
    · next h =>
      rw [ih i]
      constructor
      · rintro ⟨hd, hex⟩
        refine ⟨hd, ?_⟩
        rintro ⟨j, hj, hj1, hj2⟩
        by_cases e : j = n
        · subst e; exact h ⟨hj1, hj2⟩
        · exact hex ⟨j, by omega, hj1, hj2⟩
      · rintro ⟨hd, hex⟩
        refine ⟨hd, ?_⟩
        rintro ⟨j, hj, hj1, hj2⟩
        exact hex ⟨j, by omega, hj1, hj2⟩

theorem testAndClearBlock_fst (N : Nat) (D : TVoxelStaticBitArray) (X SX Y SY Z : Nat) :
    (TestAndClearBlock N D X SX Y SY Z).1 = true ↔
      ∀ j, j < SY → ∀ k, k < SX → D (X + (Y + j) * N + Z * N * N + k) = true := by
  unfold TestAndClearBlock
  split
  · next h =>
    simp only [true_iff]
    simp only [List.all_eq_true, List.mem_range, testRange_iff] at h
    exact h
  · next h =>
    simp only [Bool.false_eq_true, false_iff]
    simp only [List.all_eq_true, List.mem_range, testRange_iff] at h
    exact h

theorem testAndClearBlock_snd (N : Nat) (D : TVoxelStaticBitArray) (X SX Y SY Z i : Nat) :
    (TestAndClearBlock N D X SX Y SY Z).2 i = true ↔
      (D i = true ∧ ¬ ((TestAndClearBlock N D X SX Y SY Z).1 = true ∧
        ∃ j, j < SY ∧ X + (Y + j) * N + Z * N * N ≤ i ∧ i < X + (Y + j) * N + Z * N * N + SX)) := by
  unfold TestAndClearBlock
  split
  · next h =>
    simp only [true_and]
    exact foldl_setRange_false (fun j => X + (Y + j) * N + Z * N * N) SX D SY i
  · next h => simp


/-- The result of the `SizeY` loop of `GreedyMeshing3D`. -/
theorem sizeYLoop3D_spec (N X Y Z SX : Nat) (hX : X + SX ≤ N) :
    ∀ (fuel s0 : Nat) (D : TVoxelStaticBitArray), Y + s0 ≤ N → N ≤ fuel + (Y + s0) →
      s0 ≤ (sizeYLoop3D N X Y Z SX fuel s0 D).1 ∧
      Y + (sizeYLoop3D N X Y Z SX fuel s0 D).1 ≤ N ∧
      (∀ j, s0 ≤ j → j < (sizeYLoop3D N X Y Z SX fuel s0 D).1 → ∀ k, k < SX →
        D (X + k + (Y + j) * N + Z * N * N) = true) ∧
      (Y + (sizeYLoop3D N X Y Z SX fuel s0 D).1 = N ∨
        ∃ k, k < SX ∧
          D (X + k + (Y + (sizeYLoop3D N X Y Z SX fuel s0 D).1) * N + Z * N * N) = false) ∧
      (∀ i, (sizeYLoop3D N X Y Z SX fuel s0 D).2 i = true ↔
        (D i = true ∧ ¬ ∃ j k, s0 ≤ j ∧ j < (sizeYLoop3D N X Y Z SX fuel s0 D).1 ∧ k < SX ∧
          i = X + k + (Y + j) * N + Z * N * N)) := by
  intro fuel s0 D h1 h2
  rw [sizeYLoop3D_eq]
  have key := extendLoop_spec N Y (fun s D => TestAndClearLine3D N D X SX (Y + s) Z)
    (fun j i => ∃ k, k < SX ∧ i = X + k + (Y + j) * N + Z * N * N)
    (by
      intro s E
      simp only [TestAndClearLine3D, testAndClearRange_fst, testRange_iff]
      constructor
      · rintro h i ⟨k, hk, rfl⟩
        have := h k hk
        have e : X + (Y + s) * N + Z * N * N + k = X + k + (Y + s) * N + Z * N * N := by omega
        rwa [e] at this
      · intro h k hk
        exact h _ ⟨k, hk, by omega⟩)
    (by
      intro s E i
      simp only [TestAndClearLine3D, testAndClearRange_snd, testAndClearRange_fst]
      constructor
      · rintro ⟨hE, hn⟩
        refine ⟨hE, ?_⟩
        rintro ⟨ht, k, hk, rfl⟩
        exact hn ⟨ht, by omega, by omega⟩
      · rintro ⟨hE, hn⟩
        refine ⟨hE, ?_⟩
        rintro ⟨ht, h3, h4⟩
        exact hn ⟨ht, i - (X + (Y + s) * N + Z * N * N), by omega, by omega⟩)
    (by
      rintro s s' i hs hs' ⟨k, hk, rfl⟩ ⟨k', hk', e⟩
      have := cell_index_inj (by omega) (by omega) hs hs' e
      omega)
    fuel s0 D h1 h2
  obtain ⟨a1, a2, a3, a4, a5⟩ := key
  refine ⟨a1, a2, ?_, ?_, ?_⟩
  · intro j hj hj' k hk
    exact a3 j hj hj' _ ⟨k, hk, rfl⟩
  · rcases a4 with a4 | ⟨i, ⟨k, hk, rfl⟩, hi⟩
    · exact Or.inl a4
    · exact Or.inr ⟨k, hk, hi⟩
  · intro i
    rw [a5 i]
    constructor
    · rintro ⟨hD, hn⟩
      exact ⟨hD, fun ⟨j, k, hj, hj', hk, e⟩ => hn ⟨j, hj, hj', k, hk, e⟩⟩
    · rintro ⟨hD, hn⟩
      exact ⟨hD, fun ⟨j, hj, hj', k, hk, e⟩ => hn ⟨j, k, hj, hj', hk, e⟩⟩

/-- The result of the `SizeZ` loop of `GreedyMeshing3D`. -/
theorem sizeZLoop3D_spec (N X Y Z SX SY : Nat) (hX : X + SX ≤ N) (hY : Y + SY ≤ N) :
    ∀ (fuel s0 : Nat) (D : TVoxelStaticBitArray), Z + s0 ≤ N → N ≤ fuel + (Z + s0) →
      s0 ≤ (sizeZLoop3D N X Y Z SX SY fuel s0 D).1 ∧
      Z + (sizeZLoop3D N X Y Z SX SY fuel s0 D).1 ≤ N ∧
      (∀ s, s0 ≤ s → s < (sizeZLoop3D N X Y Z SX SY fuel s0 D).1 → ∀ j, j < SY → ∀ k, k < SX →
        D (X + k + (Y + j) * N + (Z + s) * N * N) = true) ∧
      (Z + (sizeZLoop3D N X Y Z SX SY fuel s0 D).1 = N ∨
        ∃ j k, j < SY ∧ k < SX ∧
          D (X + k + (Y + j) * N + (Z + (sizeZLoop3D N X Y Z SX SY fuel s0 D).1) * N * N) = false) ∧
      (∀ i, (sizeZLoop3D N X Y Z SX SY fuel s0 D).2 i = true ↔
        (D i = true ∧ ¬ ∃ s j k, s0 ≤ s ∧ s < (sizeZLoop3D N X Y Z SX SY fuel s0 D).1 ∧
          j < SY ∧ k < SX ∧ i = X + k + (Y + j) * N + (Z + s) * N * N)) := by
  intro fuel s0 D h1 h2
  rw [sizeZLoop3D_eq]
  have key := extendLoop_spec N Z (fun s D => TestAndClearBlock N D X SX Y SY (Z + s))
    (fun s i => ∃ j k, j < SY ∧ k < SX ∧ i = X + k + (Y + j) * N + (Z + s) * N * N)
    (by
      intro s E
      simp only [testAndClearBlock_fst]
      constructor
      · rintro h i ⟨j, k, hj, hk, rfl⟩
        have := h j hj k hk
        have e : X + (Y + j) * N + (Z + s) * N * N + k = X + k + (Y + j) * N + (Z + s) * N * N := by
          omega
        rwa [e] at this
      · intro h j hj k hk
        exact h _ ⟨j, k, hj, hk, by omega⟩)
    (by
      intro s E i
      rw [testAndClearBlock_snd]
      constructor
      · rintro ⟨hE, hn⟩
        refine ⟨hE, ?_⟩
        rintro ⟨ht, j, k, hj, hk, rfl⟩
        exact hn ⟨ht, j, hj, by omega, by omega⟩
      · rintro ⟨hE, hn⟩
        refine ⟨hE, ?_⟩
        rintro ⟨ht, j, hj, h3, h4⟩
        exact hn ⟨ht, j, i - (X + (Y + j) * N + (Z + s) * N * N), hj, by omega, by omega⟩)
    (by
      rintro s s' i hs hs' ⟨j, k, hj, hk, rfl⟩ ⟨j', k', hj', hk', e⟩
      have := cell_index_inj (by omega) (by omega) (by omega) (by omega) e
      omega)
    fuel s0 D h1 h2
  obtain ⟨a1, a2, a3, a4, a5⟩ := key
  refine ⟨a1, a2, ?_, ?_, ?_⟩
  · intro s hs hs' j hj k hk
    exact a3 s hs hs' _ ⟨j, k, hj, hk, rfl⟩
  · rcases a4 with a4 | ⟨i, ⟨j, k, hj, hk, rfl⟩, hi⟩
    · exact Or.inl a4
    · exact Or.inr ⟨j, k, hj, hk, hi⟩
  · intro i
    rw [a5 i]
    constructor
    · rintro ⟨hD, hn⟩
      exact ⟨hD, fun ⟨s, j, k, hs, hs', hj, hk, e⟩ => hn ⟨s, hs, hs', j, k, hj, hk, e⟩⟩
    · rintro ⟨hD, hn⟩
      exact ⟨hD, fun ⟨s, hs, hs', j, k, hj, hk, e⟩ => hn ⟨s, j, k, hs, hs', hj, hk, e⟩⟩

theorem widthLoop2D_eq (N Layer X Y : Nat) (hN : N * N % NumBitsPerWord = 0) :
    ∀ (fuel w : Nat) (F : TVoxelStaticBitArray),
      widthLoop2D N Layer X Y fuel w F = sizeXLoop3D N X Y Layer fuel w F := by
  intro fuel
  induction fuel with
  | zero => intro w F; rfl
  | succ n ih =>
    intro w F
    simp only [widthLoop2D, sizeXLoop3D, ih, TestAndClear3D, facesIndex_eq N Layer _ hN]

theorem heightLoop2D_eq (N Layer X Y Width : Nat) (hN : N * N % NumBitsPerWord = 0) :
    ∀ (fuel h : Nat) (F : TVoxelStaticBitArray),
      heightLoop2D N Layer X Y Width fuel h F = sizeYLoop3D N X Y Layer Width fuel h F := by
  intro fuel
  induction fuel with
  | zero => intro h F; rfl
  | succ n ih =>
    intro h F
    simp only [heightLoop2D, sizeYLoop3D, ih, TestAndClearLine3D, facesIndex_eq N Layer _ hN]


/-! ## The invariant of `GreedyMeshing2D` -/

/-- A pending cell whose bit is clear in the current mask is dead. -/
theorem Inv2D.deadCell_of_clear {N : Nat} {F G : TVoxelStaticBitArray} {L X Y : Nat}
    {rs : List FCubicQuad} (h : Inv2D N F G L X Y rs) (c : Cell) (hU : inGrid N c)
    (hp : ¬ passed2D L X Y c) (hc : cellBit N G c = false) : deadCell N F rs c := by
  unfold deadCell
  by_contra hn
  push_neg at hn
  have hF : cellBit N F c = true := by simpa using hn.1
  have := (h.pend c hU hp).2 ⟨hF, fun ⟨r, hr, hm⟩ => hn.2 r hr hm⟩
  rw [hc] at this
  exact Bool.false_ne_true this

/-- One emitting iteration of the `Y` loop keeps the invariant. -/
theorem yLoop2D_step {N : Nat} (hN : N * N % NumBitsPerWord = 0) {F G : TVoxelStaticBitArray}
    {L X Y : Nat} {rs : List FCubicQuad} (hL : L < N) (hX : X < N) (hY : Y < N)
    (h : Inv2D N F G L X Y rs) (hseed : G (X + Y * N + L * N * N) = true) :
    Inv2D N F (heightLoop2D N L X Y (widthLoop2D N L X Y N 1 G).1 N 1 (widthLoop2D N L X Y N 1 G).2).2
      L X (Y + (heightLoop2D N L X Y (widthLoop2D N L X Y N 1 G).1 N 1
        (widthLoop2D N L X Y N 1 G).2).1)
      (rs ++ [FCubicQuad.mk L X Y (widthLoop2D N L X Y N 1 G).1
        (heightLoop2D N L X Y (widthLoop2D N L X Y N 1 G).1 N 1 (widthLoop2D N L X Y N 1 G).2).1]) := by
  rw [widthLoop2D_eq N L X Y hN]
  obtain ⟨w1, w2, w3, w4, w5⟩ := sizeXLoop3D_spec N X Y L N 1 G (by omega) (by omega)
  generalize sizeXLoop3D N X Y L N 1 G = w at *
  obtain ⟨W, G1⟩ := w
  simp only at w1 w2 w3 w4 w5 ⊢
  rw [heightLoop2D_eq N L X Y W hN]
  obtain ⟨h1, h2, h3, h4, h5⟩ := sizeYLoop3D_spec N X Y L W w2 N 1 G1 (by omega) (by omega)
  generalize sizeYLoop3D N X Y L W N 1 G1 = hh at *
  obtain ⟨H, G2⟩ := hh
  simp only at h1 h2 h3 h4 h5 ⊢
  have hcell : ∀ c : Cell, FCubicQuad.covers ⟨L, X, Y, W, H⟩ c → cellBit N G c = true := by
    rintro ⟨u, v, l⟩ ⟨hl, hu1, hu2, hv1, hv2⟩
    simp only at hl hu1 hu2 hv1 hv2
    subst hl
    obtain ⟨k, rfl⟩ : ∃ k, u = X + k := ⟨u - X, by omega⟩
    obtain ⟨j, rfl⟩ : ∃ j, v = Y + j := ⟨v - Y, by omega⟩
    simp only [cellBit]
    by_cases hj : j = 0
    · subst hj
      by_cases hk : k = 0
      · subst hk; exact hseed
      · exact w3 k (by omega) (by omega)
    · exact ((w5 _).1 (h3 j (by omega) (by omega) k (by omega))).1
  unfold Inv2D
  apply ScanInv.emit h
  · rintro ⟨u, v, l⟩
    simp only [passed2D]
    omega
  · simp only [passed2D, FCubicQuad.seed, true_and]
    omega
  · simp only [FCubicQuad.covers, FCubicQuad.seed, true_and]
    omega
  · intro c hc
    refine ⟨?_, ?_, hcell c hc⟩
    · obtain ⟨u, v, l⟩ := c
      simp only [FCubicQuad.covers, inGrid] at hc ⊢
      omega
    · obtain ⟨u, v, l⟩ := c
      simp only [FCubicQuad.covers, passed2D] at hc ⊢
      omega
  · rintro ⟨u, v, l⟩ _
    simp only [FCubicQuad.covers, passed2D]
    omega
  · rintro ⟨u, v, l⟩ ⟨hu, hv, hl⟩
    simp only at hu hv hl
    simp only [cellBit, h5, w5, FCubicQuad.covers, FCubicQuad.seed, Prod.mk.injEq]
    constructor
    · rintro ⟨⟨hG, hn1⟩, hn2⟩
      refine ⟨hG, ?_⟩
      rintro ⟨rfl, hu1, hu2, hv1, hv2⟩
      obtain ⟨k, rfl⟩ : ∃ k, u = X + k := ⟨u - X, by omega⟩
      obtain ⟨j, rfl⟩ : ∃ j, v = Y + j := ⟨v - Y, by omega⟩
      by_cases hj : j = 0
      · subst hj
        by_cases hk : k = 0
        · subst hk; simp
        · exact absurd ⟨k, by omega, by omega, rfl⟩ hn1
      · exact absurd ⟨j, k, by omega, by omega, by omega, rfl⟩ hn2
    · rintro ⟨hG, himp⟩
      refine ⟨⟨hG, ?_⟩, ?_⟩
      · rintro ⟨k, hk1, hk2, e⟩
        obtain ⟨rfl, rfl, rfl⟩ := cell_index_inj hu (by omega) hv hY e
        have := himp ⟨rfl, by omega, by omega, by omega, by omega⟩
        omega
      · rintro ⟨j, k, hj1, hj2, hk, e⟩
        obtain ⟨rfl, rfl, rfl⟩ := cell_index_inj hu (by omega) hv (by omega) e
        have := himp ⟨rfl, by omega, by omega, by omega, by omega⟩
        omega
  · refine ⟨hL, w1, w2, h1, h2, ?_, ?_, ?_⟩
    · by_cases hxw : X + W = N
      · exact Or.inl hxw
      · replace w4 := w4.resolve_left hxw
        right
        apply h.deadCell_of_clear
        · simp only [inGrid]; omega
        · simp only [passed2D]; omega
        · exact w4
    · by_cases hyh : Y + H = N
      · exact Or.inl hyh
      · obtain ⟨k, hk, h4⟩ := h4.resolve_left hyh
        right
        refine ⟨k, hk, ?_⟩
        apply h.deadCell_of_clear
        · simp only [inGrid]; omega
        · simp only [passed2D]; omega
        · simp only [cellBit]
          by_contra hne
          have ht : G (X + k + (Y + H) * N + L * N * N) = true := by simpa using hne
          have := (w5 _).2 ⟨ht, by
            rintro ⟨k', hk1, hk2, e⟩
            have := cell_index_inj (by omega) (by omega) (by omega) hY e
            omega⟩
          rw [h4] at this
          exact Bool.false_ne_true this
    · intro r hr
      exact (h.seedIn r hr).2


/-- An invariant that holds initially and is kept by every iteration holds
after a `for` loop over `0 .. n-1`. -/
theorem foldl_range_inv {σ : Type} (f : σ → Nat → σ) (P : Nat → σ → Prop) (n : Nat) (init : σ)
    (h0 : P 0 init) (hstep : ∀ k st, k < n → P k st → P (k + 1) (f st k)) :
    P n ((List.range n).foldl f init) := by
  induction n with
  | zero => simpa using h0
  | succ n ih =>
    rw [List.range_succ, List.foldl_append]
    simp only [List.foldl_cons, List.foldl_nil]
    exact hstep n _ (Nat.lt_succ_self n)
      (ih (fun k st hk hP => hstep k st (Nat.lt_succ_of_lt hk) hP))

/-- The `Y` loop of one column takes the invariant to the next column. -/
theorem yLoop2D_inv {N : Nat} (hN : N * N % NumBitsPerWord = 0) {F : TVoxelStaticBitArray}
    {L X : Nat} (hL : L < N) (hX : X < N) :
    ∀ (fuel Y : Nat) (G : TVoxelStaticBitArray) (rs : List FCubicQuad), N ≤ fuel + Y →
      Inv2D N F G L X Y rs →
      Inv2D N F (yLoop2D N L X fuel Y G).1 L (X + 1) 0 (rs ++ (yLoop2D N L X fuel Y G).2) := by
  intro fuel
  induction fuel with
  | zero =>
    intro Y G rs hf h
    simp only [yLoop2D, List.append_nil]
    apply ScanInv.advance h
    · rintro ⟨u, v, l⟩; simp only [passed2D]; omega
    · rintro ⟨u, v, l⟩ hU; simp only [passed2D, inGrid] at hU ⊢; omega
  | succ n ih =>
    intro Y G rs hf h
    simp only [yLoop2D]
    by_cases hY : Y < N
    · simp only [hY, if_true]
      rw [seedTest2D_eq N L X Y G hN hX]
      cases hs : G (X + Y * N + L * N * N)
      · simp only [Bool.not_false, if_true]
        apply ih (Y + 1) G rs (by omega)
        apply ScanInv.advance h
        · rintro ⟨u, v, l⟩; simp only [passed2D]; omega
        · rintro ⟨u, v, l⟩ hU h1 h2
          simp only [passed2D, inGrid] at hU h1 h2
          obtain ⟨rfl, rfl, rfl⟩ : l = L ∧ u = X ∧ v = Y := by omega
          exact hs
      · simp only [Bool.not_true, Bool.false_eq_true, if_false]
        have hstep := yLoop2D_step hN hL hX hY h hs
        have hH : 1 ≤ (heightLoop2D N L X Y (widthLoop2D N L X Y N 1 G).1 N 1
            (widthLoop2D N L X Y N 1 G).2).1 := (hstep.all rs _ [] rfl).2.2.2.1
        have := ih _ _ _ (by omega) hstep
        simpa [List.append_assoc] using this
    · simp only [hY, if_false, List.append_nil]
      apply ScanInv.advance h
      · rintro ⟨u, v, l⟩; simp only [passed2D]; omega
      · rintro ⟨u, v, l⟩ hU; simp only [passed2D, inGrid] at hU ⊢; omega

/-- The loops over one layer take the invariant to the next layer. -/
theorem layer2D_inv {N : Nat} (hN : N * N % NumBitsPerWord = 0) {F G : TVoxelStaticBitArray}
    {L : Nat} (hL : L < N) {rs : List FCubicQuad} (h : Inv2D N F G L 0 0 rs) :
    Inv2D N F (layer2D N L G).1 (L + 1) 0 0 (rs ++ (layer2D N L G).2) := by
  have key := foldl_range_inv (addOutput (fun X G => yLoop2D N L X N 0 G))
    (fun k st => Inv2D N F st.1 L k 0 (rs ++ st.2)) N (G, [])
    (by simpa using h)
    (by
      intro k st hk hP
      have := yLoop2D_inv hN hL hk N 0 st.1 (rs ++ st.2) (by omega) hP
      simpa [addOutput, List.append_assoc] using this)
  unfold layer2D
  apply ScanInv.advance key
  · rintro ⟨u, v, l⟩; simp only [passed2D]; omega
  · rintro ⟨u, v, l⟩ hU; simp only [passed2D, inGrid] at hU ⊢; omega

/-- The invariant holds when `GreedyMeshing2D` returns, with every cell passed. -/
theorem GreedyMeshing2D_inv {N : Nat} (hN : N * N % NumBitsPerWord = 0) (F : TVoxelStaticBitArray) :
    Inv2D N F (GreedyMeshing2D N F).1 N 0 0 (GreedyMeshing2D N F).2 := by
  unfold GreedyMeshing2D
  apply foldl_range_inv (addOutput (fun Layer G => layer2D N Layer G))
    (fun k st => Inv2D N F st.1 k 0 0 st.2) N (F, [])
  · apply ScanInv.advance (ScanInv.init (cellBit N F))
    · intro c hc; exact hc.elim
    · rintro ⟨u, v, l⟩ _ hp; simp only [passed2D] at hp; omega
  · intro k st hk hP
    exact layer2D_inv hN hk hP

theorem passed2D_all {N : Nat} (c : Cell) (hc : inGrid N c) : passed2D N 0 0 c := by
  obtain ⟨u, v, l⟩ := c
  simp only [passed2D, inGrid] at hc ⊢
  omega

theorem quads_disjoint_symm :
    Symmetric (fun q r : FCubicQuad => ∀ c, ¬ (q.covers c ∧ r.covers c)) :=
  fun _ _ h c hc => h c ⟨hc.2, hc.1⟩


/-! ## Properties of the quads of `GreedyMeshing2D` -/

/-- A cell lies in an emitted quad iff it is a set cell of the entry mask. -/
theorem GreedyMeshing2D_cover {N : Nat} (hN : N * N % NumBitsPerWord = 0)
    (F : TVoxelStaticBitArray) (c : Cell) :
    (∃ q ∈ (GreedyMeshing2D N F).2, q.covers c) ↔ (inGrid N c ∧ cellBit N F c = true) :=
  (GreedyMeshing2D_inv hN F).cover (fun c hc => passed2D_all c hc) c

/-- The emitted quads are pairwise disjoint. -/
theorem GreedyMeshing2D_pairwise {N : Nat} (hN : N * N % NumBitsPerWord = 0)
    (F : TVoxelStaticBitArray) :
    (GreedyMeshing2D N F).2.Pairwise (fun q r => ∀ c, ¬ (q.covers c ∧ r.covers c)) :=
  (GreedyMeshing2D_inv hN F).disj

/-- Every emitted quad has the properties recorded at its emission. -/
theorem GreedyMeshing2D_quadProp {N : Nat} (hN : N * N % NumBitsPerWord = 0)
    (F : TVoxelStaticBitArray) {q : FCubicQuad} (hq : q ∈ (GreedyMeshing2D N F).2) :
    ∃ pre post, (GreedyMeshing2D N F).2 = pre ++ q :: post ∧ quadProp N F pre q := by
  obtain ⟨pre, post, e⟩ := List.append_of_mem hq
  exact ⟨pre, post, e, (GreedyMeshing2D_inv hN F).all pre q post e⟩

/-- The bit left at a cell of an emitted quad: set exactly at the quad's seed. -/
theorem GreedyMeshing2D_residual {N : Nat} (hN : N * N % NumBitsPerWord = 0)
    (F : TVoxelStaticBitArray) {q : FCubicQuad} (hq : q ∈ (GreedyMeshing2D N F).2)
    (c : Cell) (hc : q.covers c) :
    (cellBit N (GreedyMeshing2D N F).1 c = true ↔ c = q.seed) := by
  have inv := GreedyMeshing2D_inv hN F
  have hU := (inv.sound q hq c hc).1
  rw [inv.resid c hU (passed2D_all c hU)]
  constructor
  · rintro ⟨r, hr, hs⟩
    by_cases e : r = q
    · rw [← hs, e]
    · have := List.Pairwise.forall quads_disjoint_symm inv.disj hr hq e c
      exact absurd ⟨hs ▸ (inv.seedIn r hr).1, hc⟩ this
  · intro e
    exact ⟨q, hq, e.symm⟩

/-- The column after an emitted quad, on the seed row, is outside the grid or
unset in the entry mask. -/
theorem GreedyMeshing2D_widthMax {N : Nat} (hN : N * N % NumBitsPerWord = 0)
    (F : TVoxelStaticBitArray) {q : FCubicQuad} (hq : q ∈ (GreedyMeshing2D N F).2) :
    q.StartX + q.SizeX = N ∨ cellBit N F (q.StartX + q.SizeX, q.StartY, q.Layer) = false := by
  obtain ⟨pre, post, e, hp⟩ := GreedyMeshing2D_quadProp hN F hq
  obtain ⟨_, hW, _, hH, _, hw, _, hseeds⟩ := hp
  rcases hw with hw | hw | ⟨r, hr, hcov⟩
  · exact Or.inl hw
  · exact Or.inr hw
  · exfalso
    have inv := GreedyMeshing2D_inv hN F
    have hd := inv.disj
    rw [e, List.pairwise_append] at hd
    have hrq := hd.2.2 r hr q (List.mem_cons_self _ _) q.seed
    apply hrq
    have hs := hseeds r hr
    simp only [FCubicQuad.covers, FCubicQuad.seed, passed2D, true_and] at hcov hs ⊢
    omega

/-- C1. `GreedyMeshing2D` exact cover: for every grid size `N` the template
accepts (`N²` a multiple of the word size) and every face mask `F`, a cell
`(layer, u, v)` lies in some emitted quad if and only if it is a cell of the
grid whose bit `u + v*N + layer*N²` is set in `F` on entry, and no cell lies in
two different emitted quads. -/
theorem GreedyMeshing2D_exact_cover (N : Nat) (F : TVoxelStaticBitArray)
    (hN : N * N % NumBitsPerWord = 0) :
    (∀ layer u v : Nat,
      (∃ q ∈ (GreedyMeshing2D N F).2, q.covers (u, v, layer)) ↔
        ((u < N ∧ v < N ∧ layer < N) ∧ F (u + v * N + layer * N * N) = true)) ∧
    (GreedyMeshing2D N F).2.Pairwise
      (fun q r => ∀ layer u v : Nat, ¬ (q.covers (u, v, layer) ∧ r.covers (u, v, layer))) := by
  refine ⟨fun layer u v => GreedyMeshing2D_cover hN F (u, v, layer), ?_⟩
  exact (GreedyMeshing2D_pairwise hN F).imp (fun h layer u v => h (u, v, layer))

/-- C1 at `N = 8` on `exampleMask`. -/
theorem GreedyMeshing2D_exact_cover_witness :
    8 * 8 % NumBitsPerWord = 0 ∧
    ((∀ layer u v : Nat,
      (∃ q ∈ (GreedyMeshing2D 8 exampleMask).2, q.covers (u, v, layer)) ↔
        ((u < 8 ∧ v < 8 ∧ layer < 8) ∧ exampleMask (u + v * 8 + layer * 8 * 8) = true)) ∧
    (GreedyMeshing2D 8 exampleMask).2.Pairwise
      (fun q r => ∀ layer u v : Nat, ¬ (q.covers (u, v, layer) ∧ r.covers (u, v, layer)))) :=
  ⟨by decide, GreedyMeshing2D_exact_cover 8 exampleMask (by decide)⟩


/-- C8, as stated, fails: on `singleFaceMask` with `N = 8` the quad
`(0, 0, 0, 1, 1)` is emitted and its only bit is still set when
`GreedyMeshing2D` returns. -/
theorem GreedyMeshing2D_seed_bit_remains :
    ¬ (∀ q ∈ (GreedyMeshing2D 8 singleFaceMask).2, ∀ u v : Nat, q.covers (u, v, q.Layer) →
        singleFaceMask (u + v * 8 + q.Layer * 8 * 8) = true ∧
        (GreedyMeshing2D 8 singleFaceMask).1 (u + v * 8 + q.Layer * 8 * 8) = false) := by
  intro h
  have h1 := h ⟨0, 0, 0, 1, 1⟩ (by decide) 0 0 (by decide)
  have h2 : (GreedyMeshing2D 8 singleFaceMask).1 0 = true := by decide
  simp only [Nat.zero_mul, Nat.add_zero] at h1
  rw [h2] at h1
  exact Bool.noConfusion h1.2

/-- C8, amended. Destructive consumption: for every face mask and every quad
emitted by `GreedyMeshing2D`, every bit of the quad's rectangle is 1 in the
mask on entry; when `GreedyMeshing2D` returns, the bit at `(StartX, StartY)` is
still 1 and every other bit of the rectangle is 0. -/
theorem GreedyMeshing2D_consumes (N : Nat) (F : TVoxelStaticBitArray)
    (hN : N * N % NumBitsPerWord = 0) :
    ∀ q ∈ (GreedyMeshing2D N F).2, ∀ u v : Nat, q.covers (u, v, q.Layer) →
      F (u + v * N + q.Layer * N * N) = true ∧
      ((GreedyMeshing2D N F).1 (u + v * N + q.Layer * N * N) = true ↔
        (u = q.StartX ∧ v = q.StartY)) := by
  intro q hq u v hc
  refine ⟨((GreedyMeshing2D_cover hN F (u, v, q.Layer)).1 ⟨q, hq, hc⟩).2, ?_⟩
  have := GreedyMeshing2D_residual hN F hq (u, v, q.Layer) hc
  simp only [cellBit, FCubicQuad.seed, Prod.mk.injEq, and_true] at this
  exact this

/-- C8 amended, at `N = 8` on `exampleMask`, for the quad `(0, 0, 0, 2, 2)`
and its cell `(1, 1)`. -/
theorem GreedyMeshing2D_consumes_witness :
    (8 * 8 % NumBitsPerWord = 0 ∧
      FCubicQuad.mk 0 0 0 2 2 ∈ (GreedyMeshing2D 8 exampleMask).2 ∧
      (FCubicQuad.mk 0 0 0 2 2).covers (1, 1, (FCubicQuad.mk 0 0 0 2 2).Layer)) ∧
    (exampleMask (1 + 1 * 8 + (FCubicQuad.mk 0 0 0 2 2).Layer * 8 * 8) = true ∧
      ((GreedyMeshing2D 8 exampleMask).1 (1 + 1 * 8 + (FCubicQuad.mk 0 0 0 2 2).Layer * 8 * 8)
          = true ↔
        (1 = (FCubicQuad.mk 0 0 0 2 2).StartX ∧ 1 = (FCubicQuad.mk 0 0 0 2 2).StartY))) :=
  ⟨⟨by decide, by decide, by decide⟩,
    GreedyMeshing2D_consumes 8 exampleMask (by decide) (FCubicQuad.mk 0 0 0 2 2) (by decide) 1 1
      (by decide)⟩

/-- C10. Width maximality: for every face mask `F` and every quad emitted by
`GreedyMeshing2D`, `SizeX` is the length of the maximal run of set bits of `F`
(as passed in) that starts at `(StartX, StartY)` and extends along `u` in layer
`Layer`: the `SizeX` bits from `StartX` on are set, and either
`StartX + SizeX = N` or the bit of `F` at `(StartX + SizeX, StartY)` is unset. -/
theorem GreedyMeshing2D_width_maximal (N : Nat) (F : TVoxelStaticBitArray)
    (hN : N * N % NumBitsPerWord = 0) :
    ∀ q ∈ (GreedyMeshing2D N F).2,
      (∀ k, k < q.SizeX → F (q.StartX + k + q.StartY * N + q.Layer * N * N) = true) ∧
      (q.StartX + q.SizeX = N ∨
        F (q.StartX + q.SizeX + q.StartY * N + q.Layer * N * N) = false) := by
  intro q hq
  constructor
  · intro k hk
    obtain ⟨pre, post, _, hp⟩ := GreedyMeshing2D_quadProp hN F hq
    have hcov : q.covers (q.StartX + k, q.StartY, q.Layer) := by
      simp only [FCubicQuad.covers, true_and]
      have := hp.2.2.2.1
      omega
    exact ((GreedyMeshing2D_cover hN F _).1 ⟨q, hq, hcov⟩).2
  · exact GreedyMeshing2D_widthMax hN F hq

/-- C10 at `N = 8` on `exampleMask`, for the quad `(0, 0, 0, 2, 2)`. -/
theorem GreedyMeshing2D_width_maximal_witness :
    (8 * 8 % NumBitsPerWord = 0 ∧ FCubicQuad.mk 0 0 0 2 2 ∈ (GreedyMeshing2D 8 exampleMask).2) ∧
    ((∀ k, k < (FCubicQuad.mk 0 0 0 2 2).SizeX →
        exampleMask ((FCubicQuad.mk 0 0 0 2 2).StartX + k + (FCubicQuad.mk 0 0 0 2 2).StartY * 8
          + (FCubicQuad.mk 0 0 0 2 2).Layer * 8 * 8) = true) ∧
      ((FCubicQuad.mk 0 0 0 2 2).StartX + (FCubicQuad.mk 0 0 0 2 2).SizeX = 8 ∨
        exampleMask ((FCubicQuad.mk 0 0 0 2 2).StartX + (FCubicQuad.mk 0 0 0 2 2).SizeX
          + (FCubicQuad.mk 0 0 0 2 2).StartY * 8 + (FCubicQuad.mk 0 0 0 2 2).Layer * 8 * 8)
          = false)) :=
  ⟨⟨by decide, by decide⟩,
    GreedyMeshing2D_width_maximal 8 exampleMask (by decide) (FCubicQuad.mk 0 0 0 2 2) (by decide)⟩

/-! ## The invariant of `GreedyMeshing3D` -/

/-- A pending voxel whose bit is clear in the current grid is dead. -/
theorem Inv3D.deadVoxel_of_clear {N : Nat} {D E : TVoxelStaticBitArray} {X Y Z : Nat}
    {rs : List FVoxelIntBox} (h : Inv3D N D E X Y Z rs) (c : Cell) (hU : inGrid N c)
    (hp : ¬ passed3D X Y Z c) (hc : cellBit N E c = false) : deadVoxel N D rs c := by
  unfold deadVoxel
  by_contra hn
  push_neg at hn
  have hF : cellBit N D c = true := by simpa using hn.1
  have := (h.pend c hU hp).2 ⟨hF, fun ⟨r, hr, hm⟩ => hn.2 r hr hm⟩
  rw [hc] at this
  exact Bool.false_ne_true this

/-- One emitting iteration of the `Z` loop keeps the invariant. -/
theorem zLoop3D_step {N : Nat} {D E : TVoxelStaticBitArray}
    {X Y Z : Nat} {rs : List FVoxelIntBox} (hX : X < N) (hY : Y < N) (hZ : Z < N)
    (h : Inv3D N D E X Y Z rs) (hseed : E (X + Y * N + Z * N * N) = true) :
    Inv3D N D
      (sizeZLoop3D N X Y Z (sizeXLoop3D N X Y Z N 1 E).1
        (sizeYLoop3D N X Y Z (sizeXLoop3D N X Y Z N 1 E).1 N 1 (sizeXLoop3D N X Y Z N 1 E).2).1 N 1
        (sizeYLoop3D N X Y Z (sizeXLoop3D N X Y Z N 1 E).1 N 1 (sizeXLoop3D N X Y Z N 1 E).2).2).2
      X Y (Z + (sizeZLoop3D N X Y Z (sizeXLoop3D N X Y Z N 1 E).1
        (sizeYLoop3D N X Y Z (sizeXLoop3D N X Y Z N 1 E).1 N 1 (sizeXLoop3D N X Y Z N 1 E).2).1 N 1
        (sizeYLoop3D N X Y Z (sizeXLoop3D N X Y Z N 1 E).1 N 1 (sizeXLoop3D N X Y Z N 1 E).2).2).1)
      (rs ++ [FVoxelIntBox.mk ⟨X, Y, Z⟩
        ⟨(X : Int) + (sizeXLoop3D N X Y Z N 1 E).1,
         (Y : Int) + (sizeYLoop3D N X Y Z (sizeXLoop3D N X Y Z N 1 E).1 N 1
            (sizeXLoop3D N X Y Z N 1 E).2).1,
         (Z : Int) + (sizeZLoop3D N X Y Z (sizeXLoop3D N X Y Z N 1 E).1
            (sizeYLoop3D N X Y Z (sizeXLoop3D N X Y Z N 1 E).1 N 1 (sizeXLoop3D N X Y Z N 1 E).2).1 N 1
            (sizeYLoop3D N X Y Z (sizeXLoop3D N X Y Z N 1 E).1 N 1
              (sizeXLoop3D N X Y Z N 1 E).2).2).1⟩]) := by
  obtain ⟨x1, x2, x3, x4, x5⟩ := sizeXLoop3D_spec N X Y Z N 1 E (by omega) (by omega)
  generalize sizeXLoop3D N X Y Z N 1 E = sx at *
  obtain ⟨SX, E1⟩ := sx
  simp only at x1 x2 x3 x4 x5 ⊢
  obtain ⟨y1, y2, y3, y4, y5⟩ := sizeYLoop3D_spec N X Y Z SX x2 N 1 E1 (by omega) (by omega)
  generalize sizeYLoop3D N X Y Z SX N 1 E1 = sy at *
  obtain ⟨SY, E2⟩ := sy
  simp only at y1 y2 y3 y4 y5 ⊢
  obtain ⟨z1, z2, z3, z4, z5⟩ := sizeZLoop3D_spec N X Y Z SX SY x2 y2 N 1 E2 (by omega) (by omega)
  generalize sizeZLoop3D N X Y Z SX SY N 1 E2 = sz at *
  obtain ⟨SZ, E3⟩ := sz
  simp only at z1 z2 z3 z4 z5 ⊢
  have hcell : ∀ c : Cell, FVoxelIntBox.covers
      (FVoxelIntBox.mk ⟨X, Y, Z⟩ ⟨(X : Int) + SX, (Y : Int) + SY, (Z : Int) + SZ⟩) c →
      cellBit N E c = true := by
    rintro ⟨x, y, z⟩ ⟨hx1, hx2, hy1, hy2, hz1, hz2⟩
    simp only at hx1 hx2 hy1 hy2 hz1 hz2
    obtain ⟨k, rfl⟩ : ∃ k, x = X + k := ⟨x - X, by omega⟩
    obtain ⟨j, rfl⟩ : ∃ j, y = Y + j := ⟨y - Y, by omega⟩
    obtain ⟨s, rfl⟩ : ∃ s, z = Z + s := ⟨z - Z, by omega⟩
    simp only [cellBit]
    by_cases hs : s = 0
    · subst hs
      by_cases hj : j = 0
      · subst hj
        by_cases hk : k = 0
        · subst hk; exact hseed
        · exact x3 k (by omega) (by omega)
      · exact ((x5 _).1 (y3 j (by omega) (by omega) k (by omega))).1
    · exact ((x5 _).1 ((y5 _).1 (z3 s (by omega) (by omega) j (by omega) k (by omega))).1).1
  unfold Inv3D
  apply ScanInv.emit h
  · rintro ⟨x, y, z⟩
    simp only [passed3D]
    omega
  · simp only [passed3D, FVoxelIntBox.seed, Int.toNat_ofNat, true_and]
    omega
  · simp only [FVoxelIntBox.covers, FVoxelIntBox.seed, Int.toNat_ofNat]
    omega
  · intro c hc
    refine ⟨?_, ?_, hcell c hc⟩
    · obtain ⟨x, y, z⟩ := c
      simp only [FVoxelIntBox.covers, inGrid] at hc ⊢
      omega
    · obtain ⟨x, y, z⟩ := c
      simp only [FVoxelIntBox.covers, passed3D] at hc ⊢
      omega
  · rintro ⟨x, y, z⟩ _
    simp only [FVoxelIntBox.covers, passed3D]
    omega
  · rintro ⟨x, y, z⟩ ⟨hx, hy, hz⟩
    simp only at hx hy hz
    simp only [cellBit, z5, y5, x5, FVoxelIntBox.covers, FVoxelIntBox.seed, Prod.mk.injEq,
      Int.toNat_ofNat]
    constructor
    · rintro ⟨⟨⟨hG, hn1⟩, hn2⟩, hn3⟩
      refine ⟨hG, ?_⟩
      rintro ⟨hx1, hx2, hy1, hy2, hz1, hz2⟩
      obtain ⟨k, rfl⟩ : ∃ k, x = X + k := ⟨x - X, by omega⟩
      obtain ⟨j, rfl⟩ : ∃ j, y = Y + j := ⟨y - Y, by omega⟩
      obtain ⟨s, rfl⟩ : ∃ s, z = Z + s := ⟨z - Z, by omega⟩
      by_cases hs : s = 0
      · subst hs
        by_cases hj : j = 0
        · subst hj
          by_cases hk : k = 0
          · subst hk; simp
          · exact absurd ⟨k, by omega, by omega, rfl⟩ hn1
        · exact absurd ⟨j, k, by omega, by omega, by omega, rfl⟩ hn2
      · exact absurd ⟨s, j, k, by omega, by omega, by omega, by omega, rfl⟩ hn3
    · rintro ⟨hG, himp⟩
      refine ⟨⟨⟨hG, ?_⟩, ?_⟩, ?_⟩
      · rintro ⟨k, hk1, hk2, e⟩
        obtain ⟨rfl, rfl, rfl⟩ := cell_index_inj hx (by omega) hy hY e
        have := himp ⟨by omega, by omega, by omega, by omega, by omega, by omega⟩
        omega
      · rintro ⟨j, k, hj1, hj2, hk, e⟩
        obtain ⟨rfl, rfl, rfl⟩ := cell_index_inj hx (by omega) hy (by omega) e
        have := himp ⟨by omega, by omega, by omega, by omega, by omega, by omega⟩
        omega
      · rintro ⟨s, j, k, hs1, hs2, hj, hk, e⟩
        obtain ⟨rfl, rfl, rfl⟩ := cell_index_inj hx (by omega) hy (by omega) e
        have := himp ⟨by omega, by omega, by omega, by omega, by omega, by omega⟩
        omega
  · refine ⟨X, Y, Z, SX, SY, SZ, rfl, x1, x2, y1, y2, z1, z2, ?_, ?_, ?_, ?_⟩
    · by_cases hxw : X + SX = N
      · exact Or.inl hxw
      · replace x4 := x4.resolve_left hxw
        right
        apply h.deadVoxel_of_clear
        · simp only [inGrid]; omega
        · simp only [passed3D]; omega
        · exact x4
    · by_cases hyh : Y + SY = N
      · exact Or.inl hyh
      · obtain ⟨k, hk, y4⟩ := y4.resolve_left hyh
        right
        refine ⟨k, hk, ?_⟩
        apply h.deadVoxel_of_clear
        · simp only [inGrid]; omega
        · simp only [passed3D]; omega
        · simp only [cellBit]
          by_contra hne
          have ht : E (X + k + (Y + SY) * N + Z * N * N) = true := by simpa using hne
          have := (x5 _).2 ⟨ht, by
            rintro ⟨k', hk1, hk2, e⟩
            have := cell_index_inj (by omega) (by omega) (by omega) hY e
            omega⟩
          rw [y4] at this
          exact Bool.false_ne_true this
    · by_cases hzs : Z + SZ = N
      · exact Or.inl hzs
      · obtain ⟨j, k, hj, hk, z4⟩ := z4.resolve_left hzs
        right
        refine ⟨j, k, hj, hk, ?_⟩
        apply h.deadVoxel_of_clear
        · simp only [inGrid]; omega
        · simp only [passed3D]; omega
        · simp only [cellBit]
          by_contra hne
          have ht : E (X + k + (Y + j) * N + (Z + SZ) * N * N) = true := by simpa using hne
          have h1 := (x5 _).2 ⟨ht, by
            rintro ⟨k', hk1, hk2, e⟩
            have := cell_index_inj (by omega) (by omega) (by omega) hY e
            omega⟩
          have h2 := (y5 _).2 ⟨h1, by
            rintro ⟨j', k', hj1, hj2, hk', e⟩
            have := cell_index_inj (by omega) (by omega) (by omega) (by omega) e
            omega⟩
          rw [z4] at h2
          exact Bool.false_ne_true h2
    · intro r hr
      exact (h.seedIn r hr).2


/-- The `Z` loop of one `(X, Y)` takes the invariant to the next `Y`. -/
theorem zLoop3D_inv {N : Nat} {D : TVoxelStaticBitArray} {X Y : Nat} (hX : X < N) (hY : Y < N) :
    ∀ (fuel Z : Nat) (E : TVoxelStaticBitArray) (rs : List FVoxelIntBox), N ≤ fuel + Z →
      Inv3D N D E X Y Z rs →
      Inv3D N D (zLoop3D N X Y fuel Z E).1 X (Y + 1) 0 (rs ++ (zLoop3D N X Y fuel Z E).2) := by
  intro fuel
  induction fuel with
  | zero =>
    intro Z E rs hf h
    simp only [zLoop3D, List.append_nil]
    apply ScanInv.advance h
    · rintro ⟨x, y, z⟩; simp only [passed3D]; omega
    · rintro ⟨x, y, z⟩ hU; simp only [passed3D, inGrid] at hU ⊢; omega
  | succ n ih =>
    intro Z E rs hf h
    simp only [zLoop3D]
    by_cases hZ : Z < N
    · simp only [hZ, if_true]
      cases hs : Test E (X + Y * N + Z * N * N)
      · simp only [Bool.not_false, if_true]
        apply ih (Z + 1) E rs (by omega)
        apply ScanInv.advance h
        · rintro ⟨x, y, z⟩; simp only [passed3D]; omega
        · rintro ⟨x, y, z⟩ hU h1 h2
          simp only [passed3D, inGrid] at hU h1 h2
          obtain ⟨rfl, rfl, rfl⟩ : x = X ∧ y = Y ∧ z = Z := by omega
          exact hs
      · simp only [Bool.not_true, Bool.false_eq_true, if_false]
        have hstep := zLoop3D_step hX hY hZ h hs
        obtain ⟨X', Y', Z', SX', SY', SZ', e, _, _, _, _, hSZ, _⟩ := hstep.all rs _ [] rfl
        have e3 := congrArg (fun b => b.Max.Z - b.Min.Z) e
        simp only at e3
        have := ih _ _ _ (by omega) hstep
        simpa [List.append_assoc] using this
    · simp only [hZ, if_false, List.append_nil]
      apply ScanInv.advance h
      · rintro ⟨x, y, z⟩; simp only [passed3D]; omega
      · rintro ⟨x, y, z⟩ hU; simp only [passed3D, inGrid] at hU ⊢; omega

/-- The loops over one `X` take the invariant to the next `X`. -/
theorem yLoop3D_inv {N : Nat} {D E : TVoxelStaticBitArray} {X : Nat} (hX : X < N)
    {rs : List FVoxelIntBox} (h : Inv3D N D E X 0 0 rs) :
    Inv3D N D
      ((List.range N).foldl (addOutput (fun Y E => zLoop3D N X Y N 0 E)) (E, [])).1 (X + 1) 0 0
      (rs ++ ((List.range N).foldl (addOutput (fun Y E => zLoop3D N X Y N 0 E)) (E, [])).2) := by
  have key := foldl_range_inv (addOutput (fun Y E => zLoop3D N X Y N 0 E))
    (fun k st => Inv3D N D st.1 X k 0 (rs ++ st.2)) N (E, [])
    (by simpa using h)
    (by
      intro k st hk hP
      have := zLoop3D_inv hX hk N 0 st.1 (rs ++ st.2) (by omega) hP
      simpa [addOutput, List.append_assoc] using this)
  apply ScanInv.advance key
  · rintro ⟨x, y, z⟩; simp only [passed3D]; omega
  · rintro ⟨x, y, z⟩ hU; simp only [passed3D, inGrid] at hU ⊢; omega

/-- The invariant holds when `GreedyMeshing3D` returns, with every voxel passed. -/
theorem GreedyMeshing3D_inv (N : Nat) (D : TVoxelStaticBitArray) :
    Inv3D N D (GreedyMeshing3D N D).1 N 0 0 (GreedyMeshing3D N D).2 := by
  unfold GreedyMeshing3D
  apply foldl_range_inv
    (addOutput (fun X D => (List.range N).foldl (addOutput (fun Y E => zLoop3D N X Y N 0 E)) (D, [])))
    (fun k st => Inv3D N D st.1 k 0 0 st.2) N (D, [])
  · apply ScanInv.advance (ScanInv.init (cellBit N D))
    · intro c hc; exact hc.elim
    · rintro ⟨x, y, z⟩ _ hp; simp only [passed3D] at hp; omega
  · intro k st hk hP
    exact yLoop3D_inv hk hP

theorem passed3D_all {N : Nat} (c : Cell) (hc : inGrid N c) : passed3D N 0 0 c := by
  obtain ⟨x, y, z⟩ := c
  simp only [passed3D, inGrid] at hc ⊢
  omega

theorem boxes_disjoint_symm :
    Symmetric (fun q r : FVoxelIntBox => ∀ c, ¬ (q.covers c ∧ r.covers c)) :=
  fun _ _ h c hc => h c ⟨hc.2, hc.1⟩

/-- A voxel lies in an emitted box iff it is a set voxel of the entry grid. -/
theorem GreedyMeshing3D_cover (N : Nat) (D : TVoxelStaticBitArray) (c : Cell) :
    (∃ b ∈ (GreedyMeshing3D N D).2, b.covers c) ↔ (inGrid N c ∧ cellBit N D c = true) :=
  (GreedyMeshing3D_inv N D).cover (fun c hc => passed3D_all c hc) c

/-- The emitted boxes are pairwise disjoint. -/
theorem GreedyMeshing3D_pairwise (N : Nat) (D : TVoxelStaticBitArray) :
    (GreedyMeshing3D N D).2.Pairwise (fun q r => ∀ c, ¬ (q.covers c ∧ r.covers c)) :=
  (GreedyMeshing3D_inv N D).disj

/-- Every emitted box has the properties recorded at its emission. -/
theorem GreedyMeshing3D_boxProp (N : Nat) (D : TVoxelStaticBitArray) {b : FVoxelIntBox}
    (hb : b ∈ (GreedyMeshing3D N D).2) :
    ∃ pre post, (GreedyMeshing3D N D).2 = pre ++ b :: post ∧ boxProp N D pre b := by
  obtain ⟨pre, post, e⟩ := List.append_of_mem hb
  exact ⟨pre, post, e, (GreedyMeshing3D_inv N D).all pre b post e⟩

/-- C2. `GreedyMeshing3D` exact cover: for every grid size `N` and every
solid-voxel grid `D` (bit `x + y*N + z*N²`), a voxel `(x, y, z)` lies in some
emitted half-open box `[Min, Max)` if and only if it is a voxel of the grid
whose bit is set in `D` on entry, and no voxel lies in two different emitted
boxes. -/
theorem GreedyMeshing3D_exact_cover (N : Nat) (D : TVoxelStaticBitArray) :
    (∀ x y z : Nat,
      (∃ b ∈ (GreedyMeshing3D N D).2, b.covers (x, y, z)) ↔
        ((x < N ∧ y < N ∧ z < N) ∧ D (x + y * N + z * N * N) = true)) ∧
    (GreedyMeshing3D N D).2.Pairwise
      (fun q r => ∀ x y z : Nat, ¬ (q.covers (x, y, z) ∧ r.covers (x, y, z))) := by
  refine ⟨fun x y z => GreedyMeshing3D_cover N D (x, y, z), ?_⟩
  exact (GreedyMeshing3D_pairwise N D).imp (fun h x y z => h (x, y, z))


/-! ## Face extraction -/

theorem setFaceIf_apply (cond : Bool) (A : FaceArrays) (d' d : Fin 6) (Index i : Nat) :
    (setFaceIf cond A d' Index) d i = true ↔
      (A d i = true ∨ (d = d' ∧ cond = true ∧ i = Index)) := by
  unfold setFaceIf
  cases cond
  · simp
  · simp only [if_true, Function.update]
    by_cases hd : d = d'
    · subst hd
      by_cases hi : i = Index <;> simp [hi, TVoxelStaticBitArray.Set]
    · simp [hd]

/-- The bits set by the body of the 'Find faces' loops at one voxel. -/
theorem findFacesAt_apply (N : Nat) (W : TVoxelStaticBitArray) (A : FaceArrays)
    (X Y Z : Nat) (d : Fin 6) (i : Nat) :
    (findFacesAt N W A X Y Z) d i = true ↔
      (A d i = true ∨ (i = faceIndex N d X Y Z ∧ exposed N W d X Y Z)) := by
  unfold findFacesAt exposed
  cases hv : GetValue N W X Y Z
  · simp
  · simp only [Bool.not_true, Bool.false_eq_true, if_false, setFaceIf_apply, GetFaceIndex,
      Bool.not_eq_true', true_and]
    fin_cases d <;>
      simp [faceIndex, faceCell, faceOffset, Int.sub_eq_add_neg] <;> tauto

/-- A `for` loop whose iterations only add set bits sets the bits of all
iterations. -/
theorem foldl_range_or {σ : Type} (f : σ → Nat → σ) (val : σ → Prop) (hit : Nat → Prop)
    (hstep : ∀ s k, val (f s k) ↔ (val s ∨ hit k)) (n : Nat) (init : σ) :
    val ((List.range n).foldl f init) ↔ (val init ∨ ∃ k, k < n ∧ hit k) := by
  apply foldl_range_inv f (fun k st => val st ↔ (val init ∨ ∃ j, j < k ∧ hit j)) n init
  · simp
  · intro k st _ hP
    rw [hstep, hP]
    constructor
    · rintro ((h | ⟨j, hj, h⟩) | h)
      · exact Or.inl h
      · exact Or.inr ⟨j, by omega, h⟩
      · exact Or.inr ⟨k, by omega, h⟩
    · rintro (h | ⟨j, hj, h⟩)
      · exact Or.inl (Or.inl h)
      · by_cases e : j = k
        · subst e; exact Or.inr h
        · exact Or.inl (Or.inr ⟨j, by omega, h⟩)

/-- The bits of the face masks after the 'Find faces' pass. -/
theorem FindFaces_apply (N : Nat) (W : TVoxelStaticBitArray) (d : Fin 6) (i : Nat) :
    FindFaces N W d i = true ↔
      ∃ x y z, x < N ∧ y < N ∧ z < N ∧ i = faceIndex N d x y z ∧ exposed N W d x y z := by
  unfold FindFaces
  refine Iff.trans (foldl_range_or
    (fun A Z => (List.range N).foldl (fun A Y =>
      (List.range N).foldl (fun A X => findFacesAt N W A X Y Z) A) A)
    (fun A : FaceArrays => A d i = true)
    (fun Z => ∃ y x, y < N ∧ x < N ∧ i = faceIndex N d x y Z ∧ exposed N W d x y Z)
    ?_ N (fun _ _ => false)) ?_
  · intro A Z
    refine Iff.trans (foldl_range_or
      (fun A Y => (List.range N).foldl (fun A X => findFacesAt N W A X Y Z) A)
      (fun A : FaceArrays => A d i = true)
      (fun Y => ∃ x, x < N ∧ i = faceIndex N d x Y Z ∧ exposed N W d x Y Z)
      ?_ N A) ?_
    · intro A Y
      exact foldl_range_or (fun A X => findFacesAt N W A X Y Z)
        (fun A : FaceArrays => A d i = true)
        (fun X => i = faceIndex N d X Y Z ∧ exposed N W d X Y Z)
        (fun A X => findFacesAt_apply N W A X Y Z d i) N A
    · constructor
      · rintro (h | ⟨y, hy, x, hx, h⟩)
        · exact Or.inl h
        · exact Or.inr ⟨y, x, hy, hx, h⟩
      · rintro (h | ⟨y, x, hy, hx, h⟩)
        · exact Or.inl h
        · exact Or.inr ⟨y, hy, x, hx, h⟩
  · simp only [Bool.false_eq_true, false_or]
    constructor
    · rintro ⟨z, hz, y, x, hy, hx, h⟩
      exact ⟨x, y, z, hx, hy, hz, h⟩
    · rintro ⟨x, y, z, hx, hy, hz, h⟩
      exact ⟨z, hz, y, x, hy, hx, h⟩

theorem faceCell_inGrid {N : Nat} (d : Fin 6) {x y z : Nat} (hx : x < N) (hy : y < N)
    (hz : z < N) : inGrid N (faceCell d x y z) := by
  fin_cases d <;> simp [faceCell, inGrid, hx, hy, hz]

theorem faceCell_inj (d : Fin 6) {x y z x' y' z' : Nat}
    (h : faceCell d x y z = faceCell d x' y' z') : x = x' ∧ y = y' ∧ z = z' := by
  fin_cases d <;> simp [faceCell] at h <;> omega

theorem faceIndex_inj {N : Nat} (d : Fin 6) {x y z x' y' z' : Nat}
    (hx : x < N) (hy : y < N) (hz : z < N) (hx' : x' < N) (hy' : y' < N) (hz' : z' < N)
    (h : faceIndex N d x y z = faceIndex N d x' y' z') : x = x' ∧ y = y' ∧ z = z' := by
  have h1 := faceCell_inGrid d hx hy hz
  have h2 := faceCell_inGrid d hx' hy' hz'
  unfold faceIndex at h
  obtain ⟨e1, e2, e3⟩ := cell_index_inj h1.1 h2.1 h1.2.1 h2.2.1 h
  exact faceCell_inj d (Prod.ext e1 (Prod.ext e2 e3))

/-- The face bit of a chunk voxel is set iff the voxel has an exposed face. -/
theorem FindFaces_faceIndex {N : Nat} (W : TVoxelStaticBitArray) (d : Fin 6) {x y z : Nat}
    (hx : x < N) (hy : y < N) (hz : z < N) :
    FindFaces N W d (faceIndex N d x y z) = true ↔ exposed N W d x y z := by
  rw [FindFaces_apply]
  constructor
  · rintro ⟨x', y', z', hx', hy', hz', e, h⟩
    obtain ⟨rfl, rfl, rfl⟩ := faceIndex_inj d hx hy hz hx' hy' hz' e
    exact h
  · intro h
    exact ⟨x, y, z, hx, hy, hz, rfl, h⟩

/-- C3. Face extraction: for every padded occupancy window `W`, every direction
`d` with unit offset `(-X, +X, -Y, +Y, -Z, +Z)` and every voxel `(x, y, z)` of
the chunk, the bit of `FacesBitArrays[d]` at the direction-specific index
(`y + z*N + x*N²` for `d ∈ {0, 1}`, `z + x*N + y*N²` for `d ∈ {2, 3}`,
`x + y*N + z*N²` for `d ∈ {4, 5}`) is set after the 'Find faces' pass if and
only if `W` is solid at `(x, y, z)` and empty at `(x, y, z) + offset(d)`; and no
other bit is set: every set bit is the bit of such a voxel. -/
theorem FindFaces_correct (N : Nat) (W : TVoxelStaticBitArray) (d : Fin 6) :
    (∀ x y z : Nat, x < N → y < N → z < N →
      (FindFaces N W d (faceIndex N d x y z) = true ↔
        (GetValue N W x y z = true ∧
          GetValue N W ((x : Int) + (faceOffset d).X) ((y : Int) + (faceOffset d).Y)
            ((z : Int) + (faceOffset d).Z) = false))) ∧
    (∀ i : Nat, FindFaces N W d i = true →
      ∃ x y z : Nat, x < N ∧ y < N ∧ z < N ∧ i = faceIndex N d x y z) ∧
    (∀ x y z : Nat,
      faceIndex N 0 x y z = y + z * N + x * N * N ∧
      faceIndex N 1 x y z = y + z * N + x * N * N ∧
      faceIndex N 2 x y z = z + x * N + y * N * N ∧
      faceIndex N 3 x y z = z + x * N + y * N * N ∧
      faceIndex N 4 x y z = x + y * N + z * N * N ∧
      faceIndex N 5 x y z = x + y * N + z * N * N) ∧
    (faceOffset 0 = ⟨-1, 0, 0⟩ ∧ faceOffset 1 = ⟨1, 0, 0⟩ ∧ faceOffset 2 = ⟨0, -1, 0⟩ ∧
      faceOffset 3 = ⟨0, 1, 0⟩ ∧ faceOffset 4 = ⟨0, 0, -1⟩ ∧ faceOffset 5 = ⟨0, 0, 1⟩) := by
  refine ⟨fun x y z hx hy hz => FindFaces_faceIndex W d hx hy hz, ?_, ?_, ?_⟩
  · intro i hi
    obtain ⟨x, y, z, hx, hy, hz, e, _⟩ := (FindFaces_apply N W d i).1 hi
    exact ⟨x, y, z, hx, hy, hz, e⟩
  · intro x y z
    simp [faceIndex, faceCell]
  · simp [faceOffset]


/-- C3 at `N = 8` on the window with the single solid voxel `(2, 2, 2)`, for
direction `+Z` and that voxel. -/
theorem FindFaces_correct_witness :
    (2 < 8 ∧ 2 < 8 ∧ 2 < 8) ∧
    (FindFaces 8 singleVoxelWindow 5 (faceIndex 8 5 2 2 2) = true ↔
      (GetValue 8 singleVoxelWindow (2 : Nat) (2 : Nat) (2 : Nat) = true ∧
        GetValue 8 singleVoxelWindow (((2 : Nat) : Int) + (faceOffset 5).X)
          (((2 : Nat) : Int) + (faceOffset 5).Y) (((2 : Nat) : Int) + (faceOffset 5).Z) = false)) :=
  ⟨by decide, (FindFaces_correct 8 singleVoxelWindow 5).1 2 2 2 (by decide) (by decide)
    (by decide)⟩

/-! ## The cull predicate -/

theorem mem_intRange (lo hi x : Int) : x ∈ intRange lo hi ↔ (lo ≤ x ∧ x < hi) := by
  unfold intRange
  simp only [List.mem_map, List.mem_range]
  constructor
  · rintro ⟨k, hk, rfl⟩
    omega
  · rintro ⟨h1, h2⟩
    exact ⟨(x - lo).toNat, by omega, by omega⟩

/-- The cull predicate holds iff every voxel of the six slabs is solid. -/
theorem cullPredicate_iff (N : Nat) (W : TVoxelStaticBitArray) (Cube : FVoxelIntBox) :
    cullPredicate N W Cube = true ↔
      ∀ x y z : Int, Cube.inSlabs x y z → GetValue N W x y z = true := by
  unfold cullPredicate FVoxelIntBox.inSlabs
  simp only [Bool.and_eq_true, List.all_eq_true, mem_intRange, Bool.not_eq_true',
    Bool.or_eq_false_iff, Bool.not_eq_false']
  constructor
  · rintro ⟨⟨h1, h2⟩, h3⟩ x y z (⟨a, b, c, d, e⟩ | ⟨a, b, c, d, e⟩ | ⟨a, b, c, d, e⟩)
    · rcases e with rfl | rfl
      · exact (h1 x ⟨a, b⟩ y ⟨c, d⟩).1
      · exact (h1 x ⟨a, b⟩ y ⟨c, d⟩).2
    · rcases e with rfl | rfl
      · exact (h2 x ⟨a, b⟩ z ⟨c, d⟩).1
      · exact (h2 x ⟨a, b⟩ z ⟨c, d⟩).2
    · rcases e with rfl | rfl
      · exact (h3 y ⟨a, b⟩ z ⟨c, d⟩).1
      · exact (h3 y ⟨a, b⟩ z ⟨c, d⟩).2
  · intro h
    refine ⟨⟨?_, ?_⟩, ?_⟩
    · intro x hx y hy
      exact ⟨h x y _ (Or.inl ⟨hx.1, hx.2, hy.1, hy.2, Or.inl rfl⟩),
        h x y _ (Or.inl ⟨hx.1, hx.2, hy.1, hy.2, Or.inr rfl⟩)⟩
    · intro x hx z hz
      exact ⟨h x _ z (Or.inr (Or.inl ⟨hx.1, hx.2, hz.1, hz.2, Or.inl rfl⟩)),
        h x _ z (Or.inr (Or.inl ⟨hx.1, hx.2, hz.1, hz.2, Or.inr rfl⟩))⟩
    · intro y hy z hz
      exact ⟨h _ y z (Or.inr (Or.inr ⟨hy.1, hy.2, hz.1, hz.2, Or.inl rfl⟩)),
        h _ y z (Or.inr (Or.inr ⟨hy.1, hy.2, hz.1, hz.2, Or.inr rfl⟩))⟩

/-- A box for which the cull predicate fails has an empty voxel in a slab. -/
theorem cullPredicate_false (N : Nat) (W : TVoxelStaticBitArray) (Cube : FVoxelIntBox)
    (h : cullPredicate N W Cube = false) :
    ∃ x y z : Int, Cube.inSlabs x y z ∧ GetValue N W x y z = false := by
  by_contra hn
  have : cullPredicate N W Cube = true := by
    rw [cullPredicate_iff]
    intro x y z hs
    by_contra hv
    exact hn ⟨x, y, z, hs, by simpa using hv⟩
  rw [h] at this
  exact Bool.false_ne_true this

/-- C5. Cull soundness: for every padded occupancy window `W` and every box,
the predicate given to `RemoveAllSwap` returns true (the box is removed) if and
only if `W` is solid at every voxel of all six outward slabs of the box; hence
every box that `RemoveAllSwap` removes has all six slabs fully solid and every
box it retains has at least one empty voxel in at least one slab. -/
theorem cull_sound (N : Nat) (W : TVoxelStaticBitArray) :
    (∀ Cube : FVoxelIntBox,
      cullPredicate N W Cube = true ↔
        ∀ x y z : Int, Cube.inSlabs x y z → GetValue N W x y z = true) ∧
    (∀ (Cubes : List FVoxelIntBox) (Cube : FVoxelIntBox), Cube ∈ Cubes →
      Cube ∉ RemoveAllSwap (cullPredicate N W) Cubes →
        ∀ x y z : Int, Cube.inSlabs x y z → GetValue N W x y z = true) ∧
    (∀ (Cubes : List FVoxelIntBox) (Cube : FVoxelIntBox),
      Cube ∈ RemoveAllSwap (cullPredicate N W) Cubes →
        Cube ∈ Cubes ∧ ∃ x y z : Int, Cube.inSlabs x y z ∧ GetValue N W x y z = false) := by
  refine ⟨cullPredicate_iff N W, ?_, ?_⟩
  · intro Cubes Cube hmem hnot
    rw [← cullPredicate_iff]
    by_contra hp
    apply hnot
    simp only [RemoveAllSwap, List.mem_filter, Bool.not_eq_true']
    exact ⟨hmem, by simpa using hp⟩
  · intro Cubes Cube hmem
    simp only [RemoveAllSwap, List.mem_filter, Bool.not_eq_true'] at hmem
    exact ⟨hmem.1, cullPredicate_false N W Cube hmem.2⟩


/-- C5 on the window with the single solid voxel `(2, 2, 2)` for `N = 8`: its
box is retained and has an empty voxel in a slab. -/
theorem cull_sound_witness :
    FVoxelIntBox.mk ⟨2, 2, 2⟩ ⟨3, 3, 3⟩ ∈
      RemoveAllSwap (cullPredicate 8 singleVoxelWindow) [FVoxelIntBox.mk ⟨2, 2, 2⟩ ⟨3, 3, 3⟩] ∧
    (FVoxelIntBox.mk ⟨2, 2, 2⟩ ⟨3, 3, 3⟩ ∈ [FVoxelIntBox.mk ⟨2, 2, 2⟩ ⟨3, 3, 3⟩] ∧
      ∃ x y z : Int, (FVoxelIntBox.mk ⟨2, 2, 2⟩ ⟨3, 3, 3⟩).inSlabs x y z ∧
        GetValue 8 singleVoxelWindow x y z = false) :=
  ⟨by decide, (cull_sound 8 singleVoxelWindow).2.2 [FVoxelIntBox.mk ⟨2, 2, 2⟩ ⟨3, 3, 3⟩]
    (FVoxelIntBox.mk ⟨2, 2, 2⟩ ⟨3, 3, 3⟩) (by decide)⟩

/-! ## From quads back to voxels -/

theorem quadVoxel_faceCell (d : Fin 6) (x y z : Nat) :
    quadVoxel d.val (faceCell d x y z).1 (faceCell d x y z).2.1 (faceCell d x y z).2.2
      = (x, y, z) := by
  fin_cases d <;> simp [quadVoxel, faceCell]

/-- Every cell of a quad passed to `AddFace` for direction `d` is the face
cell of a chunk voxel with an exposed face in direction `d`. -/
theorem directionQuads_exposed {N : Nat} (hN : N * N % NumBitsPerWord = 0)
    (W : TVoxelStaticBitArray) (d : Fin 6) {q : FCubicQuad} (hq : q ∈ directionQuads N W d)
    {c : Cell} (hc : q.covers c) :
    ∃ x y z, x < N ∧ y < N ∧ z < N ∧ c = faceCell d x y z ∧ exposed N W d x y z := by
  obtain ⟨hU, hbit⟩ := (GreedyMeshing2D_cover hN (FindFaces N W d) c).1 ⟨q, hq, hc⟩
  obtain ⟨x, y, z, hx, hy, hz, e, hex⟩ := (FindFaces_apply N W d _).1 hbit
  refine ⟨x, y, z, hx, hy, hz, ?_, hex⟩
  have hg := faceCell_inGrid d hx hy hz
  unfold faceIndex at e
  obtain ⟨e1, e2, e3⟩ := cell_index_inj hU.1 hg.1 hU.2.1 hg.2.1 e
  exact Prod.ext e1 (Prod.ext e2 e3)

/-- C4. Topology, end to end: for every padded occupancy window, every
direction `d` and every quad that `CreateGeometryTemplate` passes to `AddFace`
for `d`, each cell `(u, v)` of the quad, mapped back to a voxel through the
axes `xAxis = (d/2+1)%3`, `yAxis = (d/2+2)%3`, `zAxis = d/2` at coordinate
`Layer`, is a solid voxel of the chunk whose neighbour in direction `d` is
empty. -/
theorem quads_topology (N : Nat) (W : TVoxelStaticBitArray) (d : Fin 6)
    (hN : N * N % NumBitsPerWord = 0) :
    ∀ q ∈ directionQuads N W d, ∀ u v : Nat,
      q.StartX ≤ u → u < q.StartX + q.SizeX → q.StartY ≤ v → v < q.StartY + q.SizeY →
      (quadVoxel d.val u v q.Layer).1 < N ∧
      (quadVoxel d.val u v q.Layer).2.1 < N ∧
      (quadVoxel d.val u v q.Layer).2.2 < N ∧
      GetValue N W (quadVoxel d.val u v q.Layer).1 (quadVoxel d.val u v q.Layer).2.1
        (quadVoxel d.val u v q.Layer).2.2 = true ∧
      GetValue N W
        (((quadVoxel d.val u v q.Layer).1 : Int) + (faceOffset d).X)
        (((quadVoxel d.val u v q.Layer).2.1 : Int) + (faceOffset d).Y)
        (((quadVoxel d.val u v q.Layer).2.2 : Int) + (faceOffset d).Z) = false := by
  intro q hq u v h1 h2 h3 h4
  have hc : q.covers (u, v, q.Layer) := ⟨rfl, h1, h2, h3, h4⟩
  obtain ⟨x, y, z, hx, hy, hz, e, hex⟩ := directionQuads_exposed hN W d hq hc
  have hv : quadVoxel d.val u v q.Layer = (x, y, z) := by
    have := quadVoxel_faceCell d x y z
    rw [← e] at this
    exact this
  rw [hv]
  exact ⟨hx, hy, hz, hex.1, hex.2⟩

/-- C4 at `N = 8` on the window with the single solid voxel `(2, 2, 2)`, for
direction `+Z`, its quad `(2, 2, 2, 1, 1)` and the cell `(2, 2)`. -/
theorem quads_topology_witness :
    (8 * 8 % NumBitsPerWord = 0 ∧
      FCubicQuad.mk 2 2 2 1 1 ∈ directionQuads 8 singleVoxelWindow 5 ∧
      (2 ≤ 2 ∧ 2 < 2 + 1 ∧ 2 ≤ 2 ∧ 2 < 2 + 1)) ∧
    ((quadVoxel (5 : Fin 6).val 2 2 2).1 < 8 ∧
      (quadVoxel (5 : Fin 6).val 2 2 2).2.1 < 8 ∧
      (quadVoxel (5 : Fin 6).val 2 2 2).2.2 < 8 ∧
      GetValue 8 singleVoxelWindow (quadVoxel (5 : Fin 6).val 2 2 2).1
        (quadVoxel (5 : Fin 6).val 2 2 2).2.1 (quadVoxel (5 : Fin 6).val 2 2 2).2.2 = true ∧
      GetValue 8 singleVoxelWindow
        (((quadVoxel (5 : Fin 6).val 2 2 2).1 : Int) + (faceOffset 5).X)
        (((quadVoxel (5 : Fin 6).val 2 2 2).2.1 : Int) + (faceOffset 5).Y)
        (((quadVoxel (5 : Fin 6).val 2 2 2).2.2 : Int) + (faceOffset 5).Z) = false) :=
  ⟨⟨by decide, by decide, by decide⟩,
    quads_topology 8 singleVoxelWindow 5 (by decide) (FCubicQuad.mk 2 2 2 1 1) (by decide) 2 2
      (by decide) (by decide) (by decide) (by decide)⟩

/-! ## Chunks without faces -/

/-- A mask without set cells yields no quads. -/
theorem GreedyMeshing2D_nil {N : Nat} (hN : N * N % NumBitsPerWord = 0)
    (F : TVoxelStaticBitArray) (h : ∀ c, inGrid N c → cellBit N F c = false) :
    (GreedyMeshing2D N F).2 = [] := by
  apply List.eq_nil_iff_forall_not_mem.2
  intro q hq
  have hs := ((GreedyMeshing2D_inv hN F).seedIn q hq).1
  obtain ⟨hU, hb⟩ := (GreedyMeshing2D_cover hN F _).1 ⟨q, hq, hs⟩
  rw [h _ hU] at hb
  exact Bool.false_ne_true hb

/-- Without exposed faces no direction has quads. -/
theorem directionQuads_nil {N : Nat} (hN : N * N % NumBitsPerWord = 0)
    (W : TVoxelStaticBitArray) (d : Fin 6)
    (h : ∀ x y z : Nat, x < N → y < N → z < N → ¬ exposed N W d x y z) :
    directionQuads N W d = [] := by
  apply GreedyMeshing2D_nil hN
  intro c _
  by_contra hb
  obtain ⟨x, y, z, hx, hy, hz, _, hex⟩ :=
    (FindFaces_apply N W d _).1 (by simpa [cellBit] using hb)
  exact h x y z hx hy hz hex

/-- The direction loop in terms of the quads of each direction. -/
theorem addFaces_eq (N : Nat) (Step : Int) (W : TVoxelStaticBitArray) :
    addFaces N Step W =
      (List.range 6).foldl (fun out Direction =>
        (directionQuads N W (Fin.ofNat Direction)).foldl
          (fun o Quad => AddFace Direction Quad Step o.1 o.2) out) ([], []) := rfl

/-- C6. No faces, no output: for every padded occupancy window in which no
chunk voxel has an exposed face, `CreateGeometryTemplate` produces 0 vertices,
0 indices and 0 collision boxes, whether or not collision boxes are requested
(the box meshing and cull passes are not run). -/
theorem no_faces_no_output (N : Nat) (Step : Int) (W : TVoxelStaticBitArray)
    (wantCubes bSimpleCubicCollision : Bool) (hN : N * N % NumBitsPerWord = 0)
    (h : ∀ (d : Fin 6) (x y z : Nat), x < N → y < N → z < N → ¬ exposed N W d x y z) :
    (CreateGeometryTemplate N Step W wantCubes bSimpleCubicCollision).Vertices.length = 0 ∧
    (CreateGeometryTemplate N Step W wantCubes bSimpleCubicCollision).Indices.length = 0 ∧
    (CreateGeometryTemplate N Step W wantCubes bSimpleCubicCollision).CollisionCubes.length = 0 := by
  have hq : ∀ d, directionQuads N W d = [] := fun d => directionQuads_nil hN W d (h d)
  have ha : addFaces N Step W = ([], []) := by
    rw [addFaces_eq]
    simp [hq, List.range_succ]
  simp [CreateGeometryTemplate, collisionCubes, ha]

/-- C6 at `N = 8`: the all-solid window and the all-empty window, both with
collision boxes requested. -/
theorem no_faces_no_output_witness :
    (8 * 8 % NumBitsPerWord = 0 ∧
      (∀ (d : Fin 6) (x y z : Nat), x < 8 → y < 8 → z < 8 → ¬ exposed 8 solidWindow d x y z)) ∧
    ((CreateGeometryTemplate 8 1 solidWindow true true).Vertices.length = 0 ∧
      (CreateGeometryTemplate 8 1 solidWindow true true).Indices.length = 0 ∧
      (CreateGeometryTemplate 8 1 solidWindow true true).CollisionCubes.length = 0) ∧
    ((CreateGeometryTemplate 8 1 emptyWindow true true).Vertices.length = 0 ∧
      (CreateGeometryTemplate 8 1 emptyWindow true true).Indices.length = 0 ∧
      (CreateGeometryTemplate 8 1 emptyWindow true true).CollisionCubes.length = 0) :=
  ⟨⟨by decide, fun d x y z _ _ _ h => by simp [exposed, GetValue, Test, solidWindow] at h⟩,
    no_faces_no_output 8 1 solidWindow true true (by decide)
      (fun d x y z _ _ _ h => by simp [exposed, GetValue, Test, solidWindow] at h),
    no_faces_no_output 8 1 emptyWindow true true (by decide)
      (fun d x y z _ _ _ h => by simp [exposed, GetValue, Test, emptyWindow] at h)⟩


/-! ## Number of quads -/

/-- C9, as stated, fails: on `zigzagMask` with `N = 8`, `GreedyMeshing2D` emits
three quads for layer 0, while two pairwise non-overlapping rectangles already
have the set bits of the layer as their union. -/
theorem GreedyMeshing2D_not_minimal :
    ((GreedyMeshing2D 8 zigzagMask).2.filter (fun q => decide (q.Layer = 0))).length = 3 ∧
    ∃ rects : List FCubicQuad,
      (∀ u v : Nat, (∃ q ∈ rects, q.covers (u, v, 0)) ↔
        ((u < 8 ∧ v < 8) ∧ zigzagMask (u + v * 8 + 0 * 8 * 8) = true)) ∧
      rects.Pairwise (fun q r => ∀ layer u v : Nat,
        ¬ (q.covers (u, v, layer) ∧ r.covers (u, v, layer))) ∧
      rects.length = 2 := by
  refine ⟨by decide, [⟨0, 1, 0, 1, 2⟩, ⟨0, 0, 1, 1, 2⟩], ?_, ?_, rfl⟩
  · intro u v
    simp only [List.mem_cons, List.mem_singleton, List.not_mem_nil, or_false, exists_eq_or_imp,
      exists_eq_left, FCubicQuad.covers, zigzagMask, decide_eq_true_eq, true_and]
    omega
  · simp only [List.pairwise_cons, List.mem_singleton, forall_eq, List.not_mem_nil,
      IsEmpty.forall_iff, implies_true, List.Pairwise.nil, and_true, FCubicQuad.covers]
    intro layer u v
    omega

/-- C9, amended. For every face mask and every layer, the quads
`GreedyMeshing2D` emits for that layer are pairwise non-overlapping
axis-aligned rectangles whose union is exactly the set bits of the layer (so
their number is an upper bound for the minimum number of such rectangles). -/
theorem GreedyMeshing2D_layer_partition (N : Nat) (F : TVoxelStaticBitArray) (Layer : Nat)
    (hN : N * N % NumBitsPerWord = 0) (hL : Layer < N) :
    (∀ u v : Nat,
      (∃ q ∈ (GreedyMeshing2D N F).2.filter (fun q => decide (q.Layer = Layer)),
          q.covers (u, v, Layer)) ↔
        ((u < N ∧ v < N) ∧ F (u + v * N + Layer * N * N) = true)) ∧
    ((GreedyMeshing2D N F).2.filter (fun q => decide (q.Layer = Layer))).Pairwise
      (fun q r => ∀ layer u v : Nat, ¬ (q.covers (u, v, layer) ∧ r.covers (u, v, layer))) := by
  constructor
  · intro u v
    have h := GreedyMeshing2D_cover hN F (u, v, Layer)
    simp only [inGrid, cellBit] at h
    constructor
    · rintro ⟨q, hq, hc⟩
      have := h.1 ⟨q, (List.mem_filter.1 hq).1, hc⟩
      exact ⟨⟨this.1.1, this.1.2.1⟩, this.2⟩
    · rintro ⟨⟨hu, hv⟩, hb⟩
      obtain ⟨q, hq, hc⟩ := h.2 ⟨⟨hu, hv, hL⟩, hb⟩
      refine ⟨q, List.mem_filter.2 ⟨hq, ?_⟩, hc⟩
      simpa using hc.1.symm
  · have hp := (GreedyMeshing2D_pairwise hN F).imp (fun h layer u v => h (u, v, layer))
    exact hp.sublist (List.filter_sublist _)

/-- C9 amended, at `N = 8` on `zigzagMask`, layer 0. -/
theorem GreedyMeshing2D_layer_partition_witness :
    (8 * 8 % NumBitsPerWord = 0 ∧ 0 < 8) ∧
    ((∀ u v : Nat,
      (∃ q ∈ (GreedyMeshing2D 8 zigzagMask).2.filter (fun q => decide (q.Layer = 0)),
          q.covers (u, v, 0)) ↔
        ((u < 8 ∧ v < 8) ∧ zigzagMask (u + v * 8 + 0 * 8 * 8) = true)) ∧
    ((GreedyMeshing2D 8 zigzagMask).2.filter (fun q => decide (q.Layer = 0))).Pairwise
      (fun q r => ∀ layer u v : Nat, ¬ (q.covers (u, v, layer) ∧ r.covers (u, v, layer)))) :=
  ⟨⟨by decide, by decide⟩, GreedyMeshing2D_layer_partition 8 zigzagMask 0 (by decide) (by decide)⟩


/-! ## Masks that are a single rectangle -/

/-- A mask whose set cells are exactly those of one rectangle yields exactly
that rectangle as its only quad. -/
theorem GreedyMeshing2D_single {N : Nat} (hN : N * N % NumBitsPerWord = 0)
    (F : TVoxelStaticBitArray) (R : FCubicQuad)
    (hR : R.Layer < N ∧ 1 ≤ R.SizeX ∧ R.StartX + R.SizeX ≤ N ∧ 1 ≤ R.SizeY ∧
      R.StartY + R.SizeY ≤ N)
    (hF : ∀ c, inGrid N c → (cellBit N F c = true ↔ R.covers c)) :
    (GreedyMeshing2D N F).2 = [R] := by
  have inv := GreedyMeshing2D_inv hN F
  have hsub : ∀ q ∈ (GreedyMeshing2D N F).2, ∀ c, q.covers c → R.covers c :=
    fun q hq c hc => (hF c (inv.sound q hq c hc).1).1 (inv.sound q hq c hc).2
  have hset : ∀ c, R.covers c → cellBit N F c = true := by
    intro c hc
    refine (hF c ?_).2 hc
    obtain ⟨u, v, l⟩ := c
    simp only [FCubicQuad.covers, inGrid] at hc ⊢
    omega
  have hseedR : R.covers R.seed := by
    simp only [FCubicQuad.covers, FCubicQuad.seed, true_and]; omega
  have hseedU : inGrid N R.seed := by
    simp only [inGrid, FCubicQuad.seed]; omega
  obtain ⟨r, hr, hrc⟩ := (GreedyMeshing2D_cover hN F R.seed).2 ⟨hseedU, hset _ hseedR⟩
  have hrseed := hsub r hr r.seed (inv.seedIn r hr).1
  have hall := inv.all
  have hdisj := inv.disj
  have hseedIn := fun q hq => (inv.seedIn q hq).1
  clear inv
  rcases hrs : (GreedyMeshing2D N F).2 with _ | ⟨q1, rest⟩
  · rw [hrs] at hr; simp at hr
  · rw [hrs] at hr hsub hall hdisj hseedIn
    have hp1 := hall [] q1 rest rfl
    have hq1s := hsub q1 (List.mem_cons_self _ _) q1.seed (hseedIn q1 (List.mem_cons_self _ _))
    obtain ⟨_, hW1, hXW, hH1, hYH, hwd, hhd, _⟩ := hp1
    -- the first quad starts at the corner of the rectangle
    have hstart : q1.Layer = R.Layer ∧ q1.StartX = R.StartX ∧ q1.StartY = R.StartY := by
      rcases List.mem_cons.1 hr with e | hrest
      · subst e
        simp only [FCubicQuad.covers, FCubicQuad.seed] at hrc hrseed
        omega
      · obtain ⟨pre, post, e⟩ := List.append_of_mem hrest
        have hp := hall (q1 :: pre) r post (by rw [e]; rfl)
        have hpass := hp.2.2.2.2.2.2.2 q1 (List.mem_cons_self _ _)
        simp only [FCubicQuad.covers, FCubicQuad.seed, passed2D] at hrc hrseed hq1s hpass
        omega
    obtain ⟨e1, e2, e3⟩ := hstart
    have hc1 : R.covers (q1.StartX + (q1.SizeX - 1), q1.StartY + (q1.SizeY - 1), q1.Layer) :=
      hsub q1 (List.mem_cons_self _ _) _ (by
        simp only [FCubicQuad.covers, true_and]; omega)
    simp only [FCubicQuad.covers] at hc1
    have hW : q1.SizeX = R.SizeX := by
      by_contra hne
      have hlt : q1.StartX + q1.SizeX < R.StartX + R.SizeX := by omega
      have hb := hset (q1.StartX + q1.SizeX, q1.StartY, q1.Layer) (by
        simp only [FCubicQuad.covers]; omega)
      rcases hwd with h | h | ⟨x, hx, _⟩
      · omega
      · rw [hb] at h; exact Bool.noConfusion h
      · simp at hx
    have hH : q1.SizeY = R.SizeY := by
      by_contra hne
      have hlt : q1.StartY + q1.SizeY < R.StartY + R.SizeY := by omega
      rcases hhd with h | ⟨k, hk, h | ⟨x, hx, _⟩⟩
      · omega
      · have hb := hset (q1.StartX + k, q1.StartY + q1.SizeY, q1.Layer) (by
          simp only [FCubicQuad.covers]; omega)
        rw [hb] at h; exact Bool.noConfusion h
      · simp at hx
    have hq1 : q1 = R := by
      obtain ⟨a1, a2, a3, a4, a5⟩ := q1
      obtain ⟨b1, b2, b3, b4, b5⟩ := R
      simp only at e1 e2 e3 hW hH
      simp only [FCubicQuad.mk.injEq]
      exact ⟨e1, e2, e3, hW, hH⟩
    subst hq1
    rcases rest with _ | ⟨r2, rest'⟩
    · rfl
    · exfalso
      have h2 := hsub r2 (by simp) r2.seed (hseedIn r2 (by simp))
      have := (List.pairwise_cons.1 hdisj).1 r2 (by simp) r2.seed
      exact this ⟨h2, hseedIn r2 (by simp)⟩


/-- A grid whose set voxels are exactly those of one box yields exactly that
box. -/
theorem GreedyMeshing3D_single {N : Nat} (D : TVoxelStaticBitArray) (X Y Z SX SY SZ : Nat)
    (hB : 1 ≤ SX ∧ X + SX ≤ N ∧ 1 ≤ SY ∧ Y + SY ≤ N ∧ 1 ≤ SZ ∧ Z + SZ ≤ N)
    (hD : ∀ c, inGrid N c → (cellBit N D c = true ↔
      (FVoxelIntBox.mk ⟨X, Y, Z⟩ ⟨(X : Int) + SX, (Y : Int) + SY, (Z : Int) + SZ⟩).covers c)) :
    (GreedyMeshing3D N D).2 =
      [FVoxelIntBox.mk ⟨X, Y, Z⟩ ⟨(X : Int) + SX, (Y : Int) + SY, (Z : Int) + SZ⟩] := by
  generalize hBdef :
    FVoxelIntBox.mk ⟨X, Y, Z⟩ ⟨(X : Int) + SX, (Y : Int) + SY, (Z : Int) + SZ⟩ = B at *
  have hBc : ∀ c : Cell, B.covers c ↔
      (X ≤ c.1 ∧ c.1 < X + SX ∧ Y ≤ c.2.1 ∧ c.2.1 < Y + SY ∧ Z ≤ c.2.2 ∧ c.2.2 < Z + SZ) := by
    intro c
    subst hBdef
    simp only [FVoxelIntBox.covers]
    omega
  have inv := GreedyMeshing3D_inv N D
  have hsub : ∀ q ∈ (GreedyMeshing3D N D).2, ∀ c, q.covers c → B.covers c :=
    fun q hq c hc => (hD c (inv.sound q hq c hc).1).1 (inv.sound q hq c hc).2
  have hset : ∀ c, B.covers c → cellBit N D c = true := by
    intro c hc
    refine (hD c ?_).2 hc
    have := (hBc c).1 hc
    obtain ⟨x, y, z⟩ := c
    simp only [inGrid] at this ⊢
    omega
  have hseedR : B.covers (X, Y, Z) := by
    rw [hBc]; simp only; omega
  have hseedU : inGrid N (X, Y, Z) := by
    simp only [inGrid]; omega
  obtain ⟨r, hr, hrc⟩ := (GreedyMeshing3D_cover N D (X, Y, Z)).2 ⟨hseedU, hset _ hseedR⟩
  have hrseed := hsub r hr r.seed (inv.seedIn r hr).1
  have hall := inv.all
  have hdisj := inv.disj
  have hseedIn := fun q hq => (inv.seedIn q hq).1
  clear inv
  rcases hrs : (GreedyMeshing3D N D).2 with _ | ⟨q1, rest⟩
  · rw [hrs] at hr; simp at hr
  · rw [hrs] at hr hsub hall hdisj hseedIn
    have hp1 := hall [] q1 rest rfl
    have hq1s := hsub q1 (List.mem_cons_self _ _) q1.seed (hseedIn q1 (List.mem_cons_self _ _))
    obtain ⟨X1, Y1, Z1, SX1, SY1, SZ1, e1, hx1, hx2, hy1, hy2, hz1, hz2, hxd, hyd, hzd, _⟩ := hp1
    have hq1c : ∀ c : Cell, q1.covers c ↔
        (X1 ≤ c.1 ∧ c.1 < X1 + SX1 ∧ Y1 ≤ c.2.1 ∧ c.2.1 < Y1 + SY1 ∧
          Z1 ≤ c.2.2 ∧ c.2.2 < Z1 + SZ1) := by
      intro c
      rw [e1]
      simp only [FVoxelIntBox.covers]
      omega
    have hq1seed : q1.seed = (X1, Y1, Z1) := by
      rw [e1]; simp [FVoxelIntBox.seed]
    rw [hq1seed, hBc] at hq1s
    simp only at hq1s
    have hstart : X1 = X ∧ Y1 = Y ∧ Z1 = Z := by
      rcases List.mem_cons.1 hr with e | hrest
      · subst e
        rw [hq1c] at hrc
        simp only at hrc
        omega
      · obtain ⟨pre, post, e⟩ := List.append_of_mem hrest
        obtain ⟨Xr, Yr, Zr, SXr, SYr, SZr, er, _, _, _, _, _, _, _, _, _, hpass⟩ :=
          hall (q1 :: pre) r post (by rw [e]; rfl)
        have hpass1 := hpass q1 (List.mem_cons_self _ _)
        rw [hq1seed] at hpass1
        have hrs' : r.seed = (Xr, Yr, Zr) := by rw [er]; simp [FVoxelIntBox.seed]
        rw [hrs', hBc] at hrseed
        rw [er] at hrc
        simp only [FVoxelIntBox.covers, passed3D] at hrc hrseed hpass1
        omega
    obtain ⟨rfl, rfl, rfl⟩ := hstart
    have hc1 := (hBc _).1 (hsub q1 (List.mem_cons_self _ _)
      (X1 + (SX1 - 1), Y1 + (SY1 - 1), Z1 + (SZ1 - 1)) (by rw [hq1c]; simp only; omega))
    simp only at hc1
    have hSX : SX1 = SX := by
      by_contra hne
      have hb := hset (X1 + SX1, Y1, Z1) (by rw [hBc]; simp only; omega)
      rcases hxd with h | h | ⟨x, hx, _⟩
      · omega
      · rw [hb] at h; exact Bool.noConfusion h
      · simp at hx
    have hSY : SY1 = SY := by
      by_contra hne
      rcases hyd with h | ⟨k, hk, h | ⟨x, hx, _⟩⟩
      · omega
      · have hb := hset (X1 + k, Y1 + SY1, Z1) (by rw [hBc]; simp only; omega)
        rw [hb] at h; exact Bool.noConfusion h
      · simp at hx
    have hSZ : SZ1 = SZ := by
      by_contra hne
      rcases hzd with h | ⟨j, k, hj, hk, h | ⟨x, hx, _⟩⟩
      · omega
      · have hb := hset (X1 + k, Y1 + j, Z1 + SZ1) (by rw [hBc]; simp only; omega)
        rw [hb] at h; exact Bool.noConfusion h
      · simp at hx
    subst hSX hSY hSZ
    have hq1 : q1 = B := by rw [e1, hBdef]
    subst hq1
    rcases rest with _ | ⟨r2, rest'⟩
    · rfl
    · exfalso
      have h2 := hsub r2 (by simp) r2.seed (hseedIn r2 (by simp))
      have := (List.pairwise_cons.1 hdisj).1 r2 (by simp) r2.seed
      exact this ⟨h2, hseedIn r2 (by simp)⟩


/-! ## The copied solid-voxel grid -/

/-- The voxels the 'Copy' loops have written when they are at `(X, Y, Z)`. -/
theorem copyValues_inv (N : Nat) (W : TVoxelStaticBitArray) :
    ∀ x y z : Nat, x < N → y < N → z < N →
      copyValues N W (x + N * y + N * N * z) = GetValue N W x y z := by
  have hinj : ∀ {x y z x' y' z' : Nat}, x < N → y < N → x' < N → y' < N →
      x + N * y + N * N * z = x' + N * y' + N * N * z' → x = x' ∧ y = y' ∧ z = z' := by
    intro x y z x' y' z' hx hy hx' hy' e
    apply cell_index_inj hx hx' hy hy'
    have e1 : x + y * N + z * N * N = x + N * y + N * N * z := by ring
    have e2 : x' + y' * N + z' * N * N = x' + N * y' + N * N * z' := by ring
    rw [e1, e2, e]
  have key := foldl_range_inv
    (fun B Z => (List.range N).foldl (fun B Y => (List.range N).foldl (fun B X =>
      TVoxelStaticBitArray.Set B (X + N * Y + N * N * Z) (GetValue N W X Y Z)) B) B)
    (fun kz B => ∀ x y z : Nat, x < N → y < N → z < kz →
      B (x + N * y + N * N * z) = GetValue N W x y z) N (fun _ => false)
    (by intro x y z _ _ hz; omega)
    (by
      intro Z B hZ hP
      have keyY := foldl_range_inv
        (fun B Y => (List.range N).foldl (fun B X =>
          TVoxelStaticBitArray.Set B (X + N * Y + N * N * Z) (GetValue N W X Y Z)) B)
        (fun ky B => ∀ x y z : Nat, x < N → y < N → (z < Z ∨ (z = Z ∧ y < ky)) →
          B (x + N * y + N * N * z) = GetValue N W x y z) N B
        (by
          intro x y z hx hy hz
          exact hP x y z hx hy (by omega))
        (by
          intro Y B hY hP
          have keyX := foldl_range_inv
            (fun B X => TVoxelStaticBitArray.Set B (X + N * Y + N * N * Z) (GetValue N W X Y Z))
            (fun kx B => ∀ x y z : Nat, x < N → y < N →
              (z < Z ∨ (z = Z ∧ (y < Y ∨ (y = Y ∧ x < kx)))) →
              B (x + N * y + N * N * z) = GetValue N W x y z) N B
            (by
              intro x y z hx hy hz
              exact hP x y z hx hy (by omega))
            (by
              intro X B hX hP x y z hx hy hz
              simp only [TVoxelStaticBitArray.Set]
              split
              · next e =>
                obtain ⟨rfl, rfl, rfl⟩ := hinj hx hy hX hY e
                rfl
              · next e =>
                apply hP x y z hx hy
                by_contra hn
                apply e
                have : x = X ∧ y = Y ∧ z = Z := by omega
                obtain ⟨rfl, rfl, rfl⟩ := this
                rfl)
          intro x y z hx hy hz
          exact keyX x y z hx hy (by omega))
      intro x y z hx hy hz
      exact keyY x y z hx hy (by omega))
  intro x y z hx hy hz
  exact key x y z hx hy hz

/-- The bit of the copied grid at a chunk voxel is the voxel's occupancy. -/
theorem copyValues_cellBit {N : Nat} (W : TVoxelStaticBitArray) (c : Cell) (hc : inGrid N c) :
    cellBit N (copyValues N W) c = GetValue N W c.1 c.2.1 c.2.2 := by
  obtain ⟨x, y, z⟩ := c
  simp only [cellBit]
  have e : x + y * N + z * N * N = x + N * y + N * N * z := by ring
  rw [e]
  exact copyValues_inv N W x y z hc.1 hc.2.1 hc.2.2

/-! ## Vertex and index counts -/

theorem AddFace_length (Direction : Nat) (Quad : FCubicQuad) (Step : Int)
    (Indices : List Nat) (Vertices : List FVoxelMesherVertex) :
    (AddFace Direction Quad Step Indices Vertices).1.length = Indices.length + 6 ∧
    (AddFace Direction Quad Step Indices Vertices).2.length = Vertices.length + 4 := by
  unfold AddFace
  simp only
  split <;> simp

/-- Adding the faces of a list of quads adds 6 indices and 4 vertices per quad. -/
theorem foldl_AddFace_length (Direction : Nat) (Step : Int) (Quads : List FCubicQuad) :
    ∀ out : List Nat × List FVoxelMesherVertex,
      (Quads.foldl (fun o Quad => AddFace Direction Quad Step o.1 o.2) out).1.length
        = out.1.length + 6 * Quads.length ∧
      (Quads.foldl (fun o Quad => AddFace Direction Quad Step o.1 o.2) out).2.length
        = out.2.length + 4 * Quads.length := by
  induction Quads with
  | nil => intro out; simp
  | cons q qs ih =>
    intro out
    simp only [List.foldl_cons, List.length_cons]
    obtain ⟨h1, h2⟩ := ih (AddFace Direction q Step out.1 out.2)
    obtain ⟨a1, a2⟩ := AddFace_length Direction q Step out.1 out.2
    rw [h1, h2, a1, a2]
    omega


/-- The face bit of a cell of the grid is set iff the cell is the face cell of
a chunk voxel with an exposed face. -/
theorem FindFaces_cellBit {N : Nat} (W : TVoxelStaticBitArray) (d : Fin 6) (c : Cell)
    (hc : inGrid N c) :
    cellBit N (FindFaces N W d) c = true ↔
      ∃ x y z, x < N ∧ y < N ∧ z < N ∧ c = faceCell d x y z ∧ exposed N W d x y z := by
  unfold cellBit
  rw [FindFaces_apply]
  constructor
  · rintro ⟨x, y, z, hx, hy, hz, e, hex⟩
    refine ⟨x, y, z, hx, hy, hz, ?_, hex⟩
    have hg := faceCell_inGrid d hx hy hz
    unfold faceIndex at e
    obtain ⟨e1, e2, e3⟩ := cell_index_inj hc.1 hg.1 hc.2.1 hg.2.1 e
    exact Prod.ext e1 (Prod.ext e2 e3)
  · rintro ⟨x, y, z, hx, hy, hz, e, hex⟩
    exact ⟨x, y, z, hx, hy, hz, by rw [e]; rfl, hex⟩

theorem faceCell_quadVoxel (d : Fin 6) (u v l : Nat) :
    faceCell d (quadVoxel d.val u v l).1 (quadVoxel d.val u v l).2.1 (quadVoxel d.val u v l).2.2
      = (u, v, l) := by
  fin_cases d <;> simp [quadVoxel, faceCell]

/-- The face masks of a window that is solid exactly on a cuboid. -/
theorem FindFaces_cuboid {N : Nat} (W : TVoxelStaticBitArray) (a1 a2 a3 b1 b2 b3 : Nat)
    (ha : a1 < b1 ∧ b1 ≤ N ∧ a2 < b2 ∧ b2 ≤ N ∧ a3 < b3 ∧ b3 ≤ N)
    (hW : ∀ x y z : Int, -1 ≤ x → x ≤ N → -1 ≤ y → y ≤ N → -1 ≤ z → z ≤ N →
      (GetValue N W x y z = true ↔
        (a1 ≤ x ∧ x < b1 ∧ a2 ≤ y ∧ y < b2 ∧ a3 ≤ z ∧ z < b3)))
    (d : Fin 6) (c : Cell) (hc : inGrid N c) :
    cellBit N (FindFaces N W d) c = true ↔ (cuboidFace d a1 a2 a3 b1 b2 b3).covers c := by
  rw [FindFaces_cellBit W d c hc]
  have hexp : ∀ x y z : Nat, x < N → y < N → z < N → (exposed N W d x y z ↔
      ((a1 ≤ x ∧ x < b1 ∧ a2 ≤ y ∧ y < b2 ∧ a3 ≤ z ∧ z < b3) ∧
        ¬ (a1 ≤ (x : Int) + (faceOffset d).X ∧ (x : Int) + (faceOffset d).X < b1 ∧
          a2 ≤ (y : Int) + (faceOffset d).Y ∧ (y : Int) + (faceOffset d).Y < b2 ∧
          a3 ≤ (z : Int) + (faceOffset d).Z ∧ (z : Int) + (faceOffset d).Z < b3))) := by
    intro x y z hx hy hz
    unfold exposed
    have hb : -1 ≤ (x : Int) + (faceOffset d).X ∧ (x : Int) + (faceOffset d).X ≤ N ∧
        -1 ≤ (y : Int) + (faceOffset d).Y ∧ (y : Int) + (faceOffset d).Y ≤ N ∧
        -1 ≤ (z : Int) + (faceOffset d).Z ∧ (z : Int) + (faceOffset d).Z ≤ N := by
      fin_cases d <;> simp [faceOffset] <;> omega
    rw [hW x y z (by omega) (by omega) (by omega) (by omega) (by omega) (by omega),
      ← Bool.not_eq_true, hW _ _ _ hb.1 hb.2.1 hb.2.2.1 hb.2.2.2.1 hb.2.2.2.2.1 hb.2.2.2.2.2]
    constructor
    · rintro ⟨h1, h2⟩; exact ⟨by omega, h2⟩
    · rintro ⟨h1, h2⟩; exact ⟨by omega, h2⟩
  obtain ⟨u, v, l⟩ := c
  simp only [inGrid] at hc
  constructor
  · rintro ⟨x, y, z, hx, hy, hz, e, hex⟩
    rw [hexp x y z hx hy hz] at hex
    obtain ⟨h1, h2⟩ := hex
    fin_cases d <;>
      simp only [faceCell, faceOffset, cuboidFace, FCubicQuad.covers, Prod.mk.injEq] at e h2 ⊢ <;>
      omega
  · intro hcov
    have hv : (quadVoxel d.val u v l).1 < N ∧ (quadVoxel d.val u v l).2.1 < N ∧
        (quadVoxel d.val u v l).2.2 < N := by
      fin_cases d <;> simp [quadVoxel] <;> omega
    refine ⟨_, _, _, hv.1, hv.2.1, hv.2.2, (faceCell_quadVoxel d u v l).symm, ?_⟩
    rw [hexp _ _ _ hv.1 hv.2.1 hv.2.2]
    fin_cases d <;>
      simp [quadVoxel, faceOffset, cuboidFace, FCubicQuad.covers] at hcov ⊢ <;>
      omega

theorem cuboidFace_wf {N : Nat} (a1 a2 a3 b1 b2 b3 : Nat)
    (ha : a1 < b1 ∧ b1 ≤ N ∧ a2 < b2 ∧ b2 ≤ N ∧ a3 < b3 ∧ b3 ≤ N) (d : Fin 6) :
    (cuboidFace d a1 a2 a3 b1 b2 b3).Layer < N ∧
    1 ≤ (cuboidFace d a1 a2 a3 b1 b2 b3).SizeX ∧
    (cuboidFace d a1 a2 a3 b1 b2 b3).StartX + (cuboidFace d a1 a2 a3 b1 b2 b3).SizeX ≤ N ∧
    1 ≤ (cuboidFace d a1 a2 a3 b1 b2 b3).SizeY ∧
    (cuboidFace d a1 a2 a3 b1 b2 b3).StartY + (cuboidFace d a1 a2 a3 b1 b2 b3).SizeY ≤ N := by
  fin_cases d <;> simp [cuboidFace] <;> omega


/-- With one quad per direction the direction loop emits 36 indices and 24
vertices. -/
theorem addFaces_length_of_single (N : Nat) (Step : Int) (W : TVoxelStaticBitArray)
    (h : ∀ d : Fin 6, (directionQuads N W d).length = 1) :
    (addFaces N Step W).1.length = 36 ∧ (addFaces N Step W).2.length = 24 := by
  rw [addFaces_eq]
  have key := foldl_range_inv
    (fun out Direction => (directionQuads N W (Fin.ofNat Direction)).foldl
      (fun o Quad => AddFace Direction Quad Step o.1 o.2) out)
    (fun k out => out.1.length = 6 * k ∧ out.2.length = 4 * k) 6 ([], [])
    (by simp)
    (by
      intro k out _ hP
      obtain ⟨h1, h2⟩ := foldl_AddFace_length k Step (directionQuads N W (Fin.ofNat k)) out
      simp only at h1 h2 ⊢
      rw [h1, h2, h, hP.1, hP.2]
      omega)
  exact key

/-- The cull keeps the box of a cuboid surrounded by empty voxels. -/
theorem cullPredicate_cuboid {N : Nat} (W : TVoxelStaticBitArray) (a1 a2 a3 b1 b2 b3 : Nat)
    (ha : a1 < b1 ∧ b1 ≤ N ∧ a2 < b2 ∧ b2 ≤ N ∧ a3 < b3 ∧ b3 ≤ N)
    (hW : ∀ x y z : Int, -1 ≤ x → x ≤ N → -1 ≤ y → y ≤ N → -1 ≤ z → z ≤ N →
      (GetValue N W x y z = true ↔
        (a1 ≤ x ∧ x < b1 ∧ a2 ≤ y ∧ y < b2 ∧ a3 ≤ z ∧ z < b3))) :
    cullPredicate N W (FVoxelIntBox.mk ⟨a1, a2, a3⟩ ⟨b1, b2, b3⟩) = false := by
  by_contra hne
  have ht : cullPredicate N W (FVoxelIntBox.mk ⟨a1, a2, a3⟩ ⟨b1, b2, b3⟩) = true := by
    simpa using hne
  rw [cullPredicate_iff] at ht
  have hin : (FVoxelIntBox.mk ⟨a1, a2, a3⟩ ⟨b1, b2, b3⟩).inSlabs a1 a2 ((a3 : Int) - 1) := by
    refine Or.inl ⟨le_refl _, ?_, le_refl _, ?_, Or.inl rfl⟩ <;> (simp only; omega)
  have hs := ht a1 a2 ((a3 : Int) - 1) hin
  rw [hW _ _ _ (by omega) (by omega) (by omega) (by omega) (by omega) (by omega)] at hs
  omega

/-- C7. Solid cuboid scenario: for every non-empty cuboid `[a, b)` inside
`[0, N)³`, when the padded window is solid exactly on the cuboid and empty
everywhere else (padding included), the mesher emits exactly one quad per
direction (6 quads, 24 vertices, 36 indices), each quad covering the whole
corresponding face of the cuboid (for `+Z`: `Layer = b.z - 1`, `StartX = a.x`,
`StartY = a.y`, `SizeX = b.x - a.x`, `SizeY = b.y - a.y`), `GreedyMeshing3D`
emits exactly the one box `(a, b)`, and the cull retains it. -/
theorem solid_cuboid (N : Nat) (Step : Int) (W : TVoxelStaticBitArray)
    (a1 a2 a3 b1 b2 b3 : Nat) (hN : N * N % NumBitsPerWord = 0)
    (ha : a1 < b1 ∧ b1 ≤ N ∧ a2 < b2 ∧ b2 ≤ N ∧ a3 < b3 ∧ b3 ≤ N)
    (hW : ∀ x y z : Int, -1 ≤ x → x ≤ N → -1 ≤ y → y ≤ N → -1 ≤ z → z ≤ N →
      (GetValue N W x y z = true ↔
        (a1 ≤ x ∧ x < b1 ∧ a2 ≤ y ∧ y < b2 ∧ a3 ≤ z ∧ z < b3))) :
    (∀ d : Fin 6, directionQuads N W d = [cuboidFace d a1 a2 a3 b1 b2 b3]) ∧
    cuboidFace 5 a1 a2 a3 b1 b2 b3 = ⟨b3 - 1, a1, a2, b1 - a1, b2 - a2⟩ ∧
    (CreateGeometryTemplate N Step W true true).Vertices.length = 24 ∧
    (CreateGeometryTemplate N Step W true true).Indices.length = 36 ∧
    (GreedyMeshing3D N (copyValues N W)).2 = [FVoxelIntBox.mk ⟨a1, a2, a3⟩ ⟨b1, b2, b3⟩] ∧
    (CreateGeometryTemplate N Step W true true).CollisionCubes =
      [FVoxelIntBox.mk ⟨a1, a2, a3⟩ ⟨b1, b2, b3⟩] := by
  have hq : ∀ d : Fin 6, directionQuads N W d = [cuboidFace d a1 a2 a3 b1 b2 b3] := fun d =>
    GreedyMeshing2D_single hN (FindFaces N W d) _ (cuboidFace_wf a1 a2 a3 b1 b2 b3 ha d)
      (fun c hc => FindFaces_cuboid W a1 a2 a3 b1 b2 b3 ha hW d c hc)
  have hlen := addFaces_length_of_single N Step W (fun d => by rw [hq d]; rfl)
  have hbox : FVoxelIntBox.mk ⟨a1, a2, a3⟩
      ⟨(a1 : Int) + (b1 - a1 : Nat), (a2 : Int) + (b2 - a2 : Nat), (a3 : Int) + (b3 - a3 : Nat)⟩
      = FVoxelIntBox.mk ⟨a1, a2, a3⟩ ⟨b1, b2, b3⟩ := by
    have e1 : (a1 : Int) + (b1 - a1 : Nat) = b1 := by omega
    have e2 : (a2 : Int) + (b2 - a2 : Nat) = b2 := by omega
    have e3 : (a3 : Int) + (b3 - a3 : Nat) = b3 := by omega
    rw [e1, e2, e3]
  have h3 : (GreedyMeshing3D N (copyValues N W)).2 =
      [FVoxelIntBox.mk ⟨a1, a2, a3⟩ ⟨b1, b2, b3⟩] := by
    rw [← hbox]
    apply GreedyMeshing3D_single (copyValues N W) a1 a2 a3 (b1 - a1) (b2 - a2) (b3 - a3)
      (by omega)
    intro c hc
    rw [copyValues_cellBit W c hc, hbox]
    obtain ⟨x, y, z⟩ := c
    simp only [inGrid] at hc
    rw [hW x y z (by omega) (by omega) (by omega) (by omega) (by omega) (by omega)]
    simp only [FVoxelIntBox.covers]
  refine ⟨hq, rfl, hlen.2, hlen.1, h3, ?_⟩
  simp only [CreateGeometryTemplate, collisionCubes, hlen.1, h3, RemoveAllSwap]
  simp [cullPredicate_cuboid W a1 a2 a3 b1 b2 b3 ha hW]

/-- C7 at `N = 8` on the window solid exactly on the cuboid
`[(1, 2, 0), (3, 5, 2))`. -/
theorem solid_cuboid_witness :
    (8 * 8 % NumBitsPerWord = 0 ∧
      (1 < 3 ∧ 3 ≤ 8 ∧ 2 < 5 ∧ 5 ≤ 8 ∧ 0 < 2 ∧ 2 ≤ 8) ∧
      (∀ x y z : Int, -1 ≤ x → x ≤ (8 : Nat) → -1 ≤ y → y ≤ (8 : Nat) → -1 ≤ z → z ≤ (8 : Nat) →
        (GetValue 8 cuboidWindow x y z = true ↔
          ((1 : Nat) ≤ x ∧ x < (3 : Nat) ∧ (2 : Nat) ≤ y ∧ y < (5 : Nat) ∧
            (0 : Nat) ≤ z ∧ z < (2 : Nat))))) ∧
    ((∀ d : Fin 6, directionQuads 8 cuboidWindow d = [cuboidFace d 1 2 0 3 5 2]) ∧
    cuboidFace 5 1 2 0 3 5 2 = ⟨2 - 1, 1, 2, 3 - 1, 5 - 2⟩ ∧
    (CreateGeometryTemplate 8 1 cuboidWindow true true).Vertices.length = 24 ∧
    (CreateGeometryTemplate 8 1 cuboidWindow true true).Indices.length = 36 ∧
    (GreedyMeshing3D 8 (copyValues 8 cuboidWindow)).2 =
      [FVoxelIntBox.mk ⟨(1 : Nat), (2 : Nat), (0 : Nat)⟩ ⟨(3 : Nat), (5 : Nat), (2 : Nat)⟩] ∧
    (CreateGeometryTemplate 8 1 cuboidWindow true true).CollisionCubes =
      [FVoxelIntBox.mk ⟨(1 : Nat), (2 : Nat), (0 : Nat)⟩ ⟨(3 : Nat), (5 : Nat), (2 : Nat)⟩]) := by
  have hW : ∀ x y z : Int, -1 ≤ x → x ≤ (8 : Nat) → -1 ≤ y → y ≤ (8 : Nat) → -1 ≤ z →
      z ≤ (8 : Nat) →
      (GetValue 8 cuboidWindow x y z = true ↔
        ((1 : Nat) ≤ x ∧ x < (3 : Nat) ∧ (2 : Nat) ≤ y ∧ y < (5 : Nat) ∧
          (0 : Nat) ≤ z ∧ z < (2 : Nat))) := by
    intro x y z h1 h2 h3 h4 h5 h6
    simp only [GetValue, Test, cuboidWindow, decide_eq_true_eq, Nat.cast_ofNat]
    omega
  exact ⟨⟨by decide, by decide, hW⟩, solid_cuboid 8 1 cuboidWindow 1 2 0 3 5 2 (by decide)
    (by decide) hW⟩


/-! ## Height of the quads -/

/-- The properties recorded at the emission of a quad, for any position of the
quad in the output. -/
theorem GreedyMeshing2D_split_quadProp {N : Nat} (hN : N * N % NumBitsPerWord = 0)
    (F : TVoxelStaticBitArray) {pre post : List FCubicQuad} {q : FCubicQuad}
    (e : (GreedyMeshing2D N F).2 = pre ++ q :: post) : quadProp N F pre q :=
  (GreedyMeshing2D_inv hN F).all pre q post e

/-- C11, as stated, fails: on `cornerMask` with `N = 8` the quad
`(Layer, StartX, StartY, SizeX, SizeY) = (0, 1, 0, 1, 1)` is emitted, and the
only bit of its extension row, `(u, v) = (1, 1)`, is set in the mask as passed
in (it was consumed by the quad `(0, 0, 1, 2, 1)` emitted before). -/
theorem GreedyMeshing2D_height_not_maximal :
    ¬ (∀ q ∈ (GreedyMeshing2D 8 cornerMask).2, q.StartY + q.SizeY < 8 →
        ∃ k, k < q.SizeX ∧
          cornerMask (q.StartX + k + (q.StartY + q.SizeY) * 8 + q.Layer * 8 * 8) = false) := by
  intro h
  obtain ⟨k, hk, hb⟩ := h ⟨0, 1, 0, 1, 1⟩ (by decide) (by decide)
  simp only at hk hb
  have hk0 : k = 0 := by omega
  subst hk0
  exact absurd hb (by decide)

/-- C11, amended. Height maximality: for every input face mask `F` and every
quad emitted by `GreedyMeshing2D` with `StartY + SizeY < N`, the extension row
`v = StartY + SizeY`, `u ∈ [StartX, StartX + SizeX)` of layer `Layer` contains
at least one cell that is unset in `F` (as passed in) or lies inside a quad
emitted before this one. -/
theorem GreedyMeshing2D_height_maximal (N : Nat) (F : TVoxelStaticBitArray)
    (hN : N * N % NumBitsPerWord = 0) (pre post : List FCubicQuad) (q : FCubicQuad)
    (e : (GreedyMeshing2D N F).2 = pre ++ q :: post) (hlt : q.StartY + q.SizeY < N) :
    ∃ k, k < q.SizeX ∧
      (F (q.StartX + k + (q.StartY + q.SizeY) * N + q.Layer * N * N) = false ∨
        ∃ r ∈ pre, r.covers (q.StartX + k, q.StartY + q.SizeY, q.Layer)) := by
  obtain ⟨_, _, _, _, _, _, hh, _⟩ := GreedyMeshing2D_split_quadProp hN F e
  rcases hh with hh | ⟨k, hk, hd⟩
  · omega
  · exact ⟨k, hk, hd⟩

/-- C11 amended, at `N = 8` on `cornerMask`, for the second quad
`(0, 1, 0, 1, 1)`: the cell `(1, 1)` of its extension row lies in the first
quad. -/
theorem GreedyMeshing2D_height_maximal_witness :
    ((8 * 8 % NumBitsPerWord = 0) ∧
      (GreedyMeshing2D 8 cornerMask).2 =
        [FCubicQuad.mk 0 0 1 2 1] ++ FCubicQuad.mk 0 1 0 1 1 :: [] ∧
      (FCubicQuad.mk 0 1 0 1 1).StartY + (FCubicQuad.mk 0 1 0 1 1).SizeY < 8) ∧
    ∃ k, k < (FCubicQuad.mk 0 1 0 1 1).SizeX ∧
      (cornerMask ((FCubicQuad.mk 0 1 0 1 1).StartX + k +
          ((FCubicQuad.mk 0 1 0 1 1).StartY + (FCubicQuad.mk 0 1 0 1 1).SizeY) * 8 +
          (FCubicQuad.mk 0 1 0 1 1).Layer * 8 * 8) = false ∨
        ∃ r ∈ [FCubicQuad.mk 0 0 1 2 1],
          r.covers ((FCubicQuad.mk 0 1 0 1 1).StartX + k,
            (FCubicQuad.mk 0 1 0 1 1).StartY + (FCubicQuad.mk 0 1 0 1 1).SizeY,
            (FCubicQuad.mk 0 1 0 1 1).Layer)) :=
  ⟨⟨by decide, by decide, by decide⟩,
    GreedyMeshing2D_height_maximal 8 cornerMask (by decide) [FCubicQuad.mk 0 0 1 2 1] []
      (FCubicQuad.mk 0 1 0 1 1) (by decide) (by decide)⟩


/-! ## The output of `AddFace` -/

/-- The indices `AddFace` appends. -/
theorem AddFace_fst (Direction : Nat) (Quad : FCubicQuad) (Step : Int)
    (Indices : List Nat) (Vertices : List FVoxelMesherVertex) :
    (AddFace Direction Quad Step Indices Vertices).1 =
      Indices ++ (if Direction % 2 = 1 then
        [Vertices.length + 2, Vertices.length + 1, Vertices.length + 0,
         Vertices.length + 3, Vertices.length + 2, Vertices.length + 0]
      else
        [Vertices.length + 0, Vertices.length + 1, Vertices.length + 2,
         Vertices.length + 0, Vertices.length + 2, Vertices.length + 3]) := by
  unfold AddFace
  simp only [decide_eq_true_eq]
  split <;> rfl

/-- The vertices `AddFace` appends do not depend on the arrays it appends to. -/
theorem AddFace_snd (Direction : Nat) (Quad : FCubicQuad) (Step : Int)
    (Indices : List Nat) (Vertices : List FVoxelMesherVertex) :
    (AddFace Direction Quad Step Indices Vertices).2 =
      Vertices ++ (AddFace Direction Quad Step [] []).2 := by
  unfold AddFace
  simp

theorem AddFace_new_length (Direction : Nat) (Quad : FCubicQuad) (Step : Int) :
    (AddFace Direction Quad Step [] []).2.length = 4 := by
  unfold AddFace
  simp

/-- Adding the faces of a list of quads keeps every index below the vertex
count. -/
theorem foldl_AddFace_bound (Direction : Nat) (Step : Int) (Quads : List FCubicQuad) :
    ∀ out : List Nat × List FVoxelMesherVertex, (∀ i ∈ out.1, i < out.2.length) →
      ∀ i ∈ (Quads.foldl (fun o Quad => AddFace Direction Quad Step o.1 o.2) out).1,
        i < (Quads.foldl (fun o Quad => AddFace Direction Quad Step o.1 o.2) out).2.length := by
  induction Quads with
  | nil => intro out h; simpa using h
  | cons q qs ih =>
    intro out h
    simp only [List.foldl_cons]
    apply ih
    intro i hi
    rw [(AddFace_length Direction q Step out.1 out.2).2]
    rw [AddFace_fst] at hi
    rcases List.mem_append.1 hi with hi | hi
    · have := h i hi; omega
    · split at hi <;> simp at hi <;> omega

/-- The counts after the direction loop. -/
theorem addFaces_counts (N : Nat) (Step : Int) (W : TVoxelStaticBitArray) :
    (addFaces N Step W).2.length =
      4 * ((directionQuads N W 0).length + (directionQuads N W 1).length +
        (directionQuads N W 2).length + (directionQuads N W 3).length +
        (directionQuads N W 4).length + (directionQuads N W 5).length) ∧
    (addFaces N Step W).1.length =
      6 * ((directionQuads N W 0).length + (directionQuads N W 1).length +
        (directionQuads N W 2).length + (directionQuads N W 3).length +
        (directionQuads N W 4).length + (directionQuads N W 5).length) ∧
    (∀ i ∈ (addFaces N Step W).1, i < (addFaces N Step W).2.length) := by
  rw [addFaces_eq]
  have e : List.range 6 = [0, 1, 2, 3, 4, 5] := by decide
  rw [e]
  simp only [List.foldl_cons, List.foldl_nil]
  have f0 : (Fin.ofNat 0 : Fin 6) = 0 := rfl
  have f1 : (Fin.ofNat 1 : Fin 6) = 1 := rfl
  have f2 : (Fin.ofNat 2 : Fin 6) = 2 := rfl
  have f3 : (Fin.ofNat 3 : Fin 6) = 3 := rfl
  have f4 : (Fin.ofNat 4 : Fin 6) = 4 := rfl
  have f5 : (Fin.ofNat 5 : Fin 6) = 5 := rfl
  rw [f0, f1, f2, f3, f4, f5]
  refine ⟨?_, ?_, ?_⟩
  · simp only [(foldl_AddFace_length _ _ _ _).2, List.length_nil]
    omega
  · simp only [(foldl_AddFace_length _ _ _ _).1, List.length_nil]
    omega
  · apply foldl_AddFace_bound
    apply foldl_AddFace_bound
    apply foldl_AddFace_bound
    apply foldl_AddFace_bound
    apply foldl_AddFace_bound
    apply foldl_AddFace_bound
    intro i hi
    simp at hi

/-- C13. Vertex and index accounting: each call of `AddFace` appends exactly 4
vertices and exactly 6 indices; with `B` the vertex count before the call, the
6 indices are `B + (0, 1, 2, 0, 2, 3)` when the direction is even and
`B + (2, 1, 0, 3, 2, 0)` when it is odd; hence after `CreateGeometryTemplate`
the vertex count is 4 times and the index count 6 times the total number of
quads over the six directions, and every index is smaller than the vertex
count. -/
theorem vertex_index_accounting (N : Nat) (Step : Int) (W : TVoxelStaticBitArray)
    (wantCubes bSimpleCubicCollision : Bool) :
    (∀ (Direction : Nat) (Quad : FCubicQuad) (Indices : List Nat)
        (Vertices : List FVoxelMesherVertex),
      (∃ v0 v1 v2 v3, (AddFace Direction Quad Step Indices Vertices).2 =
        Vertices ++ [v0, v1, v2, v3]) ∧
      (Direction % 2 = 0 → (AddFace Direction Quad Step Indices Vertices).1 =
        Indices ++ [Vertices.length + 0, Vertices.length + 1, Vertices.length + 2,
          Vertices.length + 0, Vertices.length + 2, Vertices.length + 3]) ∧
      (Direction % 2 = 1 → (AddFace Direction Quad Step Indices Vertices).1 =
        Indices ++ [Vertices.length + 2, Vertices.length + 1, Vertices.length + 0,
          Vertices.length + 3, Vertices.length + 2, Vertices.length + 0])) ∧
    (CreateGeometryTemplate N Step W wantCubes bSimpleCubicCollision).Vertices.length =
      4 * ((directionQuads N W 0).length + (directionQuads N W 1).length +
        (directionQuads N W 2).length + (directionQuads N W 3).length +
        (directionQuads N W 4).length + (directionQuads N W 5).length) ∧
    (CreateGeometryTemplate N Step W wantCubes bSimpleCubicCollision).Indices.length =
      6 * ((directionQuads N W 0).length + (directionQuads N W 1).length +
        (directionQuads N W 2).length + (directionQuads N W 3).length +
        (directionQuads N W 4).length + (directionQuads N W 5).length) ∧
    (∀ i ∈ (CreateGeometryTemplate N Step W wantCubes bSimpleCubicCollision).Indices,
      i < (CreateGeometryTemplate N Step W wantCubes bSimpleCubicCollision).Vertices.length) := by
  refine ⟨?_, addFaces_counts N Step W⟩
  intro Direction Quad Indices Vertices
  refine ⟨?_, ?_, ?_⟩
  · unfold AddFace
    exact ⟨_, _, _, _, rfl⟩
  · intro h
    rw [AddFace_fst, if_neg (by omega)]
  · intro h
    rw [AddFace_fst, if_pos h]

/-- C13 on the window with the single solid voxel `(2, 2, 2)` for `N = 8`: an
even and an odd direction. -/
theorem vertex_index_accounting_witness :
    (4 % 2 = 0 ∧ 5 % 2 = 1) ∧
    ((AddFace 4 (FCubicQuad.mk 2 2 2 1 1) 1 [] []).1 =
        [] ++ [([] : List FVoxelMesherVertex).length + 0, ([] : List FVoxelMesherVertex).length + 1,
          ([] : List FVoxelMesherVertex).length + 2, ([] : List FVoxelMesherVertex).length + 0,
          ([] : List FVoxelMesherVertex).length + 2, ([] : List FVoxelMesherVertex).length + 3] ∧
      (AddFace 5 (FCubicQuad.mk 2 2 2 1 1) 1 [] []).1 =
        [] ++ [([] : List FVoxelMesherVertex).length + 2, ([] : List FVoxelMesherVertex).length + 1,
          ([] : List FVoxelMesherVertex).length + 0, ([] : List FVoxelMesherVertex).length + 3,
          ([] : List FVoxelMesherVertex).length + 2, ([] : List FVoxelMesherVertex).length + 0]) :=
  ⟨⟨by decide, by decide⟩,
    ((vertex_index_accounting 8 1 singleVoxelWindow true true).1 4 (FCubicQuad.mk 2 2 2 1 1)
      [] []).2.1 (by decide),
    ((vertex_index_accounting 8 1 singleVoxelWindow true true).1 5 (FCubicQuad.mk 2 2 2 1 1)
      [] []).2.2 (by decide)⟩


theorem AddFace_drop (Direction : Nat) (Quad : FCubicQuad) (Step : Int)
    (Indices : List Nat) (Vertices : List FVoxelMesherVertex) :
    (AddFace Direction Quad Step Indices Vertices).2.drop Vertices.length =
      (AddFace Direction Quad Step [] []).2 := by
  rw [AddFace_snd]
  simp

/-- The normal `AddFace` writes for direction `d`. -/
theorem AddFace_normal (d : Fin 6) (Quad : FCubicQuad) (Step : Int) :
    ∀ v ∈ (AddFace d.val Quad Step [] []).2,
      v.Normal = ⟨((faceOffset d).X : ℚ), ((faceOffset d).Y : ℚ), ((faceOffset d).Z : ℚ)⟩ := by
  intro v hv
  fin_cases d <;>
    simp [AddFace, SetPosition, FVector.setAxis, faceOffset] at hv ⊢ <;>
    rcases hv with rfl | rfl | rfl | rfl <;> simp

/-- The normals of the four vertices `AddFace` appends for direction `d`, in
emission order. -/
theorem AddFace_normals (d : Fin 6) (Quad : FCubicQuad) (Step : Int) :
    (AddFace d.val Quad Step [] []).2.map (fun v => v.Normal) =
      [⟨((faceOffset d).X : ℚ), ((faceOffset d).Y : ℚ), ((faceOffset d).Z : ℚ)⟩,
       ⟨((faceOffset d).X : ℚ), ((faceOffset d).Y : ℚ), ((faceOffset d).Z : ℚ)⟩,
       ⟨((faceOffset d).X : ℚ), ((faceOffset d).Y : ℚ), ((faceOffset d).Z : ℚ)⟩,
       ⟨((faceOffset d).X : ℚ), ((faceOffset d).Y : ℚ), ((faceOffset d).Z : ℚ)⟩] := by
  fin_cases d <;> simp [AddFace, SetPosition, FVector.setAxis, faceOffset]

/-- `AddFace` keeps the vertices already in the array. -/
theorem AddFace_take (Direction : Nat) (Quad : FCubicQuad) (Step : Int)
    (Indices : List Nat) (Vertices : List FVoxelMesherVertex) :
    (AddFace Direction Quad Step Indices Vertices).2.take Vertices.length = Vertices := by
  rw [AddFace_snd]
  simp

/-- C14. Normal matches the face direction: for every direction `d` in `0..5`,
`AddFace` keeps the vertices already present and appends exactly four vertices,
and the normal it writes to each of the four, in emission order, is the unit
vector equal to the neighbour offset whose emptiness the face extractor tested
when it set bits of `FacesBitArrays[d]` (`d = 0`: `(-1,0,0)`, `1`: `(+1,0,0)`,
`2`: `(0,-1,0)`, `3`: `(0,+1,0)`, `4`: `(0,0,-1)`, `5`: `(0,0,+1)`), i.e. it
points from the solid voxel toward the empty neighbour. -/
theorem normal_matches_direction (d : Fin 6) :
    (∀ (Quad : FCubicQuad) (Step : Int) (Indices : List Nat)
        (Vertices : List FVoxelMesherVertex),
      (AddFace d.val Quad Step Indices Vertices).2.take Vertices.length = Vertices ∧
      ((AddFace d.val Quad Step Indices Vertices).2.drop Vertices.length).length = 4 ∧
      ((AddFace d.val Quad Step Indices Vertices).2.drop Vertices.length).map
          (fun v => v.Normal) =
        [⟨((faceOffset d).X : ℚ), ((faceOffset d).Y : ℚ), ((faceOffset d).Z : ℚ)⟩,
         ⟨((faceOffset d).X : ℚ), ((faceOffset d).Y : ℚ), ((faceOffset d).Z : ℚ)⟩,
         ⟨((faceOffset d).X : ℚ), ((faceOffset d).Y : ℚ), ((faceOffset d).Z : ℚ)⟩,
         ⟨((faceOffset d).X : ℚ), ((faceOffset d).Y : ℚ), ((faceOffset d).Z : ℚ)⟩] ∧
      ∀ v ∈ (AddFace d.val Quad Step Indices Vertices).2.drop Vertices.length,
        v.Normal = ⟨((faceOffset d).X : ℚ), ((faceOffset d).Y : ℚ), ((faceOffset d).Z : ℚ)⟩) ∧
    (∀ (N : Nat) (W : TVoxelStaticBitArray) (x y z : Nat), x < N → y < N → z < N →
      (FindFaces N W d (faceIndex N d x y z) = true ↔
        (GetValue N W x y z = true ∧
          GetValue N W ((x : Int) + (faceOffset d).X) ((y : Int) + (faceOffset d).Y)
            ((z : Int) + (faceOffset d).Z) = false))) ∧
    (faceOffset 0 = ⟨-1, 0, 0⟩ ∧ faceOffset 1 = ⟨1, 0, 0⟩ ∧ faceOffset 2 = ⟨0, -1, 0⟩ ∧
      faceOffset 3 = ⟨0, 1, 0⟩ ∧ faceOffset 4 = ⟨0, 0, -1⟩ ∧ faceOffset 5 = ⟨0, 0, 1⟩) := by
  refine ⟨?_, fun N W x y z hx hy hz => FindFaces_faceIndex W d hx hy hz, by simp [faceOffset]⟩
  intro Quad Step Indices Vertices
  refine ⟨AddFace_take _ _ _ _ _, ?_, ?_, ?_⟩
  · rw [AddFace_drop, AddFace_new_length]
  · rw [AddFace_drop]
    exact AddFace_normals d Quad Step
  · intro v hv
    rw [AddFace_drop] at hv
    exact AddFace_normal d Quad Step v hv

/-- C14 for direction 5 (`+Z`) at `N = 8` on `singleVoxelWindow`: the face bit
of voxel `(2, 2, 2)` is set, and the four vertices `AddFace` appends for the
quad of that face carry the normal `faceOffset 5 = (0, 0, 1)`. -/
theorem normal_matches_direction_witness :
    (2 < 8 ∧ FindFaces 8 singleVoxelWindow 5 (faceIndex 8 5 2 2 2) = true ∧
      faceOffset 5 = ⟨0, 0, 1⟩) ∧
    ((AddFace (5 : Fin 6).val (FCubicQuad.mk 2 2 2 1 1) 1 [] []).2.drop
        ([] : List FVoxelMesherVertex).length).map (fun v => v.Normal) =
      [⟨((faceOffset 5).X : ℚ), ((faceOffset 5).Y : ℚ), ((faceOffset 5).Z : ℚ)⟩,
       ⟨((faceOffset 5).X : ℚ), ((faceOffset 5).Y : ℚ), ((faceOffset 5).Z : ℚ)⟩,
       ⟨((faceOffset 5).X : ℚ), ((faceOffset 5).Y : ℚ), ((faceOffset 5).Z : ℚ)⟩,
       ⟨((faceOffset 5).X : ℚ), ((faceOffset 5).Y : ℚ), ((faceOffset 5).Z : ℚ)⟩] ∧
    (FindFaces 8 singleVoxelWindow 5 (faceIndex 8 5 2 2 2) = true ↔
      (GetValue 8 singleVoxelWindow (2 : Nat) (2 : Nat) (2 : Nat) = true ∧
        GetValue 8 singleVoxelWindow (((2 : Nat) : Int) + (faceOffset 5).X)
          (((2 : Nat) : Int) + (faceOffset 5).Y) (((2 : Nat) : Int) + (faceOffset 5).Z) = false)) :=
  ⟨⟨by decide, by decide, by decide⟩,
    ((normal_matches_direction 5).1 (FCubicQuad.mk 2 2 2 1 1) 1 [] []).2.2.1,
    (normal_matches_direction 5).2.1 8 singleVoxelWindow 2 2 2 (by decide) (by decide)
      (by decide)⟩

/-- C15. UV consistency: for every quad, the texture coordinates `AddFace`
writes to its four vertices, in emission order, are `(0, 0)`, `(SizeX, 0)`,
`(SizeX, SizeY)`, `(0, SizeY)`, so the set of UVs of the quad is
`{0, SizeX} × {0, SizeY}`. -/
theorem uv_consistency (Direction : Nat) (Quad : FCubicQuad) (Step : Int)
    (Indices : List Nat) (Vertices : List FVoxelMesherVertex) :
    ((AddFace Direction Quad Step Indices Vertices).2.drop Vertices.length).map
        (fun v => v.TextureCoordinate) =
      [((0 : ℚ), (0 : ℚ)), ((Quad.SizeX : ℚ), (0 : ℚ)), ((Quad.SizeX : ℚ), (Quad.SizeY : ℚ)),
        ((0 : ℚ), (Quad.SizeY : ℚ))] := by
  rw [AddFace_drop]
  simp [AddFace, SetPosition]


/-! ## Winding of the triangles -/

/-- C18. `TestAndClearBlock` is two-phase and atomic: for every grid state and
arguments with `X + SizeX ≤ N`, `Y + SizeY ≤ N`, `Z < N`,
`TestAndClearBlock(X, SizeX, Y, SizeY, Z)` returns true if and only if every
bit `(x, y, Z)` with `X ≤ x < X + SizeX`, `Y ≤ y < Y + SizeY` is set; when it
returns true exactly those bits are cleared and every other bit is unchanged;
when it returns false the whole grid is unchanged.  (The bounds on the
arguments are not needed for this.) -/
theorem TestAndClearBlock_atomic (N : Nat) (D : TVoxelStaticBitArray) (X SizeX Y SizeY Z : Nat) :
    ((TestAndClearBlock N D X SizeX Y SizeY Z).1 = true ↔
      ∀ x y : Nat, X ≤ x → x < X + SizeX → Y ≤ y → y < Y + SizeY →
        D (x + y * N + Z * N * N) = true) ∧
    ((TestAndClearBlock N D X SizeX Y SizeY Z).1 = true →
      (∀ x y : Nat, X ≤ x → x < X + SizeX → Y ≤ y → y < Y + SizeY →
        (TestAndClearBlock N D X SizeX Y SizeY Z).2 (x + y * N + Z * N * N) = false) ∧
      (∀ i : Nat, (¬ ∃ x y : Nat, X ≤ x ∧ x < X + SizeX ∧ Y ≤ y ∧ y < Y + SizeY ∧
          i = x + y * N + Z * N * N) →
        (TestAndClearBlock N D X SizeX Y SizeY Z).2 i = D i)) ∧
    ((TestAndClearBlock N D X SizeX Y SizeY Z).1 = false →
      (TestAndClearBlock N D X SizeX Y SizeY Z).2 = D) := by
  have hblock : ∀ i : Nat,
      (∃ j, j < SizeY ∧ X + (Y + j) * N + Z * N * N ≤ i ∧ i < X + (Y + j) * N + Z * N * N + SizeX) ↔
      (∃ x y : Nat, X ≤ x ∧ x < X + SizeX ∧ Y ≤ y ∧ y < Y + SizeY ∧ i = x + y * N + Z * N * N) := by
    intro i
    constructor
    · rintro ⟨j, hj, h1, h2⟩
      exact ⟨X + (i - (X + (Y + j) * N + Z * N * N)), Y + j, by omega, by omega, by omega,
        by omega, by omega⟩
    · rintro ⟨x, y, h1, h2, h3, h4, rfl⟩
      obtain ⟨j, rfl⟩ : ∃ j, y = Y + j := ⟨y - Y, by omega⟩
      exact ⟨j, by omega, by omega, by omega⟩
  refine ⟨?_, ?_, ?_⟩
  · rw [testAndClearBlock_fst]
    constructor
    · intro h x y h1 h2 h3 h4
      obtain ⟨k, rfl⟩ : ∃ k, x = X + k := ⟨x - X, by omega⟩
      obtain ⟨j, rfl⟩ : ∃ j, y = Y + j := ⟨y - Y, by omega⟩
      have := h j (by omega) k (by omega)
      have e : X + (Y + j) * N + Z * N * N + k = X + k + (Y + j) * N + Z * N * N := by omega
      rwa [e] at this
    · intro h j hj k hk
      have := h (X + k) (Y + j) (by omega) (by omega) (by omega) (by omega)
      have e : X + (Y + j) * N + Z * N * N + k = X + k + (Y + j) * N + Z * N * N := by omega
      rwa [e]
  · intro ht
    constructor
    · intro x y h1 h2 h3 h4
      by_contra hne
      have hb : (TestAndClearBlock N D X SizeX Y SizeY Z).2 (x + y * N + Z * N * N) = true := by
        simpa using hne
      rw [testAndClearBlock_snd] at hb
      exact hb.2 ⟨ht, (hblock _).2 ⟨x, y, h1, h2, h3, h4, rfl⟩⟩
    · intro i hi
      have h := testAndClearBlock_snd N D X SizeX Y SizeY Z i
      have hn : ¬ ((TestAndClearBlock N D X SizeX Y SizeY Z).1 = true ∧
          ∃ j, j < SizeY ∧ X + (Y + j) * N + Z * N * N ≤ i ∧
            i < X + (Y + j) * N + Z * N * N + SizeX) :=
        fun hc => hi ((hblock i).1 hc.2)
      cases hD : D i
      · by_contra hne
        have hb : (TestAndClearBlock N D X SizeX Y SizeY Z).2 i = true := by simpa using hne
        have := (h.1 hb).1
        rw [hD] at this
        exact Bool.false_ne_true this
      · exact h.2 ⟨hD, hn⟩
  · intro hf
    unfold TestAndClearBlock at hf ⊢
    split
    · next h => simp [h] at hf
    · rfl

/-- C18 at `N = 8` on `blockGrid`, for the block `x ∈ [0, 2)`, `y ∈ [0, 2)` of
layer `z = 1`, which is entirely set. -/
theorem TestAndClearBlock_atomic_witness :
    (TestAndClearBlock 8 blockGrid 0 2 0 2 1).1 = true ∧
    (((TestAndClearBlock 8 blockGrid 0 2 0 2 1).1 = true ↔
      ∀ x y : Nat, 0 ≤ x → x < 0 + 2 → 0 ≤ y → y < 0 + 2 →
        blockGrid (x + y * 8 + 1 * 8 * 8) = true) ∧
    ((TestAndClearBlock 8 blockGrid 0 2 0 2 1).1 = true →
      (∀ x y : Nat, 0 ≤ x → x < 0 + 2 → 0 ≤ y → y < 0 + 2 →
        (TestAndClearBlock 8 blockGrid 0 2 0 2 1).2 (x + y * 8 + 1 * 8 * 8) = false) ∧
      (∀ i : Nat, (¬ ∃ x y : Nat, 0 ≤ x ∧ x < 0 + 2 ∧ 0 ≤ y ∧ y < 0 + 2 ∧
          i = x + y * 8 + 1 * 8 * 8) →
        (TestAndClearBlock 8 blockGrid 0 2 0 2 1).2 i = blockGrid i)) ∧
    ((TestAndClearBlock 8 blockGrid 0 2 0 2 1).1 = false →
      (TestAndClearBlock 8 blockGrid 0 2 0 2 1).2 = blockGrid)) :=
  ⟨by decide, TestAndClearBlock_atomic 8 blockGrid 0 2 0 2 1⟩


/-! ## Culled boxes and face bits -/

/-- A box emitted on the copied grid lies in the chunk and all its voxels are
solid in the window. -/
theorem collisionBox_solid {N : Nat} (W : TVoxelStaticBitArray) {b : FVoxelIntBox}
    (hb : b ∈ (GreedyMeshing3D N (copyValues N W)).2) :
    0 ≤ b.Min.X ∧ b.Max.X ≤ N ∧ 0 ≤ b.Min.Y ∧ b.Max.Y ≤ N ∧ 0 ≤ b.Min.Z ∧ b.Max.Z ≤ N ∧
    b.Min.X < b.Max.X ∧ b.Min.Y < b.Max.Y ∧ b.Min.Z < b.Max.Z ∧
    ∀ p q r : Int, b.Min.X ≤ p → p < b.Max.X → b.Min.Y ≤ q → q < b.Max.Y →
      b.Min.Z ≤ r → r < b.Max.Z → GetValue N W p q r = true := by
  obtain ⟨pre, post, e, X, Y, Z, SX, SY, SZ, rfl, h1, h2, h3, h4, h5, h6, _⟩ :=
    GreedyMeshing3D_boxProp N (copyValues N W) hb
  simp only
  refine ⟨by omega, by omega, by omega, by omega, by omega, by omega, by omega, by omega,
    by omega, ?_⟩
  intro p q r hp1 hp2 hq1 hq2 hr1 hr2
  obtain ⟨x, rfl⟩ : ∃ x : Nat, p = x := ⟨p.toNat, by omega⟩
  obtain ⟨y, rfl⟩ : ∃ y : Nat, q = y := ⟨q.toNat, by omega⟩
  obtain ⟨z, rfl⟩ : ∃ z : Nat, r = z := ⟨r.toNat, by omega⟩
  have hcov : (FVoxelIntBox.mk ⟨X, Y, Z⟩ ⟨(X : Int) + SX, (Y : Int) + SY, (Z : Int) + SZ⟩).covers
      (x, y, z) := ⟨hp1, hp2, hq1, hq2, hr1, hr2⟩
  obtain ⟨hU, hbit⟩ := (GreedyMeshing3D_cover N (copyValues N W) (x, y, z)).1 ⟨_, hb, hcov⟩
  rw [copyValues_cellBit W _ hU] at hbit
  exact hbit

/-- The neighbour of a box voxel is a box voxel or a slab voxel. -/
theorem neighbour_in_box_or_slab (b : FVoxelIntBox) (d : Fin 6) (x y z : Int)
    (h : b.Min.X ≤ x ∧ x < b.Max.X ∧ b.Min.Y ≤ y ∧ y < b.Max.Y ∧ b.Min.Z ≤ z ∧ z < b.Max.Z) :
    (b.Min.X ≤ x + (faceOffset d).X ∧ x + (faceOffset d).X < b.Max.X ∧
      b.Min.Y ≤ y + (faceOffset d).Y ∧ y + (faceOffset d).Y < b.Max.Y ∧
      b.Min.Z ≤ z + (faceOffset d).Z ∧ z + (faceOffset d).Z < b.Max.Z) ∨
    b.inSlabs (x + (faceOffset d).X) (y + (faceOffset d).Y) (z + (faceOffset d).Z) := by
  unfold FVoxelIntBox.inSlabs
  fin_cases d <;> simp only [faceOffset] <;> omega

/-- A slab voxel is the neighbour, in some direction, of a box voxel. -/
theorem slab_is_neighbour (b : FVoxelIntBox) (p q r : Int)
    (hne : b.Min.X < b.Max.X ∧ b.Min.Y < b.Max.Y ∧ b.Min.Z < b.Max.Z) (h : b.inSlabs p q r) :
    ∃ (d : Fin 6) (x y z : Int),
      (b.Min.X ≤ x ∧ x < b.Max.X ∧ b.Min.Y ≤ y ∧ y < b.Max.Y ∧ b.Min.Z ≤ z ∧ z < b.Max.Z) ∧
      p = x + (faceOffset d).X ∧ q = y + (faceOffset d).Y ∧ r = z + (faceOffset d).Z := by
  rcases h with ⟨a, b', c, d', e | e⟩ | ⟨a, b', c, d', e | e⟩ | ⟨a, b', c, d', e | e⟩
  · exact ⟨4, p, q, r + 1, by omega, by simp [faceOffset]⟩
  · exact ⟨5, p, q, r - 1, by omega, by simp [faceOffset]⟩
  · exact ⟨2, p, q + 1, r, by omega, by simp [faceOffset]⟩
  · exact ⟨3, p, q - 1, r, by omega, by simp [faceOffset]⟩
  · exact ⟨0, p + 1, q, r, by omega, by simp [faceOffset]⟩
  · exact ⟨1, p - 1, q, r, by omega, by simp [faceOffset]⟩

/-- The cull predicate holds of an emitted box iff no voxel of the box has a
face bit. -/
theorem cullPredicate_iff_no_face {N : Nat} (W : TVoxelStaticBitArray) {b : FVoxelIntBox}
    (hb : b ∈ (GreedyMeshing3D N (copyValues N W)).2) :
    cullPredicate N W b = true ↔
      ∀ (d : Fin 6) (x y z : Nat), b.covers (x, y, z) →
        FindFaces N W d (faceIndex N d x y z) = false := by
  obtain ⟨m1, m2, m3, m4, m5, m6, n1, n2, n3, hsolid⟩ := collisionBox_solid W hb
  rw [cullPredicate_iff]
  constructor
  · intro hc d x y z hcov
    have hcov' := hcov
    simp only [FVoxelIntBox.covers] at hcov'
    have hx : x < N := by omega
    have hy : y < N := by omega
    have hz : z < N := by omega
    by_contra hne
    have hbit : FindFaces N W d (faceIndex N d x y z) = true := by simpa using hne
    have hex := (FindFaces_faceIndex W d hx hy hz).1 hbit
    have hnb : GetValue N W ((x : Int) + (faceOffset d).X) ((y : Int) + (faceOffset d).Y)
        ((z : Int) + (faceOffset d).Z) = true := by
      rcases neighbour_in_box_or_slab b d x y z hcov' with h | h
      · exact hsolid _ _ _ h.1 h.2.1 h.2.2.1 h.2.2.2.1 h.2.2.2.2.1 h.2.2.2.2.2
      · exact hc _ _ _ h
    rw [hex.2] at hnb
    exact Bool.false_ne_true hnb
  · intro hf p q r hslab
    obtain ⟨d, x, y, z, hin, rfl, rfl, rfl⟩ := slab_is_neighbour b p q r ⟨n1, n2, n3⟩ hslab
    obtain ⟨x', rfl⟩ : ∃ x' : Nat, x = x' := ⟨x.toNat, by omega⟩
    obtain ⟨y', rfl⟩ : ∃ y' : Nat, y = y' := ⟨y.toNat, by omega⟩
    obtain ⟨z', rfl⟩ : ∃ z' : Nat, z = z' := ⟨z.toNat, by omega⟩
    have hbit := hf d x' y' z' hin
    have hx : x' < N := by omega
    have hy : y' < N := by omega
    have hz : z' < N := by omega
    by_contra hne
    have hempty : GetValue N W ((x' : Int) + (faceOffset d).X) ((y' : Int) + (faceOffset d).Y)
        ((z' : Int) + (faceOffset d).Z) = false := by simpa using hne
    have hs := hsolid x' y' z' hin.1 hin.2.1 hin.2.2.1 hin.2.2.2.1 hin.2.2.2.2.1 hin.2.2.2.2.2
    have := (FindFaces_faceIndex W d hx hy hz).2 ⟨hs, hempty⟩
    rw [hbit] at this
    exact Bool.false_ne_true this

/-- C20. Culled boxes are exactly the invisible ones: for every padded
occupancy window, a box emitted by `GreedyMeshing3D` on the chunk's solid
voxels is removed by the cull step if and only if none of the voxels inside the
box has a face bit set in any of the six face masks produced by the face
extractor from the same window; so a culled box has no face bit, and every
retained box contains at least one voxel with a face bit. -/
theorem culled_iff_invisible (N : Nat) (W : TVoxelStaticBitArray) :
    ∀ b ∈ (GreedyMeshing3D N (copyValues N W)).2,
      (cullPredicate N W b = true ↔
        ∀ (d : Fin 6) (x y z : Nat), b.covers (x, y, z) →
          FindFaces N W d (faceIndex N d x y z) = false) ∧
      (b ∉ RemoveAllSwap (cullPredicate N W) (GreedyMeshing3D N (copyValues N W)).2 ↔
        ∀ (d : Fin 6) (x y z : Nat), b.covers (x, y, z) →
          FindFaces N W d (faceIndex N d x y z) = false) ∧
      (b ∈ RemoveAllSwap (cullPredicate N W) (GreedyMeshing3D N (copyValues N W)).2 →
        ∃ (d : Fin 6) (x y z : Nat), b.covers (x, y, z) ∧
          FindFaces N W d (faceIndex N d x y z) = true) := by
  intro b hb
  have key := cullPredicate_iff_no_face W hb
  have hrem : b ∈ RemoveAllSwap (cullPredicate N W) (GreedyMeshing3D N (copyValues N W)).2 ↔
      cullPredicate N W b = false := by
    simp [RemoveAllSwap, List.mem_filter, hb]
  refine ⟨key, ?_, ?_⟩
  · rw [← key, hrem]
    simp
  · intro hmem
    have hfalse := hrem.1 hmem
    by_contra hne
    have : cullPredicate N W b = true := by
      rw [key]
      intro d x y z hcov
      by_contra hbit
      exact hne ⟨d, x, y, z, hcov, by simpa using hbit⟩
    rw [hfalse] at this
    exact Bool.false_ne_true this

/-- C20 at `N = 8` on the window with the single solid voxel `(2, 2, 2)`: its
box is retained and has a voxel with a face bit. -/
theorem culled_iff_invisible_witness :
    (FVoxelIntBox.mk ⟨2, 2, 2⟩ ⟨3, 3, 3⟩ ∈ (GreedyMeshing3D 8 (copyValues 8 singleVoxelWindow)).2 ∧
      FVoxelIntBox.mk ⟨2, 2, 2⟩ ⟨3, 3, 3⟩ ∈ RemoveAllSwap (cullPredicate 8 singleVoxelWindow)
        (GreedyMeshing3D 8 (copyValues 8 singleVoxelWindow)).2) ∧
    ∃ (d : Fin 6) (x y z : Nat), (FVoxelIntBox.mk ⟨2, 2, 2⟩ ⟨3, 3, 3⟩).covers (x, y, z) ∧
      FindFaces 8 singleVoxelWindow d (faceIndex 8 d x y z) = true :=
  ⟨⟨by decide, by decide⟩,
    (culled_iff_invisible 8 singleVoxelWindow (FVoxelIntBox.mk ⟨2, 2, 2⟩ ⟨3, 3, 3⟩)
      (by decide)).2.2 (by decide)⟩


/-! ## The fast path for `GridSize = 32` -/

/-- The word test of the fast path is the bit test. -/
theorem wordTest_eq_Test (F : TVoxelStaticBitArray) (Layer X Y : Nat) (hX : X < 32) :
    ((GetInternal F (layerWord 32 Layer + Y) &&& ((1 <<< X) % 2 ^ 32)) != 0) =
      Test F (facesIndex 32 Layer (X + Y * 32)) := by
  have h := seedTest2D_eq 32 Layer X Y F (by decide) hX
  rw [facesIndex_eq 32 Layer _ (by decide)]
  simp only [seedTest2D, if_true] at h
  exact h

/-- Two loop bodies that agree on `0 .. n-1` give the same `for` loop. -/
theorem foldl_range_congr {σ : Type} (f g : σ → Nat → σ) (n : Nat) (init : σ)
    (h : ∀ k st, k < n → f st k = g st k) :
    (List.range n).foldl f init = (List.range n).foldl g init := by
  induction n with
  | zero => rfl
  | succ n ih =>
    rw [List.range_succ, List.foldl_append, List.foldl_append]
    simp only [List.foldl_cons, List.foldl_nil]
    rw [ih (fun k st hk => h k st (Nat.lt_succ_of_lt hk))]
    exact h n _ (Nat.lt_succ_self n)

theorem yLoop2D_eq_generic (Layer X : Nat) (hX : X < 32) :
    ∀ (fuel Y : Nat) (F : TVoxelStaticBitArray),
      yLoop2D 32 Layer X fuel Y F = yLoop2DGeneric 32 Layer X fuel Y F := by
  intro fuel
  induction fuel with
  | zero => intro Y F; rfl
  | succ n ih =>
    intro Y F
    simp only [yLoop2D, yLoop2DGeneric, ih]
    have : seedTest2D 32 Layer X Y F = Test F (facesIndex 32 Layer (X + Y * 32)) := by
      simp only [seedTest2D, if_true]
      exact wordTest_eq_Test F Layer X Y hX
    rw [this]

/-- C19. Fast path equivalence: for `GridSize = 32` with 32-bit words, for
every layer state and all `X, Y < 32`, the word test
`(Faces.GetInternal(Y) & (1 << X)) != 0` (with `1 << X` taken modulo `2^32`)
equals `Faces.Test(X + Y * 32)`; hence `GreedyMeshing2D<32>` emits the same
quad sequence and leaves the same residual mask as the generic per-bit branch
run on the same input. -/
theorem fast_path_equivalence (InFaces : TVoxelStaticBitArray) :
    (∀ Layer X Y : Nat, X < 32 → Y < 32 →
      ((GetInternal InFaces (layerWord 32 Layer + Y) &&& ((1 <<< X) % 2 ^ 32)) != 0) =
        Test InFaces (facesIndex 32 Layer (X + Y * 32))) ∧
    GreedyMeshing2D 32 InFaces = GreedyMeshing2DGeneric 32 InFaces := by
  refine ⟨fun Layer X Y hX _ => wordTest_eq_Test InFaces Layer X Y hX, ?_⟩
  unfold GreedyMeshing2D GreedyMeshing2DGeneric
  apply foldl_range_congr
  intro Layer st _
  unfold addOutput layer2D layer2DGeneric
  have : (List.range 32).foldl (addOutput (fun X G => yLoop2D 32 Layer X 32 0 G)) (st.1, []) =
      (List.range 32).foldl (addOutput (fun X G => yLoop2DGeneric 32 Layer X 32 0 G)) (st.1, []) := by
    apply foldl_range_congr
    intro X s hX
    unfold addOutput
    beta_reduce
    rw [yLoop2D_eq_generic Layer X hX]
  beta_reduce
  rw [this]

/-- C19 on `exampleMask`, for the bit `(X, Y) = (1, 1)` of layer 0. -/
theorem fast_path_equivalence_witness :
    (1 < 32 ∧ 1 < 32) ∧
    ((GetInternal exampleMask (layerWord 32 0 + 1) &&& ((1 <<< 1) % 2 ^ 32)) != 0) =
      Test exampleMask (facesIndex 32 0 (1 + 1 * 32)) :=
  ⟨⟨by decide, by decide⟩, (fast_path_equivalence exampleMask).1 0 1 1 (by decide) (by decide)⟩


/-! ## Masks without adjacent faces -/

theorem cell_index_lt {N u v l : Nat} (hu : u < N) (hv : v < N) (hl : l < N) :
    u + v * N + l * N * N < N * N * N := by
  have h1 : (v + 1) * N ≤ N * N := Nat.mul_le_mul_right N hv
  have h2 : (l + 1) * (N * N) ≤ N * (N * N) := Nat.mul_le_mul_right (N * N) hl
  have e1 : (v + 1) * N = v * N + N := by ring
  have e2 : (l + 1) * (N * N) = l * N * N + N * N := by ring
  have e3 : N * (N * N) = N * N * N := by ring
  omega

theorem cell_index_decompose {N i : Nat} (hi : i < N * N * N) :
    ∃ u v l, u < N ∧ v < N ∧ l < N ∧ i = u + v * N + l * N * N := by
  have hN : 0 < N := by
    rcases Nat.eq_zero_or_pos N with h | h
    · subst h; simp at hi
    · exact h
  refine ⟨i % N, i / N % N, i / N / N, Nat.mod_lt _ hN, Nat.mod_lt _ hN, ?_, ?_⟩
  · rw [Nat.div_div_eq_div_mul]
    exact Nat.div_lt_of_lt_mul (by rw [Nat.mul_comm (N * N) N, ← Nat.mul_assoc]; exact hi)
  · have h1 := Nat.mod_add_div i N
    have h2 := Nat.mod_add_div (i / N) N
    have e : i / N / N * N * N = N * (N * (i / N / N)) := by ring
    have e2 : i / N % N * N = N * (i / N % N) := by ring
    rw [e, e2]
    calc i = i % N + N * (i / N) := h1.symm
      _ = i % N + N * (i / N % N + N * (i / N / N)) := by rw [h2]
      _ = i % N + N * (i / N % N) + N * (N * (i / N / N)) := by ring

/-- The bit index of the seed of a quad. -/
theorem seed_index_inj {N : Nat} (hN : N * N % NumBitsPerWord = 0) (F : TVoxelStaticBitArray)
    {a b : FCubicQuad} (ha : a ∈ (GreedyMeshing2D N F).2) (hb : b ∈ (GreedyMeshing2D N F).2)
    (hd : ∀ c, ¬ (a.covers c ∧ b.covers c)) :
    a.StartX + a.StartY * N + a.Layer * N * N ≠ b.StartX + b.StartY * N + b.Layer * N * N := by
  intro e
  have inv := GreedyMeshing2D_inv hN F
  have hsa := (inv.seedIn a ha).1
  have hsb := (inv.seedIn b hb).1
  have hUa := (inv.sound a ha _ hsa).1
  have hUb := (inv.sound b hb _ hsb).1
  obtain ⟨e1, e2, e3⟩ := cell_index_inj hUa.1 hUb.1 hUa.2.1 hUb.2.1 e
  apply hd a.seed
  refine ⟨hsa, ?_⟩
  have : a.seed = b.seed := Prod.ext e1 (Prod.ext e2 e3)
  rw [this]
  exact hsb

/-- C16. No merges without adjacency: for every face mask in which no two set
bits of the same layer are edge-adjacent (differ by 1 in exactly one of `u`,
`v`), every quad `GreedyMeshing2D` emits has `SizeX = 1` and `SizeY = 1`, and
the number of quads emitted equals the number of set bits of the mask. -/
theorem no_merge_without_adjacency (N : Nat) (F : TVoxelStaticBitArray)
    (hN : N * N % NumBitsPerWord = 0)
    (hadj : ∀ layer u v u' v' : Nat, layer < N → u < N → v < N → u' < N → v' < N →
      F (u + v * N + layer * N * N) = true → F (u' + v' * N + layer * N * N) = true →
      ¬ ((u' = u + 1 ∧ v' = v) ∨ (u' = u ∧ v' = v + 1))) :
    (∀ q ∈ (GreedyMeshing2D N F).2, q.SizeX = 1 ∧ q.SizeY = 1) ∧
    (GreedyMeshing2D N F).2.length =
      ((List.range (N * N * N)).filter (fun i => F i)).length := by
  have hone : ∀ q ∈ (GreedyMeshing2D N F).2, q.SizeX = 1 ∧ q.SizeY = 1 := by
    intro q hq
    obtain ⟨pre, post, _, hL, hW, hXW, hH, hYH, _⟩ := GreedyMeshing2D_quadProp hN F hq
    have hset : ∀ u v, q.StartX ≤ u → u < q.StartX + q.SizeX → q.StartY ≤ v →
        v < q.StartY + q.SizeY → F (u + v * N + q.Layer * N * N) = true := by
      intro u v h1 h2 h3 h4
      exact ((GreedyMeshing2D_cover hN F (u, v, q.Layer)).1 ⟨q, hq, ⟨rfl, h1, h2, h3, h4⟩⟩).2
    constructor
    · by_contra hne
      have h1 := hset q.StartX q.StartY (by omega) (by omega) (by omega) (by omega)
      have h2 := hset (q.StartX + 1) q.StartY (by omega) (by omega) (by omega) (by omega)
      exact hadj q.Layer q.StartX q.StartY (q.StartX + 1) q.StartY hL (by omega) (by omega)
        (by omega) (by omega) h1 h2 (Or.inl ⟨rfl, rfl⟩)
    · by_contra hne
      have h1 := hset q.StartX q.StartY (by omega) (by omega) (by omega) (by omega)
      have h2 := hset q.StartX (q.StartY + 1) (by omega) (by omega) (by omega) (by omega)
      exact hadj q.Layer q.StartX q.StartY q.StartX (q.StartY + 1) hL (by omega) (by omega)
        (by omega) (by omega) h1 h2 (Or.inr ⟨rfl, rfl⟩)
  refine ⟨hone, ?_⟩
  have inv := GreedyMeshing2D_inv hN F
  have hperm : ((GreedyMeshing2D N F).2.map
      (fun q => q.StartX + q.StartY * N + q.Layer * N * N)).Perm
      ((List.range (N * N * N)).filter (fun i => F i)) := by
    rw [List.perm_ext_iff_of_nodup]
    · intro i
      simp only [List.mem_map, List.mem_filter, List.mem_range]
      constructor
      · rintro ⟨q, hq, rfl⟩
        have hs := (inv.seedIn q hq).1
        obtain ⟨hU, hb⟩ := inv.sound q hq _ hs
        exact ⟨cell_index_lt hU.1 hU.2.1 hU.2.2, hb⟩
      · rintro ⟨hi, hb⟩
        obtain ⟨u, v, l, hu, hv, hl, rfl⟩ := cell_index_decompose hi
        obtain ⟨q, hq, hc⟩ := (GreedyMeshing2D_cover hN F (u, v, l)).2 ⟨⟨hu, hv, hl⟩, hb⟩
        refine ⟨q, hq, ?_⟩
        obtain ⟨h1, h2⟩ := hone q hq
        simp only [FCubicQuad.covers] at hc
        obtain ⟨rfl, a1, a2, a3, a4⟩ := hc
        have e1 : q.StartX = u := by omega
        have e2 : q.StartY = v := by omega
        rw [e1, e2]
    · rw [List.Nodup, List.pairwise_map]
      exact inv.disj.imp_of_mem (fun ha hb hd => seed_index_inj hN F ha hb hd)
    · exact (List.nodup_range _).filter _
  have := hperm.length_eq
  rw [List.length_map] at this
  exact this

/-- C16 at `N = 8` on `checkerMask`. -/
theorem no_merge_without_adjacency_witness :
    (8 * 8 % NumBitsPerWord = 0 ∧
      (∀ layer u v u' v' : Nat, layer < 8 → u < 8 → v < 8 → u' < 8 → v' < 8 →
        checkerMask (u + v * 8 + layer * 8 * 8) = true →
        checkerMask (u' + v' * 8 + layer * 8 * 8) = true →
        ¬ ((u' = u + 1 ∧ v' = v) ∨ (u' = u ∧ v' = v + 1)))) ∧
    ((∀ q ∈ (GreedyMeshing2D 8 checkerMask).2, q.SizeX = 1 ∧ q.SizeY = 1) ∧
    (GreedyMeshing2D 8 checkerMask).2.length =
      ((List.range (8 * 8 * 8)).filter (fun i => checkerMask i)).length) := by
  have hadj : ∀ layer u v u' v' : Nat, layer < 8 → u < 8 → v < 8 → u' < 8 → v' < 8 →
      checkerMask (u + v * 8 + layer * 8 * 8) = true →
      checkerMask (u' + v' * 8 + layer * 8 * 8) = true →
      ¬ ((u' = u + 1 ∧ v' = v) ∨ (u' = u ∧ v' = v + 1)) := by
    intro layer u v u' v' _ _ _ _ _ h1 h2
    simp only [checkerMask, decide_eq_true_eq] at h1 h2
    omega
  exact ⟨⟨by decide, hadj⟩, no_merge_without_adjacency 8 checkerMask (by decide) hadj⟩


/-! ## The assertions of `GreedyMeshing2D` -/

theorem view_index_lt {N a b : Nat} (ha : a ≤ N) (hb : b < N) : a + b * N ≤ N * N := by
  have h1 : (b + 1) * N ≤ N * N := Nat.mul_le_mul_right N hb
  have e1 : (b + 1) * N = b * N + N := by ring
  omega

theorem widthLoop2D_le (N Layer X Y : Nat) (fuel : Nat) :
    ∀ (W : Nat) (F : TVoxelStaticBitArray), X + W ≤ N →
      X + (widthLoop2D N Layer X Y fuel W F).1 ≤ N := by
  induction fuel with
  | zero => intro W F h; simpa [widthLoop2D] using h
  | succ fuel ih =>
    intro W F h
    unfold widthLoop2D
    by_cases hc : X + W < N
    · simp only [hc, if_true]
      split
      · exact ih (W + 1) _ (by omega)
      · exact h
    · simp only [hc, if_false]; exact h

theorem widthLoop2DChecked_eq (N Layer X Y : Nat) (hY : Y < N) (fuel : Nat) :
    ∀ (W : Nat) (F : TVoxelStaticBitArray),
      widthLoop2DChecked N Layer X Y fuel W F = some (widthLoop2D N Layer X Y fuel W F) := by
  induction fuel with
  | zero => intro W F; rfl
  | succ fuel ih =>
    intro W F
    unfold widthLoop2DChecked widthLoop2D
    by_cases hc : X + W < N
    · have hv := view_index_lt (Nat.succ_le_of_lt hc) hY
      have hchk : X + W < N ∧ Y < N ∧ X + W + Y * N < N * N := ⟨hc, hY, by omega⟩
      simp only [hc, if_true, TestAndClear2DChecked, hchk, and_self]
      split
      · exact ih _ _
      · rfl
    · simp only [hc, if_false]

theorem heightLoop2DChecked_eq (N Layer X Y Width : Nat) (hW : X + Width ≤ N) (fuel : Nat) :
    ∀ (H : Nat) (F : TVoxelStaticBitArray),
      heightLoop2DChecked N Layer X Y Width fuel H F =
        some (heightLoop2D N Layer X Y Width fuel H F) := by
  induction fuel with
  | zero => intro H F; rfl
  | succ fuel ih =>
    intro H F
    unfold heightLoop2DChecked heightLoop2D
    by_cases hc : Y + H < N
    · have hv := view_index_lt hW hc
      have hchk : X + Width ≤ N ∧ Y + H < N ∧ X + (Y + H) * N + Width ≤ N * N :=
        ⟨hW, hc, by omega⟩
      simp only [hc, if_true, TestAndClearLine2DChecked, hchk, and_self]
      split
      · exact ih _ _
      · rfl
    · simp only [hc, if_false]

theorem seedTest2DChecked_eq (N Layer X Y : Nat) (hX : X < N) (hY : Y < N)
    (F : TVoxelStaticBitArray) :
    seedTest2DChecked N Layer X Y F = some (seedTest2D N Layer X Y F) := by
  unfold seedTest2DChecked seedTest2D
  by_cases h32 : N = 32
  · subst h32
    have : Y < 32 * 32 / NumBitsPerWord := by simpa [NumBitsPerWord] using hY
    simp only [if_true, this]
  · have hv := view_index_lt (Nat.succ_le_of_lt hX) hY
    have : X + Y * N < N * N := by omega
    simp only [h32, if_false, this, if_true]

theorem yLoop2DChecked_eq (N Layer X : Nat) (hX : X < N) (fuel : Nat) :
    ∀ (Y : Nat) (F : TVoxelStaticBitArray),
      yLoop2DChecked N Layer X fuel Y F = some (yLoop2D N Layer X fuel Y F) := by
  induction fuel with
  | zero => intro Y F; rfl
  | succ fuel ih =>
    intro Y F
    unfold yLoop2DChecked yLoop2D
    by_cases hY : Y < N
    · simp only [hY, if_true, seedTest2DChecked_eq N Layer X Y hX hY]
      by_cases hs : seedTest2D N Layer X Y F = true
      · have hw := widthLoop2D_le N Layer X Y N 1 F (by omega)
        simp only [hs, Bool.not_true, Bool.false_eq_true, if_false,
          widthLoop2DChecked_eq N Layer X Y hY, heightLoop2DChecked_eq N Layer X Y _ hw, ih]
      · have hs' : seedTest2D N Layer X Y F = false := by simpa using hs
        simp only [hs', Bool.not_false, if_true, ih]
    · simp only [hY, if_false]

theorem foldl_range_checked {β : Type}
    (bodyC : Nat → TVoxelStaticBitArray → Option (TVoxelStaticBitArray × List β))
    (body : Nat → TVoxelStaticBitArray → TVoxelStaticBitArray × List β) (N : Nat)
    (h : ∀ i, i < N → ∀ G, bodyC i G = some (body i G)) (st : TVoxelStaticBitArray × List β) :
    (List.range N).foldl (addOutputChecked bodyC) (some st) =
      some ((List.range N).foldl (addOutput body) st) := by
  induction N with
  | zero => rfl
  | succ n ih =>
    rw [List.range_succ, List.foldl_append, List.foldl_append,
      ih (fun i hi G => h i (Nat.lt_succ_of_lt hi) G)]
    simp only [List.foldl_cons, List.foldl_nil, addOutputChecked, addOutput,
      h n (Nat.lt_succ_self n)]

theorem layer2DChecked_eq (N Layer : Nat) (F : TVoxelStaticBitArray) :
    layer2DChecked N Layer F = some (layer2D N Layer F) :=
  foldl_range_checked _ _ N (fun X hX G => yLoop2DChecked_eq N Layer X hX N 0 G) (F, [])

theorem GreedyMeshing2DChecked_eq (N : Nat) (F : TVoxelStaticBitArray) :
    GreedyMeshing2DChecked N F = some (GreedyMeshing2D N F) :=
  foldl_range_checked _ _ N (fun Layer _ G => layer2DChecked_eq N Layer G) (F, [])

/-- C17. Quad well-formedness: for every input face mask, every quad emitted by
`GreedyMeshing2D` has `Layer < N`, `SizeX ≥ 1`, `SizeY ≥ 1`,
`StartX + SizeX ≤ N` and `StartY + SizeY ≤ N`; and the run with the
`checkVoxelSlow` assertions of `TestAndClear` / `TestAndClearLine` and the
range checks of the layer view (every bit index passed to `Test`,
`TestAndClear`, `TestAndClearRange` below `N * N`) made explicit never fails:
it returns the result of the unchecked run. -/
theorem quads_wellformed (N : Nat) (F : TVoxelStaticBitArray)
    (hN : N * N % NumBitsPerWord = 0) :
    (∀ q ∈ (GreedyMeshing2D N F).2,
      q.Layer < N ∧ 1 ≤ q.SizeX ∧ 1 ≤ q.SizeY ∧
        q.StartX + q.SizeX ≤ N ∧ q.StartY + q.SizeY ≤ N) ∧
    GreedyMeshing2DChecked N F = some (GreedyMeshing2D N F) := by
  refine ⟨?_, GreedyMeshing2DChecked_eq N F⟩
  intro q hq
  obtain ⟨pre, post, _, hL, hW, hXW, hH, hYH, _⟩ := GreedyMeshing2D_quadProp hN F hq
  exact ⟨hL, hW, hH, hXW, hYH⟩

/-- C17 at `N = 8` on `exampleMask`. -/
theorem quads_wellformed_witness :
    8 * 8 % NumBitsPerWord = 0 ∧
    ((∀ q ∈ (GreedyMeshing2D 8 exampleMask).2,
      q.Layer < 8 ∧ 1 ≤ q.SizeX ∧ 1 ≤ q.SizeY ∧
        q.StartX + q.SizeX ≤ 8 ∧ q.StartY + q.SizeY ≤ 8) ∧
    GreedyMeshing2DChecked 8 exampleMask = some (GreedyMeshing2D 8 exampleMask)) :=
  ⟨by decide, quads_wellformed 8 exampleMask (by decide)⟩


/-! ## The residual mask of `GreedyMeshing2D` -/

theorem TestAndClear_mono (g : TVoxelStaticBitArray) (i j : Nat)
    (h : (TestAndClear g i).2 j = true) : g j = true := by
  simp only [TestAndClear, TVoxelStaticBitArray.Set] at h
  split at h
  · exact absurd h (by simp)
  · exact h

theorem TestAndClearRange_mono (g : TVoxelStaticBitArray) (i len j : Nat)
    (h : (TestAndClearRange g i len).2 j = true) : g j = true := by
  unfold TestAndClearRange at h
  split at h
  · simp only [SetRange] at h
    split at h
    · exact absurd h (by simp)
    · exact h
  · exact h

theorem widthLoop2D_mono (N Layer X Y : Nat) (fuel : Nat) :
    ∀ (W : Nat) (F : TVoxelStaticBitArray) (j : Nat),
      (widthLoop2D N Layer X Y fuel W F).2 j = true → F j = true := by
  induction fuel with
  | zero => intro W F j h; exact h
  | succ fuel ih =>
    intro W F j h
    unfold widthLoop2D at h
    split at h
    · simp only at h
      split at h
      · exact TestAndClear_mono _ _ _ (ih _ _ _ h)
      · exact TestAndClear_mono _ _ _ h
    · exact h

theorem heightLoop2D_mono (N Layer X Y Width : Nat) (fuel : Nat) :
    ∀ (H : Nat) (F : TVoxelStaticBitArray) (j : Nat),
      (heightLoop2D N Layer X Y Width fuel H F).2 j = true → F j = true := by
  induction fuel with
  | zero => intro H F j h; exact h
  | succ fuel ih =>
    intro H F j h
    unfold heightLoop2D at h
    split at h
    · simp only at h
      split at h
      · exact TestAndClearRange_mono _ _ _ _ (ih _ _ _ h)
      · exact TestAndClearRange_mono _ _ _ _ h
    · exact h

theorem yLoop2D_mono (N Layer X : Nat) (fuel : Nat) :
    ∀ (Y : Nat) (F : TVoxelStaticBitArray) (j : Nat),
      (yLoop2D N Layer X fuel Y F).1 j = true → F j = true := by
  induction fuel with
  | zero => intro Y F j h; exact h
  | succ fuel ih =>
    intro Y F j h
    unfold yLoop2D at h
    split at h
    · split at h
      · exact ih _ _ _ h
      · simp only at h
        exact widthLoop2D_mono _ _ _ _ _ _ _ _ (heightLoop2D_mono _ _ _ _ _ _ _ _ _ (ih _ _ _ h))
    · exact h

theorem foldl_addOutput_mono {β : Type}
    (body : Nat → TVoxelStaticBitArray → TVoxelStaticBitArray × List β)
    (hbody : ∀ i G j, (body i G).1 j = true → G j = true) (l : List Nat) :
    ∀ (st : TVoxelStaticBitArray × List β) (j : Nat),
      (l.foldl (addOutput body) st).1 j = true → st.1 j = true := by
  induction l with
  | nil => intro st j h; exact h
  | cons a l ih =>
    intro st j h
    rw [List.foldl_cons] at h
    exact hbody a st.1 j (ih (addOutput body st a) j h)

/-- `GreedyMeshing2D` only clears bits: a bit set on return was set on entry. -/
theorem GreedyMeshing2D_mono (N : Nat) (F : TVoxelStaticBitArray) (j : Nat)
    (h : (GreedyMeshing2D N F).1 j = true) : F j = true := by
  unfold GreedyMeshing2D at h
  refine foldl_addOutput_mono _ ?_ _ _ j h
  intro Layer G j hj
  unfold layer2D at hj
  refine foldl_addOutput_mono _ ?_ _ _ j hj
  intro X G j hj
  exact yLoop2D_mono _ _ _ _ _ _ _ hj

/-- C21. Residual mask of `GreedyMeshing2D`: for every input face mask,
`GreedyMeshing2D` never sets a bit (a bit set on return was set on entry), and
a bit `(layer, u, v)` of the grid is set in the mask when the function returns
if and only if `(layer, u, v) = (Layer, StartX, StartY)` for some emitted quad;
hence the number of set bits left equals the number of emitted quads. -/
theorem residual_mask (N : Nat) (F : TVoxelStaticBitArray)
    (hN : N * N % NumBitsPerWord = 0) :
    (∀ i : Nat, (GreedyMeshing2D N F).1 i = true → F i = true) ∧
    (∀ layer u v : Nat, layer < N → u < N → v < N →
      ((GreedyMeshing2D N F).1 (u + v * N + layer * N * N) = true ↔
        ∃ q ∈ (GreedyMeshing2D N F).2, (layer, u, v) = (q.Layer, q.StartX, q.StartY))) ∧
    ((List.range (N * N * N)).filter (fun i => (GreedyMeshing2D N F).1 i)).length =
      (GreedyMeshing2D N F).2.length := by
  have inv := GreedyMeshing2D_inv hN F
  have hres : ∀ layer u v : Nat, layer < N → u < N → v < N →
      ((GreedyMeshing2D N F).1 (u + v * N + layer * N * N) = true ↔
        ∃ q ∈ (GreedyMeshing2D N F).2, (layer, u, v) = (q.Layer, q.StartX, q.StartY)) := by
    intro layer u v hl hu hv
    have hU : inGrid N (u, v, layer) := ⟨hu, hv, hl⟩
    have := inv.resid (u, v, layer) hU (passed2D_all _ hU)
    simp only [cellBit] at this
    rw [this]
    constructor
    · rintro ⟨r, hr, hs⟩
      refine ⟨r, hr, ?_⟩
      simp only [FCubicQuad.seed, Prod.mk.injEq] at hs
      simp only [Prod.mk.injEq]
      exact ⟨hs.2.2.symm, hs.1.symm, hs.2.1.symm⟩
    · rintro ⟨r, hr, hs⟩
      refine ⟨r, hr, ?_⟩
      simp only [Prod.mk.injEq] at hs
      simp only [FCubicQuad.seed, Prod.mk.injEq]
      exact ⟨hs.2.1.symm, hs.2.2.symm, hs.1.symm⟩
  refine ⟨fun i h => GreedyMeshing2D_mono N F i h, hres, ?_⟩
  have hperm : ((GreedyMeshing2D N F).2.map
      (fun q => q.StartX + q.StartY * N + q.Layer * N * N)).Perm
      ((List.range (N * N * N)).filter (fun i => (GreedyMeshing2D N F).1 i)) := by
    rw [List.perm_ext_iff_of_nodup]
    · intro i
      simp only [List.mem_map, List.mem_filter, List.mem_range]
      constructor
      · rintro ⟨q, hq, rfl⟩
        have hs := (inv.seedIn q hq).1
        obtain ⟨hU, _⟩ := inv.sound q hq _ hs
        exact ⟨cell_index_lt hU.1 hU.2.1 hU.2.2,
          (hres q.Layer q.StartX q.StartY hU.2.2 hU.1 hU.2.1).2 ⟨q, hq, rfl⟩⟩
      · rintro ⟨hi, hb⟩
        obtain ⟨u, v, l, hu, hv, hl, rfl⟩ := cell_index_decompose hi
        obtain ⟨q, hq, e⟩ := (hres l u v hl hu hv).1 hb
        simp only [Prod.mk.injEq] at e
        exact ⟨q, hq, by rw [e.1, e.2.1, e.2.2]⟩
    · rw [List.Nodup, List.pairwise_map]
      exact inv.disj.imp_of_mem (fun ha hb hd => seed_index_inj hN F ha hb hd)
    · exact (List.nodup_range _).filter _
  have := hperm.length_eq
  rw [List.length_map] at this
  exact this.symm

/-- C21 at `N = 8` on `exampleMask`. -/
theorem residual_mask_witness :
    8 * 8 % NumBitsPerWord = 0 ∧
    ((∀ i : Nat, (GreedyMeshing2D 8 exampleMask).1 i = true → exampleMask i = true) ∧
    (∀ layer u v : Nat, layer < 8 → u < 8 → v < 8 →
      ((GreedyMeshing2D 8 exampleMask).1 (u + v * 8 + layer * 8 * 8) = true ↔
        ∃ q ∈ (GreedyMeshing2D 8 exampleMask).2,
          (layer, u, v) = (q.Layer, q.StartX, q.StartY))) ∧
    ((List.range (8 * 8 * 8)).filter (fun i => (GreedyMeshing2D 8 exampleMask).1 i)).length =
      (GreedyMeshing2D 8 exampleMask).2.length) :=
  ⟨by decide, residual_mask 8 exampleMask (by decide)⟩


/-! ## Height of the quads, by position in the output -/

/-- The list splits at the position of its `i`-th element. -/
theorem split_at_index {α : Type} (l : List α) (i : Nat) (a : α) (h : l[i]? = some a) :
    l = l.take i ++ a :: l.drop (i + 1) := by
  obtain ⟨hi, rfl⟩ := List.getElem?_eq_some.1 h
  rw [← List.drop_eq_getElem_cons hi, List.take_append_drop]

theorem mem_take_index {α : Type} (l : List α) (i : Nat) (r : α) (h : r ∈ l.take i) :
    ∃ j, j < i ∧ l[j]? = some r := by
  obtain ⟨j, hj, e⟩ := List.mem_iff_getElem.1 h
  rw [List.length_take] at hj
  refine ⟨j, by omega, ?_⟩
  rw [List.getElem_take] at e
  rw [List.getElem?_eq_getElem (by omega), e]

/-- C22. Height maximality against the residual: for every input face mask `F`
and every quad emitted by `GreedyMeshing2D` (the `i`-th of the output sequence)
with `StartY + SizeY < N`, the extension row `v = StartY + SizeY`,
`u ∈ [StartX, StartX + SizeX)` of layer `Layer` contains at least one cell that
is either unset in `F` (as passed in) or inside a quad emitted earlier in the
output sequence (the `j`-th, for some `j < i`). -/
theorem height_maximal_residual (N : Nat) (F : TVoxelStaticBitArray)
    (hN : N * N % NumBitsPerWord = 0) (i : Nat) (q : FCubicQuad)
    (hq : (GreedyMeshing2D N F).2[i]? = some q) (hlt : q.StartY + q.SizeY < N) :
    ∃ u, q.StartX ≤ u ∧ u < q.StartX + q.SizeX ∧
      (F (u + (q.StartY + q.SizeY) * N + q.Layer * N * N) = false ∨
        ∃ j r, j < i ∧ (GreedyMeshing2D N F).2[j]? = some r ∧
          r.covers (u, q.StartY + q.SizeY, q.Layer)) := by
  obtain ⟨_, _, _, _, _, _, hh, _⟩ :=
    GreedyMeshing2D_split_quadProp hN F (split_at_index _ i q hq)
  rcases hh with hh | ⟨k, hk, hd⟩
  · omega
  · refine ⟨q.StartX + k, by omega, by omega, ?_⟩
    rcases hd with hd | ⟨r, hr, hc⟩
    · exact Or.inl hd
    · obtain ⟨j, hj, e⟩ := mem_take_index _ i r hr
      exact Or.inr ⟨j, r, hj, e, hc⟩

/-- C22 at `N = 8` on `cornerMask`, for the second quad `(0, 1, 0, 1, 1)` of
the output. -/
theorem height_maximal_residual_witness :
    (8 * 8 % NumBitsPerWord = 0 ∧
      (GreedyMeshing2D 8 cornerMask).2[1]? = some (FCubicQuad.mk 0 1 0 1 1) ∧
      (FCubicQuad.mk 0 1 0 1 1).StartY + (FCubicQuad.mk 0 1 0 1 1).SizeY < 8) ∧
    ∃ u, (FCubicQuad.mk 0 1 0 1 1).StartX ≤ u ∧
      u < (FCubicQuad.mk 0 1 0 1 1).StartX + (FCubicQuad.mk 0 1 0 1 1).SizeX ∧
      (cornerMask (u + ((FCubicQuad.mk 0 1 0 1 1).StartY + (FCubicQuad.mk 0 1 0 1 1).SizeY) * 8 +
          (FCubicQuad.mk 0 1 0 1 1).Layer * 8 * 8) = false ∨
        ∃ j r, j < 1 ∧ (GreedyMeshing2D 8 cornerMask).2[j]? = some r ∧
          r.covers (u, (FCubicQuad.mk 0 1 0 1 1).StartY + (FCubicQuad.mk 0 1 0 1 1).SizeY,
            (FCubicQuad.mk 0 1 0 1 1).Layer)) :=
  ⟨⟨by decide, by decide, by decide⟩,
    height_maximal_residual 8 cornerMask (by decide) 1 (FCubicQuad.mk 0 1 0 1 1) (by decide)
      (by decide)⟩


/-! ## The assertions of `GetValue` in the cull pass -/

/-- The index `GetValue` forms for coordinates in `[-1, N]` lies in the padded
window. -/
theorem window_index_bound (N : Nat) (x y z : Int) (hx : -1 ≤ x ∧ x ≤ N) (hy : -1 ≤ y ∧ y ≤ N)
    (hz : -1 ≤ z ∧ z ≤ N) :
    0 ≤ (x + 1) + (y + 1) * ((N : Int) + 2) + (z + 1) * ((N : Int) + 2) * ((N : Int) + 2) ∧
    (x + 1) + (y + 1) * ((N : Int) + 2) + (z + 1) * ((N : Int) + 2) * ((N : Int) + 2) <
      ((N : Int) + 2) * ((N : Int) + 2) * ((N : Int) + 2) := by
  obtain ⟨a, ha⟩ : ∃ a : Nat, x + 1 = a := ⟨(x + 1).toNat, by omega⟩
  obtain ⟨b, hb⟩ : ∃ b : Nat, y + 1 = b := ⟨(y + 1).toNat, by omega⟩
  obtain ⟨c, hc⟩ : ∃ c : Nat, z + 1 = c := ⟨(z + 1).toNat, by omega⟩
  have h := cell_index_lt (N := N + 2) (u := a) (v := b) (l := c) (by omega) (by omega) (by omega)
  rw [ha, hb, hc]
  constructor
  · positivity
  · exact_mod_cast h

theorem GetValueChecked_eq (N : Nat) (W : TVoxelStaticBitArray) (x y z : Int)
    (hx : -1 ≤ x ∧ x ≤ N) (hy : -1 ≤ y ∧ y ≤ N) (hz : -1 ≤ z ∧ z ≤ N) :
    GetValueChecked N W x y z = some (GetValue N W x y z) := by
  have h := window_index_bound N x y z hx hy hz
  unfold GetValueChecked
  rw [if_pos]
  exact ⟨⟨hx.1, by omega⟩, ⟨hy.1, by omega⟩, ⟨hz.1, by omega⟩, h.1, h.2⟩

theorem slabTestChecked_eq (N : Nat) (W : TVoxelStaticBitArray) (a b : Int × Int × Int)
    (ha : (-1 ≤ a.1 ∧ a.1 ≤ N) ∧ (-1 ≤ a.2.1 ∧ a.2.1 ≤ N) ∧ (-1 ≤ a.2.2 ∧ a.2.2 ≤ N))
    (hb : (-1 ≤ b.1 ∧ b.1 ≤ N) ∧ (-1 ≤ b.2.1 ∧ b.2.1 ≤ N) ∧ (-1 ≤ b.2.2 ∧ b.2.2 ≤ N)) :
    slabTestChecked N W a b =
      some (!(!GetValue N W a.1 a.2.1 a.2.2 || !GetValue N W b.1 b.2.1 b.2.2)) := by
  unfold slabTestChecked
  rw [GetValueChecked_eq N W _ _ _ ha.1 ha.2.1 ha.2.2,
    GetValueChecked_eq N W _ _ _ hb.1 hb.2.1 hb.2.2]
  cases GetValue N W a.1 a.2.1 a.2.2 <;> cases GetValue N W b.1 b.2.1 b.2.2 <;> rfl

theorem forAllChecked_eq (l : List Int) (body : Int → Option Bool) (g : Int → Bool)
    (h : ∀ x ∈ l, body x = some (g x)) : forAllChecked l body = some (l.all g) := by
  induction l with
  | nil => rfl
  | cons x xs ih =>
    unfold forAllChecked
    rw [h x (List.mem_cons_self x xs)]
    cases hg : g x
    · simp [hg]
    · simp only [List.all_cons, hg, Bool.true_and]
      exact ih (fun y hy => h y (List.mem_cons_of_mem x hy))

theorem cullPredicateChecked_eq (N : Nat) (W : TVoxelStaticBitArray) (Cube : FVoxelIntBox)
    (hX : 0 ≤ Cube.Min.X ∧ Cube.Min.X < Cube.Max.X ∧ Cube.Max.X ≤ N)
    (hY : 0 ≤ Cube.Min.Y ∧ Cube.Min.Y < Cube.Max.Y ∧ Cube.Max.Y ≤ N)
    (hZ : 0 ≤ Cube.Min.Z ∧ Cube.Min.Z < Cube.Max.Z ∧ Cube.Max.Z ≤ N) :
    cullPredicateChecked N W Cube = some (cullPredicate N W Cube) := by
  have h1 : (forAllChecked (intRange Cube.Min.X Cube.Max.X) fun X =>
      forAllChecked (intRange Cube.Min.Y Cube.Max.Y) fun Y =>
        slabTestChecked N W (X, Y, Cube.Min.Z - 1) (X, Y, Cube.Max.Z)) =
      some ((intRange Cube.Min.X Cube.Max.X).all fun X =>
        (intRange Cube.Min.Y Cube.Max.Y).all fun Y =>
          !(!GetValue N W X Y (Cube.Min.Z - 1) || !GetValue N W X Y Cube.Max.Z)) := by
    apply forAllChecked_eq
    intro X hXm
    apply forAllChecked_eq
    intro Y hYm
    rw [mem_intRange] at hXm hYm
    exact slabTestChecked_eq N W _ _ ⟨by simp only; omega, by simp only; omega, by simp only; omega⟩
      ⟨by simp only; omega, by simp only; omega, by simp only; omega⟩
  have h2 : (forAllChecked (intRange Cube.Min.X Cube.Max.X) fun X =>
      forAllChecked (intRange Cube.Min.Z Cube.Max.Z) fun Z =>
        slabTestChecked N W (X, Cube.Min.Y - 1, Z) (X, Cube.Max.Y, Z)) =
      some ((intRange Cube.Min.X Cube.Max.X).all fun X =>
        (intRange Cube.Min.Z Cube.Max.Z).all fun Z =>
          !(!GetValue N W X (Cube.Min.Y - 1) Z || !GetValue N W X Cube.Max.Y Z)) := by
    apply forAllChecked_eq
    intro X hXm
    apply forAllChecked_eq
    intro Z hZm
    rw [mem_intRange] at hXm hZm
    exact slabTestChecked_eq N W _ _ ⟨by simp only; omega, by simp only; omega, by simp only; omega⟩
      ⟨by simp only; omega, by simp only; omega, by simp only; omega⟩
  have h3 : (forAllChecked (intRange Cube.Min.Y Cube.Max.Y) fun Y =>
      forAllChecked (intRange Cube.Min.Z Cube.Max.Z) fun Z =>
        slabTestChecked N W (Cube.Min.X - 1, Y, Z) (Cube.Max.X, Y, Z)) =
      some ((intRange Cube.Min.Y Cube.Max.Y).all fun Y =>
        (intRange Cube.Min.Z Cube.Max.Z).all fun Z =>
          !(!GetValue N W (Cube.Min.X - 1) Y Z || !GetValue N W Cube.Max.X Y Z)) := by
    apply forAllChecked_eq
    intro Y hYm
    apply forAllChecked_eq
    intro Z hZm
    rw [mem_intRange] at hYm hZm
    exact slabTestChecked_eq N W _ _ ⟨by simp only; omega, by simp only; omega, by simp only; omega⟩
      ⟨by simp only; omega, by simp only; omega, by simp only; omega⟩
  unfold cullPredicateChecked cullPredicate
  rw [h1, h2, h3]
  generalize ((intRange Cube.Min.X Cube.Max.X).all fun X =>
        (intRange Cube.Min.Y Cube.Max.Y).all fun Y =>
          !(!GetValue N W X Y (Cube.Min.Z - 1) || !GetValue N W X Y Cube.Max.Z)) = A
  generalize ((intRange Cube.Min.X Cube.Max.X).all fun X =>
        (intRange Cube.Min.Z Cube.Max.Z).all fun Z =>
          !(!GetValue N W X (Cube.Min.Y - 1) Z || !GetValue N W X Cube.Max.Y Z)) = B
  generalize ((intRange Cube.Min.Y Cube.Max.Y).all fun Y =>
        (intRange Cube.Min.Z Cube.Max.Z).all fun Z =>
          !(!GetValue N W (Cube.Min.X - 1) Y Z || !GetValue N W Cube.Max.X Y Z)) = C
  cases A <;> cases B <;> cases C <;> rfl

/-- C23. Cull stays inside the padded window: for every input grid `D`, every
box emitted by `GreedyMeshing3D` satisfies `0 ≤ Min < Max ≤ N` componentwise,
so every voxel `(X, Y, Z)` of the six slabs the cull predicate reads on such a
box has `-1 ≤ X, Y, Z ≤ N` and its index
`(X+1) + (Y+1)*(N+2) + (Z+1)*(N+2)²` lies in `[0, (N+2)³)`; the cull predicate
run with the range assertions of `GetValue` made explicit does not fail, for
any window `W`: it returns the value of the predicate. -/
theorem cull_inside_window (N : Nat) (D W : TVoxelStaticBitArray) (b : FVoxelIntBox)
    (hb : b ∈ (GreedyMeshing3D N D).2) :
    ((0 ≤ b.Min.X ∧ b.Min.X < b.Max.X ∧ b.Max.X ≤ N) ∧
      (0 ≤ b.Min.Y ∧ b.Min.Y < b.Max.Y ∧ b.Max.Y ≤ N) ∧
      (0 ≤ b.Min.Z ∧ b.Min.Z < b.Max.Z ∧ b.Max.Z ≤ N)) ∧
    (∀ x y z : Int, b.inSlabs x y z →
      (-1 ≤ x ∧ x ≤ N) ∧ (-1 ≤ y ∧ y ≤ N) ∧ (-1 ≤ z ∧ z ≤ N) ∧
      0 ≤ (x + 1) + (y + 1) * ((N : Int) + 2) + (z + 1) * ((N : Int) + 2) * ((N : Int) + 2) ∧
      (x + 1) + (y + 1) * ((N : Int) + 2) + (z + 1) * ((N : Int) + 2) * ((N : Int) + 2) <
        ((N : Int) + 2) * ((N : Int) + 2) * ((N : Int) + 2)) ∧
    cullPredicateChecked N W b = some (cullPredicate N W b) := by
  obtain ⟨pre, post, e, X, Y, Z, SX, SY, SZ, rfl, h1, h2, h3, h4, h5, h6, _⟩ :=
    GreedyMeshing3D_boxProp N D hb
  refine ⟨⟨⟨by simp only; omega, by simp only; omega, by simp only; omega⟩,
    ⟨by simp only; omega, by simp only; omega, by simp only; omega⟩,
    ⟨by simp only; omega, by simp only; omega, by simp only; omega⟩⟩, ?_, ?_⟩
  · intro x y z hs
    simp only [FVoxelIntBox.inSlabs] at hs
    have hx : -1 ≤ x ∧ x ≤ N := by omega
    have hy : -1 ≤ y ∧ y ≤ N := by omega
    have hz : -1 ≤ z ∧ z ≤ N := by omega
    have := window_index_bound N x y z hx hy hz
    exact ⟨hx, hy, hz, this.1, this.2⟩
  · exact cullPredicateChecked_eq N W _
      ⟨by simp only; omega, by simp only; omega, by simp only; omega⟩
      ⟨by simp only; omega, by simp only; omega, by simp only; omega⟩
      ⟨by simp only; omega, by simp only; omega, by simp only; omega⟩

/-- C23 at `N = 8` on `cornerGrid`, for the box of the voxel `(7, 7, 7)`, whose
upper slabs lie at coordinate `8 = N`, read in the window `solidWindow`. -/
theorem cull_inside_window_witness :
    FVoxelIntBox.mk ⟨7, 7, 7⟩ ⟨8, 8, 8⟩ ∈ (GreedyMeshing3D 8 cornerGrid).2 ∧
    (((0 ≤ (FVoxelIntBox.mk ⟨7, 7, 7⟩ ⟨8, 8, 8⟩).Min.X ∧
        (FVoxelIntBox.mk ⟨7, 7, 7⟩ ⟨8, 8, 8⟩).Min.X < (FVoxelIntBox.mk ⟨7, 7, 7⟩ ⟨8, 8, 8⟩).Max.X ∧
        (FVoxelIntBox.mk ⟨7, 7, 7⟩ ⟨8, 8, 8⟩).Max.X ≤ (8 : Nat)) ∧
      (0 ≤ (FVoxelIntBox.mk ⟨7, 7, 7⟩ ⟨8, 8, 8⟩).Min.Y ∧
        (FVoxelIntBox.mk ⟨7, 7, 7⟩ ⟨8, 8, 8⟩).Min.Y < (FVoxelIntBox.mk ⟨7, 7, 7⟩ ⟨8, 8, 8⟩).Max.Y ∧
        (FVoxelIntBox.mk ⟨7, 7, 7⟩ ⟨8, 8, 8⟩).Max.Y ≤ (8 : Nat)) ∧
      (0 ≤ (FVoxelIntBox.mk ⟨7, 7, 7⟩ ⟨8, 8, 8⟩).Min.Z ∧
        (FVoxelIntBox.mk ⟨7, 7, 7⟩ ⟨8, 8, 8⟩).Min.Z < (FVoxelIntBox.mk ⟨7, 7, 7⟩ ⟨8, 8, 8⟩).Max.Z ∧
        (FVoxelIntBox.mk ⟨7, 7, 7⟩ ⟨8, 8, 8⟩).Max.Z ≤ (8 : Nat))) ∧
    (∀ x y z : Int, (FVoxelIntBox.mk ⟨7, 7, 7⟩ ⟨8, 8, 8⟩).inSlabs x y z →
      (-1 ≤ x ∧ x ≤ (8 : Nat)) ∧ (-1 ≤ y ∧ y ≤ (8 : Nat)) ∧ (-1 ≤ z ∧ z ≤ (8 : Nat)) ∧
      0 ≤ (x + 1) + (y + 1) * (((8 : Nat) : Int) + 2) +
        (z + 1) * (((8 : Nat) : Int) + 2) * (((8 : Nat) : Int) + 2) ∧
      (x + 1) + (y + 1) * (((8 : Nat) : Int) + 2) +
          (z + 1) * (((8 : Nat) : Int) + 2) * (((8 : Nat) : Int) + 2) <
        (((8 : Nat) : Int) + 2) * (((8 : Nat) : Int) + 2) * (((8 : Nat) : Int) + 2)) ∧
    cullPredicateChecked 8 solidWindow (FVoxelIntBox.mk ⟨7, 7, 7⟩ ⟨8, 8, 8⟩) =
      some (cullPredicate 8 solidWindow (FVoxelIntBox.mk ⟨7, 7, 7⟩ ⟨8, 8, 8⟩))) :=
  ⟨by decide, cull_inside_window 8 cornerGrid solidWindow (FVoxelIntBox.mk ⟨7, 7, 7⟩ ⟨8, 8, 8⟩)
    (by decide)⟩
